import Mathlib

/-!
short-url: a shallow embedding of the link service and its code generator

The development follows the Go sources of the repository:

* `internal/utils/encoder.go`   : `Base62Encoder` (`Encode`, `Decode`, `GenerateRandomCode`,
  `GenerateCodeFromID`, `IsValidCode`, `reverseString`);
* `internal/utils/validator.go` : `IsValidURL`, `NormalizeURL`, `IsValidShortCode`;
* `internal/models/shortlink.go`: `ShortLink`, the request and response records, `IsExpired`;
* `internal/service/repository.go`, `internal/cache/*.go`: the Store, the cache and the
  membership filter, as explicit state with injected collaborator failures;
* `internal/service/shortlink.go`, `internal/handler/handler.go`: the service operations and
  the status mapping of the handlers.

Conventions.  A Go `string` is a sequence of bytes; it is modelled by a Lean `String` whose
characters are those bytes (code points below 256), so that `len`, indexing and slicing act
on bytes exactly as in Go, and an ASCII literal denotes itself.  Runes appear only where the
source ranges over a string or converts it to `[]rune`; they are natural numbers obtained by
UTF-8 decoding.  A Go `int64` is an `Int`, wrapped with `wrapInt64` wherever the source
computes a sum or a product that may leave the 64-bit range.  Instants are integers (`Time`).
Go results `(value, err)` are `Except GoError value`.  Logging has no effect on the state and
is left out.
-/

namespace ShortUrl

/-! ## Go primitives -/

/-- Instants (Go `time.Time`, SQL `TIMESTAMPTZ`) and durations on one integer time line. -/
abbrev Time := Int

/-- Two's-complement wrap-around of Go `int64` arithmetic. -/
def wrapInt64 (x : Int) : Int := (x + 2 ^ 63) % 2 ^ 64 - 2 ^ 63

/-- The largest `int64`. -/
def maxInt64 : Int := 2 ^ 63 - 1

/-- Go `len(s)`: the number of bytes of the string. -/
def len (s : String) : Int := (s.data.length : Int)

/-- Go `s[i]` for an index inside the string (the source indexes only `chars`, and only with
indices in range; the byte `0` stands for the panic of an index out of range). -/
def charAt (s : String) (i : Int) : Char :=
  if i < 0 then Char.ofNat 0 else s.data.getD i.toNat (Char.ofNat 0)

/-- Search of `strings.IndexByte` in a byte list, counting from `i`. -/
def indexFrom (c : Char) : List Char → Int → Int
  | [], _ => -1
  | d :: rest, i => if d = c then i else indexFrom c rest (i + 1)

/-- Go `strings.IndexByte(s, c)`: the first index of `c` in `s`, or `-1`. -/
def IndexByte (s : String) (c : Char) : Int := indexFrom c s.data 0

/-- Prefix test on byte lists. -/
def hasPrefixList : List Char → List Char → Bool
  | _, [] => true
  | [], _ :: _ => false
  | c :: s, d :: p => decide (c = d) && hasPrefixList s p

/-- Go `strings.HasPrefix`. -/
def HasPrefix (s pre : String) : Bool := hasPrefixList s.data pre.data

/-- Go `strings.HasSuffix`. -/
def HasSuffix (s suf : String) : Bool := hasPrefixList s.data.reverse suf.data.reverse

/-- Go `strings.TrimSuffix`. -/
def TrimSuffix (s suf : String) : String :=
  if HasSuffix s suf then String.mk (s.data.take (s.data.length - suf.data.length)) else s

/-- Search of `strings.Index` in a byte list, counting from `i`. -/
def indexSubFrom (sub : List Char) : List Char → Int → Int
  | [], i => if sub = [] then i else -1
  | c :: rest, i => if hasPrefixList (c :: rest) sub then i else indexSubFrom sub rest (i + 1)

/-- Go `strings.Index(s, sub)`: the first index at which `sub` occurs in `s`, or `-1`. -/
def Index (s sub : String) : Int := indexSubFrom sub.data s.data 0

/-- Go `strings.Contains`. -/
def Contains (s sub : String) : Bool := decide (0 ≤ Index s sub)

/-- Search of `strings.LastIndex` for a one-byte separator: the last index seen so far is
carried along. -/
def lastIndexFrom (c : Char) : List Char → Int → Int → Int
  | [], _, last => last
  | d :: rest, i, last => lastIndexFrom c rest (i + 1) (if d = c then i else last)

/-- Go `strings.LastIndex(s, sep)` for a one-byte separator. -/
def LastIndexByte (s : String) (c : Char) : Int := lastIndexFrom c s.data 0 (-1)

/-- Go `strings.Count(s, sep)` for a one-byte separator. -/
def CountByte (s : String) (c : Char) : Int := ((s.data.filter fun d => d = c).length : Int)

/-- Go `s[i:]` for `0 ≤ i ≤ len(s)`. -/
def sliceFrom (s : String) (i : Int) : String := String.mk (s.data.drop i.toNat)

/-- Go `s[:i]` for `0 ≤ i ≤ len(s)`. -/
def sliceTo (s : String) (i : Int) : String := String.mk (s.data.take i.toNat)

/-- Go `strings.Cut(s, sep)` for a one-byte separator, on byte lists. -/
def cutList (sep : Char) : List Char → List Char × List Char × Bool
  | [] => ([], [], false)
  | c :: rest =>
    if c = sep then ([], rest, true)
    else ((c :: (cutList sep rest).1), (cutList sep rest).2.1, (cutList sep rest).2.2)

/-- Go `strings.Cut(s, sep)` for a one-byte separator: the text before and after the first
separator, and whether there is one. -/
def Cut (s : String) (sep : Char) : String × String × Bool :=
  (String.mk (cutList sep s.data).1, String.mk (cutList sep s.data).2.1, (cutList sep s.data).2.2)

/-- Go `strings.ToLower` on ASCII letters (other bytes are kept). -/
def ToLower (s : String) : String :=
  String.mk (s.data.map fun c => if 'A' ≤ c ∧ c ≤ 'Z' then Char.ofNat (c.toNat + 32) else c)

/-! ## Runes -/

/-- The rune `utf8.RuneError`, reported for a byte that starts no valid encoding. -/
def RuneError : Nat := 65533

/-- A UTF-8 continuation byte. -/
def isCont (b : Char) : Bool := decide (128 ≤ b.toNat ∧ b.toNat ≤ 191)

/-- Go `utf8.DecodeRuneInString`: the first rune of a non-empty byte list and its width. -/
def DecodeRune : List Char → Nat × Nat
  | [] => (RuneError, 0)
  | b0 :: rest =>
    let x := b0.toNat
    if x < 128 then (x, 1)
    else if 194 ≤ x ∧ x ≤ 223 then
      match rest with
      | b1 :: _ => if isCont b1 then (x % 32 * 64 + b1.toNat % 64, 2) else (RuneError, 1)
      | [] => (RuneError, 1)
    else if 224 ≤ x ∧ x ≤ 239 then
      match rest with
      | b1 :: b2 :: _ =>
        if (if x = 224 then 160 else 128) ≤ b1.toNat ∧ b1.toNat ≤ (if x = 237 then 159 else 191)
            ∧ isCont b2 = true then
          (x % 16 * 4096 + b1.toNat % 64 * 64 + b2.toNat % 64, 3)
        else (RuneError, 1)
      | _ => (RuneError, 1)
    else if 240 ≤ x ∧ x ≤ 244 then
      match rest with
      | b1 :: b2 :: b3 :: _ =>
        if (if x = 240 then 144 else 128) ≤ b1.toNat ∧ b1.toNat ≤ (if x = 244 then 143 else 191)
            ∧ isCont b2 = true ∧ isCont b3 = true then
          (x % 8 * 262144 + b1.toNat % 64 * 4096 + b2.toNat % 64 * 64 + b3.toNat % 64, 4)
        else (RuneError, 1)
      | _ => (RuneError, 1)
    else (RuneError, 1)

/-- The runes of a byte list, as `for _, r := range s` visits them. -/
def runesLoop : Nat → List Char → List Nat
  | 0, _ => []
  | _ + 1, [] => []
  | fuel + 1, b :: rest =>
    (DecodeRune (b :: rest)).1 :: runesLoop fuel ((b :: rest).drop (DecodeRune (b :: rest)).2)

/-- Go `[]rune(s)`, also the runes visited by `range s`. -/
def runes (s : String) : List Nat := runesLoop s.data.length s.data

/-- Go `utf8.AppendRune`: the bytes of one rune; a surrogate or a rune beyond U+10FFFF is
written as `RuneError`. -/
def encodeRune (r : Nat) : List Char :=
  if r < 128 then [Char.ofNat r]
  else if r < 2048 then [Char.ofNat (192 + r / 64), Char.ofNat (128 + r % 64)]
  else if (55296 ≤ r ∧ r ≤ 57343) ∨ 1114111 < r then
    [Char.ofNat 239, Char.ofNat 191, Char.ofNat 189]
  else if r < 65536 then
    [Char.ofNat (224 + r / 4096), Char.ofNat (128 + r / 64 % 64), Char.ofNat (128 + r % 64)]
  else
    [Char.ofNat (240 + r / 262144), Char.ofNat (128 + r / 4096 % 64),
      Char.ofNat (128 + r / 64 % 64), Char.ofNat (128 + r % 64)]

/-- Go `string(runes)`. -/
def stringOfRunes (rs : List Nat) : String := String.mk (rs.flatMap encodeRune)

/-- Go `strings.ContainsRune(s, r)`, that is `strings.IndexRune(s, r) >= 0`. -/
def ContainsRune (s : String) (r : Nat) : Bool :=
  if r < 128 then decide (0 ≤ IndexByte s (Char.ofNat r))
  else if r = RuneError then (runes s).contains RuneError
  else if (55296 ≤ r ∧ r ≤ 57343) ∨ 1114111 < r then false
  else decide (0 ≤ indexSubFrom (encodeRune r) s.data 0)

/-! ## Errors -/

/-- The package-level error values that the code compares by identity: the four errors of
package `service`, `pgx.ErrNoRows` and `redis.Nil`. -/
inductive Sentinel
  | ErrShortCodeNotFound
  | ErrShortCodeExists
  | ErrExpiredLink
  | ErrInvalidURL
  | pgxErrNoRows
  | redisNil
  deriving DecidableEq, Repr

/-- Go error values.  `sentinel` is one of the package-level values; `errorf msg` is a fresh
value made by `fmt.Errorf` without `%w`; `wrapf msg w` is a fresh value made by `fmt.Errorf`
whose `%w` wraps `w`; `external` is a failure reported by a library (database driver, Redis
client, entropy source, URL parser). -/
inductive GoError
  | sentinel (s : Sentinel)
  | errorf (msg : String)
  | wrapf (msg : String) (wrapped : GoError)
  | external (desc : String)
  deriving DecidableEq, Repr

/-- Go `errors.Is(err, target)` for a sentinel target: walks the chain of wrapped errors and
compares by identity. -/
def errorsIs : GoError → Sentinel → Bool
  | GoError.sentinel s, t => decide (s = t)
  | GoError.errorf _, _ => false
  | GoError.wrapf _ w, t => errorsIs w t
  | GoError.external _, _ => false

/-- Equality of Go results `(value, err)` is decidable. -/
instance instDecidableEqExcept {ε α : Type} [DecidableEq ε] [DecidableEq α] :
    DecidableEq (Except ε α)
  | Except.ok a, Except.ok b =>
    if h : a = b then isTrue (by rw [h]) else isFalse (fun h2 => h (Except.ok.inj h2))
  | Except.error a, Except.error b =>
    if h : a = b then isTrue (by rw [h]) else isFalse (fun h2 => h (Except.error.inj h2))
  | Except.ok _, Except.error _ => isFalse (fun h => Except.noConfusion h)
  | Except.error _, Except.ok _ => isFalse (fun h => Except.noConfusion h)

/-! ## The random source -/

/-- The entropy source `rand.Reader`: `draw k` is the outcome of the `k`-th read still to
come, either a failure or a raw number. -/
structure RandReader where
  draw : Nat → Except GoError Nat

/-- Go `rand.Int(rand.Reader, max)`: a failure of the source, or a number in `[0, max)`;
the source moves on by one read. -/
def randInt (r : RandReader) (max : Int) : Except GoError Int × RandReader :=
  (match r.draw 0 with
    | Except.error err => Except.error err
    | Except.ok v => Except.ok ((v : Int) % max),
   { draw := fun k => r.draw (k + 1) })

/-! ## `internal/utils/encoder.go` -/

/-- The constant `base62Chars`. -/
def base62Chars : String := "0123456789ABCDEFGHIJKLMNOPQRSTUVWXYZabcdefghijklmnopqrstuvwxyz"

/-- The constant `defaultCodeLength`. -/
def defaultCodeLength : Int := 6

/-- The struct `Base62Encoder`. -/
structure Base62Encoder where
  chars : String
  base : Int
  codeLength : Int
  deriving DecidableEq, Repr

/-- Go `NewBase62Encoder`. -/
def NewBase62Encoder : Base62Encoder :=
  { chars := base62Chars, base := len base62Chars, codeLength := defaultCodeLength }

/-- Go `SetCodeLength`: only a positive length is taken over. -/
def SetCodeLength (e : Base62Encoder) (length : Int) : Base62Encoder :=
  if length > 0 then { e with codeLength := length } else e

/-- One exchange `runes[i], runes[j] = runes[j], runes[i]`. -/
def swapRunes (rs : List Nat) (i j : Nat) : List Nat :=
  (rs.set i (rs.getD j 0)).set j (rs.getD i 0)

/-- The loop of `reverseString`: `for i, j := 0, len(runes)-1; i < j; i, j = i+1, j-1`. -/
def reverseLoop : Nat → List Nat → Int → Int → List Nat
  | 0, rs, _, _ => rs
  | fuel + 1, rs, i, j =>
    if i < j then reverseLoop fuel (swapRunes rs i.toNat j.toNat) (i + 1) (j - 1) else rs

/-- Go `reverseString`: to runes, two-index swap loop, back to a string. -/
def reverseString (s : String) : String :=
  stringOfRunes (reverseLoop (runes s).length (runes s) 0 (((runes s).length : Int) - 1))

/-- The loop of `Encode`: `for num > 0 { WriteByte(chars[num%base]); num /= base }`. -/
def encodeLoop (e : Base62Encoder) : Nat → Int → List Char → List Char
  | 0, _, result => result
  | fuel + 1, num, result =>
    if num > 0 then
      encodeLoop e fuel (num.tdiv e.base) (result ++ [charAt e.chars (num.tmod e.base)])
    else result

/-- Go `Base62Encoder.Encode`. -/
def Encode (e : Base62Encoder) (num : Int) : String :=
  if num = 0 then String.mk [charAt e.chars 0]
  else reverseString (String.mk (encodeLoop e num.toNat num []))

/-- The loop of `Decode`, over the bytes from the last to the first, with `int64`
arithmetic; an unknown symbol ends the loop with `0`. -/
def decodeLoop (e : Base62Encoder) : List Char → Int → Int → Int
  | [], result, _ => result
  | char :: rest, result, power =>
    let index := IndexByte e.chars char
    if index = -1 then 0
    else decodeLoop e rest (wrapInt64 (result + wrapInt64 (index * power)))
      (wrapInt64 (power * e.base))

/-- Go `Base62Encoder.Decode`. -/
def Decode (e : Base62Encoder) (encoded : String) : Int :=
  decodeLoop e encoded.data.reverse 0 1

/-- The loop shared by `GenerateRandomCode` and `GenerateCodeFromID`:
`for i := range code { randomIndex, err := rand.Int(...); code[i] = chars[randomIndex] }`. -/
def randomFill (e : Base62Encoder) : Nat → Nat → List Char → RandReader →
    Except GoError (List Char) × RandReader
  | 0, _, code, r => (Except.ok code, r)
  | n + 1, i, code, r =>
    match randInt r e.base with
    | (Except.error err, r1) => (Except.error err, r1)
    | (Except.ok randomIndex, r1) =>
      randomFill e n (i + 1) (code.set i (charAt e.chars randomIndex)) r1

/-- Go `Base62Encoder.GenerateRandomCode`. -/
def GenerateRandomCode (e : Base62Encoder) (r : RandReader) :
    Except GoError String × RandReader :=
  let code := List.replicate e.codeLength.toNat (Char.ofNat 0)
  match randomFill e code.length 0 code r with
  | (Except.error err, r1) => (Except.error err, r1)
  | (Except.ok code1, r1) => (Except.ok (String.mk code1), r1)

/-- Go `Base62Encoder.GenerateCodeFromID`. -/
def GenerateCodeFromID (e : Base62Encoder) (id : Int) (r : RandReader) :
    Except GoError String × RandReader :=
  let encoded := Encode e id
  if len encoded < e.codeLength then
    let padding := e.codeLength - len encoded
    let randomPart := List.replicate padding.toNat (Char.ofNat 0)
    match randomFill e randomPart.length 0 randomPart r with
    | (Except.error err, r1) => (Except.error err, r1)
    | (Except.ok part, r1) => (Except.ok (String.mk part ++ encoded), r1)
  else (Except.ok encoded, r)

/-- Go `Base62Encoder.IsValidCode`: every rune of the code is in `chars`. -/
def IsValidCode (e : Base62Encoder) (code : String) : Bool :=
  (runes code).all fun char => ContainsRune e.chars char

/-! ## Go `net/url` (standard library): `url.Parse` and `URL.String`

`IsValidURL` and `NormalizeURL` call into the standard library; the functions below follow
`net/url/url.go`, one definition per Go function. -/

/-- The escaping modes of `net/url`. -/
inductive encoding
  | encodePath
  | encodePathSegment
  | encodeHost
  | encodeZone
  | encodeUserPassword
  | encodeQueryComponent
  | encodeFragment
  deriving DecidableEq, Repr

/-- The struct `url.Userinfo`. -/
structure Userinfo where
  username : String
  password : String
  passwordSet : Bool
  deriving DecidableEq, Repr

/-- The struct `url.URL`. -/
structure URL where
  Scheme : String
  Opaque : String
  User : Option Userinfo
  Host : String
  Path : String
  RawPath : String
  OmitHost : Bool
  ForceQuery : Bool
  RawQuery : String
  Fragment : String
  RawFragment : String
  deriving DecidableEq, Repr

/-- The zero value `new(URL)`. -/
def emptyURL : URL :=
  { Scheme := "", Opaque := "", User := none, Host := "", Path := "", RawPath := "",
    OmitHost := false, ForceQuery := false, RawQuery := "", Fragment := "", RawFragment := "" }

/-- ASCII letter. -/
def isLetter (c : Char) : Bool := decide (('a' ≤ c ∧ c ≤ 'z') ∨ ('A' ≤ c ∧ c ≤ 'Z'))

/-- ASCII digit. -/
def isDigit (c : Char) : Bool := decide ('0' ≤ c ∧ c ≤ '9')

/-- Go `ishex`. -/
def ishex (c : Char) : Bool :=
  decide (('0' ≤ c ∧ c ≤ '9') ∨ ('a' ≤ c ∧ c ≤ 'f') ∨ ('A' ≤ c ∧ c ≤ 'F'))

/-- Go `unhex`. -/
def unhex (c : Char) : Nat :=
  if '0' ≤ c ∧ c ≤ '9' then c.toNat - 48
  else if 'a' ≤ c ∧ c ≤ 'f' then c.toNat - 97 + 10
  else if 'A' ≤ c ∧ c ≤ 'F' then c.toNat - 65 + 10
  else 0

/-- Go `shouldEscape`: whether the byte must be percent-encoded in the given mode. -/
def shouldEscape (c : Char) (mode : encoding) : Bool :=
  if isLetter c || isDigit c then false
  else if (mode = encoding.encodeHost ∨ mode = encoding.encodeZone) ∧
      c ∈ ['!', '$', '&', Char.ofNat 39, '(', ')', '*', '+', ',', ';', '=', ':', '[', ']',
        '<', '>', Char.ofNat 34] then false
  else if c ∈ ['-', '_', '.', '~'] then false
  else if c ∈ ['$', '&', '+', ',', '/', ':', ';', '=', '?', '@'] then
    match mode with
    | encoding.encodePath => decide (c = '?')
    | encoding.encodePathSegment => decide (c = '/' ∨ c = ';' ∨ c = ',' ∨ c = '?')
    | encoding.encodeUserPassword => decide (c = '@' ∨ c = '/' ∨ c = '?' ∨ c = ':')
    | encoding.encodeQueryComponent => true
    | encoding.encodeFragment => false
    | _ => true
  else if mode = encoding.encodeFragment ∧ c ∈ ['!', '(', ')', '*'] then false
  else true

/-- The first loop of `unescape`: it checks the percent escapes and, for a host, the bytes. -/
def unescapeCheck (mode : encoding) : List Char → Option GoError
  | [] => none
  | c :: rest =>
    if c = '%' then
      match rest with
      | h1 :: h2 :: rest2 =>
        if !(ishex h1 && ishex h2) then some (GoError.external "invalid URL escape")
        else if mode = encoding.encodeHost ∧ unhex h1 < 8 ∧ [c, h1, h2] ≠ ['%', '2', '5'] then
          some (GoError.external "invalid URL escape")
        else if mode = encoding.encodeZone ∧ [c, h1, h2] ≠ ['%', '2', '5'] ∧
            Char.ofNat (unhex h1 * 16 + unhex h2) ≠ ' ' ∧
            shouldEscape (Char.ofNat (unhex h1 * 16 + unhex h2)) encoding.encodeHost = true then
          some (GoError.external "invalid URL escape")
        else unescapeCheck mode rest2
      | _ => some (GoError.external "invalid URL escape")
    else if c = '+' then unescapeCheck mode rest
    else if (mode = encoding.encodeHost ∨ mode = encoding.encodeZone) ∧ c.toNat < 128 ∧
        shouldEscape c encoding.encodeHost = true then
      some (GoError.external "invalid character in host name")
    else unescapeCheck mode rest

/-- The second loop of `unescape`: it writes the decoded bytes. -/
def unescapeBytes (mode : encoding) : List Char → List Char
  | [] => []
  | c :: rest =>
    if c = '%' then
      match rest with
      | h1 :: h2 :: rest2 => Char.ofNat (unhex h1 * 16 + unhex h2) :: unescapeBytes mode rest2
      | _ => []
    else if c = '+' then
      (if mode = encoding.encodeQueryComponent then ' ' else '+') :: unescapeBytes mode rest
    else c :: unescapeBytes mode rest

/-- Go `unescape`. -/
def unescape (s : String) (mode : encoding) : Except GoError String :=
  match unescapeCheck mode s.data with
  | some err => Except.error err
  | none => Except.ok (String.mk (unescapeBytes mode s.data))

/-- The writing loop of `escape`. -/
def escapeBytes (mode : encoding) : List Char → List Char
  | [] => []
  | c :: rest =>
    if shouldEscape c mode then
      if c = ' ' ∧ mode = encoding.encodeQueryComponent then '+' :: escapeBytes mode rest
      else '%' :: charAt "0123456789ABCDEF" ((c.toNat / 16 : Nat) : Int) ::
        charAt "0123456789ABCDEF" ((c.toNat % 16 : Nat) : Int) :: escapeBytes mode rest
    else c :: escapeBytes mode rest

/-- Go `escape`. -/
def escape (s : String) (mode : encoding) : String := String.mk (escapeBytes mode s.data)

/-- Go `stringContainsCTLByte`. -/
def stringContainsCTLByte (s : String) : Bool := s.data.any fun b => b < ' ' || b.toNat = 127

/-- The loop of `getScheme` from index `i` on. -/
def getSchemeLoop (rawURL : String) : List Char → Int → Except GoError (String × String)
  | [], _ => Except.ok ("", rawURL)
  | c :: rest, i =>
    if isLetter c then getSchemeLoop rawURL rest (i + 1)
    else if isDigit c ∨ c = '+' ∨ c = '-' ∨ c = '.' then
      if i = 0 then Except.ok ("", rawURL) else getSchemeLoop rawURL rest (i + 1)
    else if c = ':' then
      if i = 0 then Except.error (GoError.external "missing protocol scheme")
      else Except.ok (sliceTo rawURL i, sliceFrom rawURL (i + 1))
    else Except.ok ("", rawURL)

/-- Go `getScheme`: the scheme and the text after its colon. -/
def getScheme (rawURL : String) : Except GoError (String × String) :=
  getSchemeLoop rawURL rawURL.data 0

/-- Go `validOptionalPort`: empty, or a colon followed by digits only. -/
def validOptionalPort (port : String) : Bool :=
  match port.data with
  | [] => true
  | c :: rest => decide (c = ':') && rest.all isDigit

/-- Go `validUserinfo`. -/
def validUserinfo (s : String) : Bool :=
  (runes s).all fun r =>
    decide ((65 ≤ r ∧ r ≤ 90) ∨ (97 ≤ r ∧ r ≤ 122) ∨ (48 ≤ r ∧ r ≤ 57)) ||
      (['-', '.', '_', ':', '~', '!', '$', '&', Char.ofNat 39, '(', ')', '*', '+', ',', ';',
        '=', '%', '@'].map Char.toNat).contains r

/-- Go `parseHost`. -/
def parseHost (host : String) : Except GoError String :=
  if HasPrefix host "[" then
    let i := LastIndexByte host ']'
    if i < 0 then Except.error (GoError.external "missing ']' in host")
    else if !validOptionalPort (sliceFrom host (i + 1)) then
      Except.error (GoError.external "invalid port after host")
    else
      let zone := Index (sliceTo host i) "%25"
      if zone ≥ 0 then
        match unescape (sliceTo host zone) encoding.encodeHost with
        | Except.error err => Except.error err
        | Except.ok host1 =>
          match unescape (sliceTo (sliceFrom host zone) (i - zone)) encoding.encodeZone with
          | Except.error err => Except.error err
          | Except.ok host2 =>
            match unescape (sliceFrom host i) encoding.encodeHost with
            | Except.error err => Except.error err
            | Except.ok host3 => Except.ok (host1 ++ host2 ++ host3)
      else unescape host encoding.encodeHost
  else if LastIndexByte host ':' ≠ -1 ∧
      !validOptionalPort (sliceFrom host (LastIndexByte host ':')) then
    Except.error (GoError.external "invalid port after host")
  else unescape host encoding.encodeHost

/-- Go `parseAuthority`: the user information and the host of `user:password@host:port`. -/
def parseAuthority (authority : String) : Except GoError (Option Userinfo × String) :=
  let i := LastIndexByte authority '@'
  match (if i < 0 then parseHost authority else parseHost (sliceFrom authority (i + 1))) with
  | Except.error err => Except.error err
  | Except.ok host =>
    if i < 0 then Except.ok (none, host)
    else
      let userinfo := sliceTo authority i
      if !validUserinfo userinfo then Except.error (GoError.external "net/url: invalid userinfo")
      else if !Contains userinfo ":" then
        match unescape userinfo encoding.encodeUserPassword with
        | Except.error err => Except.error err
        | Except.ok u =>
          Except.ok (some { username := u, password := "", passwordSet := false }, host)
      else
        match unescape (Cut userinfo ':').1 encoding.encodeUserPassword with
        | Except.error err => Except.error err
        | Except.ok username =>
          match unescape (Cut userinfo ':').2.1 encoding.encodeUserPassword with
          | Except.error err => Except.error err
          | Except.ok password =>
            Except.ok (some { username := username, password := password, passwordSet := true },
              host)

/-- Go `URL.setPath`: `Path` is the decoded path, `RawPath` is kept only when the default
encoding of `Path` differs from the given text. -/
def setPath (u : URL) (p : String) : Except GoError URL :=
  match unescape p encoding.encodePath with
  | Except.error err => Except.error err
  | Except.ok path =>
    Except.ok { u with Path := path,
                       RawPath := if p = escape path encoding.encodePath then "" else p }

/-- Go `URL.setFragment`. -/
def setFragment (u : URL) (f : String) : Except GoError URL :=
  match unescape f encoding.encodeFragment with
  | Except.error err => Except.error err
  | Except.ok frag =>
    Except.ok { u with Fragment := frag,
                       RawFragment := if f = escape frag encoding.encodeFragment then "" else f }

/-- The end of `parse`: authority and path. -/
def parseAuthorityAndPath (viaRequest : Bool) (url : URL) (rest : String) : Except GoError URL :=
  if (url.Scheme ≠ "" ∨ (viaRequest = false ∧ HasPrefix rest "///" = false)) ∧
      HasPrefix rest "//" = true then
    let authority := sliceFrom rest 2
    let i := Index authority "/"
    match parseAuthority (if i ≥ 0 then sliceTo authority i else authority) with
    | Except.error err => Except.error err
    | Except.ok (user, host) =>
      setPath { url with User := user, Host := host } (if i ≥ 0 then sliceFrom authority i else "")
  else if url.Scheme ≠ "" ∧ HasPrefix rest "/" = true then
    setPath { url with OmitHost := true } rest
  else setPath url rest

/-- Go `parse`: a URL without its fragment. -/
def parse (rawURL : String) (viaRequest : Bool) : Except GoError URL :=
  if stringContainsCTLByte rawURL then
    Except.error (GoError.external "net/url: invalid control character in URL")
  else if rawURL = "" ∧ viaRequest = true then Except.error (GoError.external "empty url")
  else if rawURL = "*" then Except.ok { emptyURL with Path := "*" }
  else
    match getScheme rawURL with
    | Except.error err => Except.error err
    | Except.ok (scheme, rest0) =>
      let forced := HasSuffix rest0 "?" && decide (CountByte rest0 '?' = 1)
      let rest := if forced then sliceTo rest0 (len rest0 - 1) else (Cut rest0 '?').1
      let url : URL :=
        { emptyURL with Scheme := ToLower scheme, ForceQuery := forced,
                        RawQuery := if forced then "" else (Cut rest0 '?').2.1 }
      if HasPrefix rest "/" = false then
        if url.Scheme ≠ "" then Except.ok { url with Opaque := rest }
        else if viaRequest then Except.error (GoError.external "invalid URI for request")
        else if Contains (Cut rest '/').1 ":" then
          Except.error (GoError.external "first path segment in URL cannot contain colon")
        else parseAuthorityAndPath viaRequest url rest
      else parseAuthorityAndPath viaRequest url rest

/-- Go `url.Parse`. -/
def Parse (rawURL : String) : Except GoError URL :=
  match parse (Cut rawURL '#').1 false with
  | Except.error err => Except.error (GoError.wrapf "parse" err)
  | Except.ok url =>
    if (Cut rawURL '#').2.1 = "" then Except.ok url
    else
      match setFragment url (Cut rawURL '#').2.1 with
      | Except.error err => Except.error (GoError.wrapf "parse" err)
      | Except.ok url1 => Except.ok url1

/-- Go `validEncoded`. -/
def validEncoded (s : String) (mode : encoding) : Bool :=
  s.data.all fun c =>
    if c ∈ ['!', '$', '&', Char.ofNat 39, '(', ')', '*', '+', ',', ';', '=', ':', '@', '[',
        ']', '%'] then true
    else !shouldEscape c mode

/-- Go `URL.EscapedPath`. -/
def EscapedPath (u : URL) : String :=
  if u.RawPath ≠ "" ∧ validEncoded u.RawPath encoding.encodePath = true ∧
      unescape u.RawPath encoding.encodePath = Except.ok u.Path then u.RawPath
  else if u.Path = "*" then "*"
  else escape u.Path encoding.encodePath

/-- Go `URL.EscapedFragment`. -/
def EscapedFragment (u : URL) : String :=
  if u.RawFragment ≠ "" ∧ validEncoded u.RawFragment encoding.encodeFragment = true ∧
      unescape u.RawFragment encoding.encodeFragment = Except.ok u.Fragment then u.RawFragment
  else escape u.Fragment encoding.encodeFragment

/-- Go `Userinfo.String`. -/
def Userinfo.String (u : Userinfo) : String :=
  escape u.username encoding.encodeUserPassword ++
    (if u.passwordSet then ":" ++ escape u.password encoding.encodeUserPassword else "")

/-- The authority part written by `URL.String`. -/
def authorityString (u : URL) : String :=
  if u.Scheme ≠ "" ∨ u.Host ≠ "" ∨ u.User ≠ none then
    if u.OmitHost = true ∧ u.Host = "" ∧ u.User = none then ""
    else
      (if u.Host ≠ "" ∨ u.Path ≠ "" ∨ u.User ≠ none then "//" else "") ++
      (match u.User with
        | some ui => Userinfo.String ui ++ "@"
        | none => "") ++
      (if u.Host ≠ "" then escape u.Host encoding.encodeHost else "")
  else ""

/-- Go `URL.String`: the URL reassembled. -/
def URL.String (u : URL) : String :=
  let head := if u.Scheme ≠ "" then u.Scheme ++ ":" else ""
  let body :=
    if u.Opaque ≠ "" then head ++ u.Opaque
    else
      let buf := head ++ authorityString u
      let path := EscapedPath u
      let buf1 := if path ≠ "" ∧ charAt path 0 ≠ '/' ∧ u.Host ≠ "" then buf ++ "/" else buf
      let buf2 :=
        if buf1 = "" ∧ Contains (Cut path '/').1 ":" = true then buf1 ++ "./" else buf1
      buf2 ++ path
  let withQuery := if u.ForceQuery = true ∨ u.RawQuery ≠ "" then body ++ "?" ++ u.RawQuery else body
  if u.Fragment ≠ "" then withQuery ++ "#" ++ EscapedFragment u else withQuery

/-! ## `internal/utils/validator.go` -/

/-- Go `IsValidURL`. -/
def IsValidURL (rawURL : String) : Bool :=
  if rawURL = "" then false
  else
    let rawURL1 :=
      if !HasPrefix rawURL "http://" && !HasPrefix rawURL "https://" then "http://" ++ rawURL
      else rawURL
    match Parse rawURL1 with
    | Except.error _ => false
    | Except.ok parsedURL =>
      if parsedURL.Host = "" then false
      else if parsedURL.Scheme ≠ "http" ∧ parsedURL.Scheme ≠ "https" then false
      else true

/-- Go `NormalizeURL`. -/
def NormalizeURL (rawURL : String) : String :=
  if rawURL = "" then ""
  else
    let rawURL1 :=
      if !HasPrefix rawURL "http://" && !HasPrefix rawURL "https://" then "http://" ++ rawURL
      else rawURL
    match Parse rawURL1 with
    | Except.error _ => rawURL1
    | Except.ok parsedURL =>
      if len parsedURL.Path > 1 ∧ HasSuffix parsedURL.Path "/" = true then
        URL.String { parsedURL with Path := TrimSuffix parsedURL.Path "/" }
      else URL.String parsedURL

/-- Go `IsValidShortCode`. -/
def IsValidShortCode (code : String) : Bool :=
  if len code < 3 ∨ len code > 20 then false
  else IsValidCode NewBase62Encoder code

/-! ## `internal/models/shortlink.go` -/

/-- The struct `ShortLink`, also a row of the table `short_links`. -/
structure ShortLink where
  ID : Int
  ShortCode : String
  OriginalURL : String
  AccessCount : Int
  CreatedAt : Time
  UpdatedAt : Time
  ExpiresAt : Option Time
  deriving DecidableEq, Repr

/-- The struct `CreateShortLinkRequest`. -/
structure CreateShortLinkRequest where
  URL : String
  CustomCode : String
  ExpiresAt : Option Time
  deriving DecidableEq, Repr

/-- The struct `CreateShortLinkResponse`. -/
structure CreateShortLinkResponse where
  ShortURL : String
  ShortCode : String
  OriginalURL : String
  ExpiresAt : Option Time
  CreatedAt : Time
  deriving DecidableEq, Repr

/-- The struct `ShortLinkInfo`. -/
structure ShortLinkInfo where
  ShortCode : String
  OriginalURL : String
  AccessCount : Int
  CreatedAt : Time
  ExpiresAt : Option Time
  deriving DecidableEq, Repr

/-- Go `ShortLink.IsExpired`, with the reading of `time.Now()` as a parameter:
`time.Now().After(*s.ExpiresAt)`. -/
def ShortLink.IsExpired (s : ShortLink) (now : Time) : Bool :=
  match s.ExpiresAt with
  | none => false
  | some expiresAt => decide (expiresAt < now)

/-! ## The Store: `internal/service/repository.go`

The database is the list of rows of `short_links`.  Every repository call takes `fail`, the
failure of the driver for that call if there is one (`none`: the statement is executed). -/

/-- The table `short_links` with the sequence of its `id` column. -/
structure Repository where
  rows : List ShortLink
  nextID : Int
  deriving DecidableEq, Repr

/-- The first row with the given `short_code`. -/
def Repository.lookup (r : Repository) (shortCode : String) : Option ShortLink :=
  r.rows.find? fun l => l.ShortCode = shortCode

/-- Modelled from the spec: the schema of `short_links` (the migration SQL is not among the
sources).  "Store enforces code uniqueness at the storage layer" and "store assigns identity
and timestamps": an `INSERT` of a code that is already in the table is rejected by the
uniqueness constraint; otherwise the new row gets the next id, the access count `0` and the
current time as `created_at` and `updated_at`. -/
def Repository.insertRow (r : Repository) (now : Time) (shortLink : ShortLink) :
    Except GoError ShortLink × Repository :=
  if (r.lookup shortLink.ShortCode).isSome then
    (Except.error (GoError.external "duplicate key value violates unique constraint"), r)
  else
    let row : ShortLink :=
      { shortLink with ID := r.nextID, AccessCount := 0, CreatedAt := now, UpdatedAt := now }
    (Except.ok row, { rows := r.rows ++ [row], nextID := r.nextID + 1 })

/-- Go `Repository.CreateShortLink`: the `INSERT ... RETURNING id, created_at, updated_at`; on
success the returned link is `shortLink` with the three scanned fields. -/
def Repository.CreateShortLink (r : Repository) (now : Time) (fail : Option String)
    (shortLink : ShortLink) : Except GoError ShortLink × Repository :=
  match fail with
  | some desc =>
    (Except.error (GoError.wrapf "failed to create short link" (GoError.external desc)), r)
  | none =>
    match r.insertRow now shortLink with
    | (Except.error err, r1) =>
      (Except.error (GoError.wrapf "failed to create short link" err), r1)
    | (Except.ok row, r1) =>
      (Except.ok { shortLink with ID := row.ID, CreatedAt := row.CreatedAt,
                                  UpdatedAt := row.UpdatedAt }, r1)

/-- Go `Repository.GetShortLinkByCode`. -/
def Repository.GetShortLinkByCode (r : Repository) (fail : Option String) (shortCode : String) :
    Except GoError ShortLink :=
  match fail with
  | some desc => Except.error (GoError.wrapf "failed to get short link" (GoError.external desc))
  | none =>
    match r.lookup shortCode with
    | none =>
      Except.error (GoError.wrapf "short link not found" (GoError.sentinel Sentinel.pgxErrNoRows))
    | some shortLink => Except.ok shortLink

/-- Go `Repository.ShortCodeExists`. -/
def Repository.ShortCodeExists (r : Repository) (fail : Option String) (shortCode : String) :
    Except GoError Bool :=
  match fail with
  | some desc =>
    Except.error (GoError.wrapf "failed to check if short code exists" (GoError.external desc))
  | none => Except.ok (r.rows.any fun l => l.ShortCode = shortCode)

/-- Go `Repository.IncrementAccessCount`: the `UPDATE` of every row with the code; no row
affected is an error. -/
def Repository.IncrementAccessCount (r : Repository) (now : Time) (fail : Option String)
    (shortCode : String) : Option GoError × Repository :=
  match fail with
  | some desc =>
    (some (GoError.wrapf "failed to increment access count" (GoError.external desc)), r)
  | none =>
    if (r.rows.filter fun l => l.ShortCode = shortCode).length = 0 then
      (some (GoError.errorf "short link not found"), r)
    else
      (none, { r with rows := r.rows.map fun l =>
        if l.ShortCode = shortCode then
          { l with AccessCount := l.AccessCount + 1, UpdatedAt := now }
        else l })

/-- The `WHERE` clause of `DeleteExpiredLinks`:
`expires_at IS NOT NULL AND expires_at < CURRENT_TIMESTAMP`. -/
def deletedByCleanup (now : Time) (l : ShortLink) : Bool :=
  match l.ExpiresAt with
  | none => false
  | some expiresAt => decide (expiresAt < now)

/-- Go `Repository.DeleteExpiredLinks`: the `DELETE`, returning `RowsAffected()`. -/
def Repository.DeleteExpiredLinks (r : Repository) (now : Time) (fail : Option String) :
    Except GoError Int × Repository :=
  match fail with
  | some desc =>
    (Except.error (GoError.wrapf "failed to delete expired links" (GoError.external desc)), r)
  | none =>
    (Except.ok ((r.rows.filter (deletedByCleanup now)).length : Int),
      { r with rows := r.rows.filter fun l => !deletedByCleanup now l })

/-- The `FILTER` of `active_links` in `GetStats`:
`expires_at IS NOT NULL AND expires_at > CURRENT_TIMESTAMP`. -/
def countedActive (now : Time) (l : ShortLink) : Bool :=
  match l.ExpiresAt with
  | none => false
  | some expiresAt => decide (expiresAt > now)

/-- The `FILTER` of `expired_links` in `GetStats`:
`expires_at IS NOT NULL AND expires_at <= CURRENT_TIMESTAMP`. -/
def countedExpired (now : Time) (l : ShortLink) : Bool :=
  match l.ExpiresAt with
  | none => false
  | some expiresAt => decide (expiresAt ≤ now)

/-- The map returned by `GetStats`, one field per key. -/
structure Stats where
  total_links : Int
  total_accesses : Int
  active_links : Int
  expired_links : Int
  permanent_links : Int
  deriving DecidableEq, Repr

/-- Go `Repository.GetStats`.  `SUM(access_count)` over no rows is `NULL`, which `Scan` cannot
store in the `int64` variable `totalAccesses`: on the empty table the call fails. -/
def Repository.GetStats (r : Repository) (now : Time) (fail : Option String) :
    Except GoError Stats :=
  match fail with
  | some desc => Except.error (GoError.wrapf "failed to get stats" (GoError.external desc))
  | none =>
    if r.rows = [] then
      Except.error (GoError.wrapf "failed to get stats"
        (GoError.external "cannot scan NULL into *int64"))
    else
      let totalLinks : Int := (r.rows.length : Int)
      let totalAccesses : Int := (r.rows.map fun l => l.AccessCount).sum
      let activeLinks : Int := ((r.rows.filter (countedActive now)).length : Int)
      let expiredLinks : Int := ((r.rows.filter (countedExpired now)).length : Int)
      Except.ok
        { total_links := totalLinks,
          total_accesses := totalAccesses,
          active_links := activeLinks,
          expired_links := expiredLinks,
          permanent_links := totalLinks - activeLinks - expiredLinks }

/-! ## The cache: `internal/cache/redis.go` -/

/-- One key of the Redis database: its value and the instant at which it expires, if any. -/
structure CacheEntry where
  key : String
  value : String
  deadline : Option Time
  deriving DecidableEq, Repr

/-- The struct `RedisClient`: the keys held by the server and `config.TTL`. -/
structure RedisClient where
  entries : List CacheEntry
  TTL : Int
  deriving DecidableEq, Repr

/-- A key is served as long as its deadline has not passed. -/
def CacheEntry.live (e : CacheEntry) (now : Time) : Bool :=
  match e.deadline with
  | none => true
  | some d => decide (now < d)

/-- Go `RedisClient.Get`: the value, `redis.Nil` on a miss, or the failure of the call. -/
def RedisClient.Get (c : RedisClient) (now : Time) (fail : Option String) (key : String) :
    Except GoError String :=
  match fail with
  | some desc => Except.error (GoError.external desc)
  | none =>
    match c.entries.find? fun e => e.key = key && e.live now with
    | some e => Except.ok e.value
    | none => Except.error (GoError.sentinel Sentinel.redisNil)

/-- Go `RedisClient.Set`: a positive expiration sets the deadline, `0` sets none, `KeepTTL`
(`-1`) keeps the deadline of the key being overwritten. -/
def RedisClient.Set (c : RedisClient) (now : Time) (fail : Option String) (key value : String)
    (expiration : Int) : Option GoError × RedisClient :=
  match fail with
  | some desc => (some (GoError.external desc), c)
  | none =>
    let deadline : Option Time :=
      if expiration > 0 then some (now + expiration)
      else if expiration = -1 then
        match c.entries.find? fun e => e.key = key && e.live now with
        | some e => e.deadline
        | none => none
      else none
    (none, { c with entries :=
      { key := key, value := value, deadline := deadline } ::
        c.entries.filter fun e => !(e.key = key) })

/-- Go `RedisClient.SetWithDefaultTTL`. -/
def RedisClient.SetWithDefaultTTL (c : RedisClient) (now : Time) (fail : Option String)
    (key value : String) : Option GoError × RedisClient :=
  c.Set now fail key value c.TTL

/-! ## The membership filter: `internal/cache/bloomfilter.go` -/

/-- The reply of the server to one `BF.EXISTS`: the call fails, or the filter answers, either
truthfully about the items added or with a false positive. -/
inductive FilterReply
  | fail (desc : String)
  | honest
  | falsePositive
  deriving DecidableEq, Repr

/-- The struct `BloomFilter`: the items added so far. -/
structure BloomFilter where
  items : List String
  deriving DecidableEq, Repr

/-- Go `BloomFilter.Add`: `BF.ADD`; a failed call adds nothing. -/
def BloomFilter.Add (bf : BloomFilter) (fail : Option String) (item : String) :
    Option GoError × BloomFilter :=
  match fail with
  | some desc => (some (GoError.external desc), bf)
  | none => (none, { items := item :: bf.items })

/-- Go `BloomFilter.Exists`: `BF.EXISTS`, `result == 1`. -/
def BloomFilter.Exists (bf : BloomFilter) (reply : FilterReply) (item : String) :
    Except GoError Bool :=
  match reply with
  | FilterReply.fail desc => Except.error (GoError.external desc)
  | FilterReply.honest => Except.ok (bf.items.contains item)
  | FilterReply.falsePositive => Except.ok true

/-! ## The service: `internal/service/shortlink.go` -/

/-- The struct `ShortLinkService` with the state of its collaborators: the Store, the cache
and the filter; the encoder; `config.App.BaseURL`; and the goroutines started by
`GetOriginalURL` that have not run yet (each is one `IncrementAccessCount` of a code). -/
structure ShortLinkService where
  repo : Repository
  cache : RedisClient
  bloomFilter : BloomFilter
  encoder : Base62Encoder
  BaseURL : String
  background : List String
  deriving DecidableEq, Repr

/-- Go `NewShortLinkService`: the encoder is set to six symbols. -/
def NewShortLinkService (repo : Repository) (cache : RedisClient) (bloomFilter : BloomFilter)
    (BaseURL : String) : ShortLinkService :=
  { repo := repo, cache := cache, bloomFilter := bloomFilter,
    encoder := SetCodeLength NewBase62Encoder 6, BaseURL := BaseURL, background := [] }

/-- Go `ShortLinkService.buildShortURL`: `fmt.Sprintf("%s/%s", BaseURL, shortCode)`. -/
def ShortLinkService.buildShortURL (s : ShortLinkService) (shortCode : String) : String :=
  s.BaseURL ++ "/" ++ shortCode

/-- Go `ShortLinkService.cacheKey`: `fmt.Sprintf("shorturl:%s", shortCode)`. -/
def cacheKey (shortCode : String) : String := "shorturl:" ++ shortCode

/-- What the collaborators do during one `CreateShortLink`: the time, the random source, the
replies of the filter and the failures of the Store in attempt `i` of
`generateUniqueShortCode` (`genStoreFirst` for the lookup after a failed filter call,
`genStoreSecond` for the confirming lookup), then the reply and failure for
`isShortCodeExists`, and the failures of the insert, of the filter `Add` and of the cache
write. -/
structure CreateEnv where
  now : Time
  rand : RandReader
  genFilter : Nat → FilterReply
  genStoreFirst : Nat → Option String
  genStoreSecond : Nat → Option String
  chkFilter : FilterReply
  chkStore : Option String
  insert : Option String
  filterAdd : Option String
  cacheSet : Option String

/-- The loop of `generateUniqueShortCode`: `n` attempts are left, `i` is the attempt. -/
def generateLoop (s : ShortLinkService) (env : CreateEnv) :
    Nat → Nat → RandReader → Except GoError String
  | 0, _, _ =>
    Except.error (GoError.errorf "failed to generate unique short code after 10 retries")
  | n + 1, i, r =>
    match GenerateRandomCode s.encoder r with
    | (Except.error err, _) => Except.error err
    | (Except.ok shortCode, r1) =>
      let confirm : Except GoError String :=
        match s.repo.ShortCodeExists (env.genStoreSecond i) shortCode with
        | Except.error err => Except.error err
        | Except.ok dbExists =>
          if !dbExists then Except.ok shortCode else generateLoop s env n (i + 1) r1
      match s.bloomFilter.Exists (env.genFilter i) shortCode with
      | Except.error _ =>
        match s.repo.ShortCodeExists (env.genStoreFirst i) shortCode with
        | Except.error dbErr => Except.error dbErr
        | Except.ok dbExists => if !dbExists then Except.ok shortCode else confirm
      | Except.ok codeExists => if !codeExists then Except.ok shortCode else confirm

/-- Go `ShortLinkService.generateUniqueShortCode`: `maxRetries := 10`. -/
def ShortLinkService.generateUniqueShortCode (s : ShortLinkService) (env : CreateEnv) :
    Except GoError String :=
  generateLoop s env 10 0 env.rand

/-- Go `ShortLinkService.isShortCodeExists`. -/
def ShortLinkService.isShortCodeExists (s : ShortLinkService) (reply : FilterReply)
    (fail : Option String) (shortCode : String) : Except GoError Bool :=
  match s.bloomFilter.Exists reply shortCode with
  | Except.error _ => s.repo.ShortCodeExists fail shortCode
  | Except.ok codeExists =>
    if !codeExists then Except.ok false else s.repo.ShortCodeExists fail shortCode

/-- The part of `CreateShortLink` after the code is chosen: existence check, insert, filter
registration, cache write, response. -/
def ShortLinkService.createWithCode (s : ShortLinkService) (env : CreateEnv)
    (req : CreateShortLinkRequest) (normalizedURL shortCode : String) :
    Except GoError CreateShortLinkResponse × ShortLinkService :=
  match s.isShortCodeExists env.chkFilter env.chkStore shortCode with
  | Except.error err =>
    (Except.error (GoError.wrapf "failed to check short code existence" err), s)
  | Except.ok codeExists =>
    if codeExists then (Except.error (GoError.sentinel Sentinel.ErrShortCodeExists), s)
    else
      let shortLink : ShortLink :=
        { ID := 0, ShortCode := shortCode, OriginalURL := normalizedURL, AccessCount := 0,
          CreatedAt := 0, UpdatedAt := 0, ExpiresAt := req.ExpiresAt }
      match s.repo.CreateShortLink env.now env.insert shortLink with
      | (Except.error err, repo1) =>
        (Except.error (GoError.wrapf "failed to save short link" err), { s with repo := repo1 })
      | (Except.ok saved, repo1) =>
        let bloom1 := (s.bloomFilter.Add env.filterAdd shortCode).2
        let cache1 :=
          (s.cache.SetWithDefaultTTL env.now env.cacheSet (cacheKey shortCode) normalizedURL).2
        (Except.ok
          { ShortURL := s.buildShortURL shortCode,
            ShortCode := shortCode,
            OriginalURL := normalizedURL,
            ExpiresAt := req.ExpiresAt,
            CreatedAt := saved.CreatedAt },
         { s with repo := repo1, bloomFilter := bloom1, cache := cache1 })

/-- Go `ShortLinkService.CreateShortLink`. -/
def ShortLinkService.CreateShortLink (s : ShortLinkService) (env : CreateEnv)
    (req : CreateShortLinkRequest) : Except GoError CreateShortLinkResponse × ShortLinkService :=
  if !IsValidURL req.URL then (Except.error (GoError.sentinel Sentinel.ErrInvalidURL), s)
  else
    let normalizedURL := NormalizeURL req.URL
    if req.CustomCode ≠ "" then
      if !IsValidShortCode req.CustomCode then
        (Except.error (GoError.errorf "invalid custom code format"), s)
      else s.createWithCode env req normalizedURL req.CustomCode
    else
      match s.generateUniqueShortCode env with
      | Except.error err =>
        (Except.error (GoError.wrapf "failed to generate short code" err), s)
      | Except.ok shortCode => s.createWithCode env req normalizedURL shortCode

/-- What the collaborators do during one `GetOriginalURL`. -/
structure ResolveEnv where
  now : Time
  cacheGet : Option String
  storeGet : Option String
  cacheSet : Option String
  storeIncrement : Option String
  deriving DecidableEq, Repr

/-- Go `ShortLinkService.GetOriginalURL`.  On a cache hit the increment is handed to a new
goroutine (recorded in `background`) and the cached URL is returned at once. -/
def ShortLinkService.GetOriginalURL (s : ShortLinkService) (env : ResolveEnv)
    (shortCode : String) : Except GoError String × ShortLinkService :=
  match s.cache.Get env.now env.cacheGet (cacheKey shortCode) with
  | Except.ok originalURL =>
    (Except.ok originalURL, { s with background := s.background ++ [shortCode] })
  | Except.error _ =>
    match s.repo.GetShortLinkByCode env.storeGet shortCode with
    | Except.error err =>
      if errorsIs err Sentinel.pgxErrNoRows then
        (Except.error (GoError.sentinel Sentinel.ErrShortCodeNotFound), s)
      else (Except.error (GoError.wrapf "failed to get short link" err), s)
    | Except.ok shortLink =>
      if shortLink.IsExpired env.now then
        (Except.error (GoError.sentinel Sentinel.ErrExpiredLink), s)
      else
        let cache1 :=
          (s.cache.SetWithDefaultTTL env.now env.cacheSet (cacheKey shortCode)
            shortLink.OriginalURL).2
        let repo1 := (s.repo.IncrementAccessCount env.now env.storeIncrement shortCode).2
        (Except.ok shortLink.OriginalURL, { s with cache := cache1, repo := repo1 })

/-- One goroutine started by `GetOriginalURL` runs: `repo.IncrementAccessCount` of its code;
a failure is only logged. -/
def ShortLinkService.runBackground (s : ShortLinkService) (now : Time) (fail : Option String) :
    ShortLinkService :=
  match s.background with
  | [] => s
  | shortCode :: rest =>
    { s with repo := (s.repo.IncrementAccessCount now fail shortCode).2, background := rest }

/-- Go `ShortLinkService.GetShortLinkInfo`. -/
def ShortLinkService.GetShortLinkInfo (s : ShortLinkService) (fail : Option String)
    (shortCode : String) : Except GoError ShortLinkInfo :=
  match s.repo.GetShortLinkByCode fail shortCode with
  | Except.error err =>
    if errorsIs err Sentinel.pgxErrNoRows then
      Except.error (GoError.sentinel Sentinel.ErrShortCodeNotFound)
    else Except.error (GoError.wrapf "failed to get short link" err)
  | Except.ok shortLink =>
    Except.ok
      { ShortCode := shortLink.ShortCode,
        OriginalURL := shortLink.OriginalURL,
        AccessCount := shortLink.AccessCount,
        CreatedAt := shortLink.CreatedAt,
        ExpiresAt := shortLink.ExpiresAt }

/-- Go `ShortLinkService.GetStats`. -/
def ShortLinkService.GetStats (s : ShortLinkService) (now : Time) (fail : Option String) :
    Except GoError Stats :=
  s.repo.GetStats now fail

/-- Go `ShortLinkService.CleanExpiredLinks`. -/
def ShortLinkService.CleanExpiredLinks (s : ShortLinkService) (now : Time)
    (fail : Option String) : Except GoError Int × ShortLinkService :=
  match s.repo.DeleteExpiredLinks now fail with
  | (Except.error err, repo1) => (Except.error err, { s with repo := repo1 })
  | (Except.ok deletedCount, repo1) => (Except.ok deletedCount, { s with repo := repo1 })

/-! ## The handlers: `internal/handler/handler.go` -/

/-- The status codes written by the handlers. -/
def StatusCreated : Nat := 201
/-- Go `http.StatusBadRequest`. -/
def StatusBadRequest : Nat := 400
/-- Go `http.StatusConflict`. -/
def StatusConflict : Nat := 409
/-- Go `http.StatusInternalServerError`. -/
def StatusInternalServerError : Nat := 500

/-- The `switch` of `Handler.CreateShortLink` on the result of the service. -/
def createStatus (result : Except GoError CreateShortLinkResponse) : Nat :=
  match result with
  | Except.error err =>
    if errorsIs err Sentinel.ErrInvalidURL then StatusBadRequest
    else if errorsIs err Sentinel.ErrShortCodeExists then StatusConflict
    else StatusInternalServerError
  | Except.ok _ => StatusCreated

/-- Go `Handler.CreateShortLink`: `bound` is the outcome of `ShouldBindJSON`; the status code of
the response and the state of the service afterwards. -/
def Handler.CreateShortLink (s : ShortLinkService) (env : CreateEnv)
    (bound : Except GoError CreateShortLinkRequest) : Nat × ShortLinkService :=
  match bound with
  | Except.error _ => (StatusBadRequest, s)
  | Except.ok req =>
    (createStatus (s.CreateShortLink env req).1, (s.CreateShortLink env req).2)

/-! ## Runs of the service -/

/-- One operation on the service, with what its collaborators do. -/
inductive Op
  | create (env : CreateEnv) (req : CreateShortLinkRequest)
  | resolve (env : ResolveEnv) (shortCode : String)
  | clean (now : Time) (fail : Option String)
  | background (now : Time) (fail : Option String)

/-- The state after one operation. -/
def ShortLinkService.step (s : ShortLinkService) : Op → ShortLinkService
  | Op.create env req => (s.CreateShortLink env req).2
  | Op.resolve env shortCode => (s.GetOriginalURL env shortCode).2
  | Op.clean now fail => (s.CleanExpiredLinks now fail).2
  | Op.background now fail => s.runBackground now fail

/-- The state after a sequence of operations. -/
def ShortLinkService.run (s : ShortLinkService) (ops : List Op) : ShortLinkService :=
  ops.foldl ShortLinkService.step s

/-- The service over an empty Store, an empty cache and an empty filter. -/
def initialService (TTL : Int) (BaseURL : String) : ShortLinkService :=
  NewShortLinkService { rows := [], nextID := 1 } { entries := [], TTL := TTL } { items := [] }
    BaseURL

/-- A `CreateShortLink` at time `now` during which every collaborator works and the filter
answers truthfully; the random source yields 0, 1, 2, ... -/
def calmCreate (now : Time) : CreateEnv :=
  { now := now, rand := { draw := fun k => Except.ok k },
    genFilter := fun _ => FilterReply.honest, genStoreFirst := fun _ => none,
    genStoreSecond := fun _ => none, chkFilter := FilterReply.honest, chkStore := none,
    insert := none, filterAdd := none, cacheSet := none }

/-- A `GetOriginalURL` at time `now` during which every collaborator works. -/
def calmResolve (now : Time) : ResolveEnv :=
  { now := now, cacheGet := none, storeGet := none, cacheSet := none, storeIncrement := none }


/-! ## Attempts of `generateUniqueShortCode` -/

/-- The random source after `n` reads. -/
def RandReader.advance (r : RandReader) (n : Nat) : RandReader :=
  { draw := fun k => r.draw (k + n) }

/-- The outcome of `GenerateRandomCode` in attempt `i` (counted from 0) of
`generateUniqueShortCode`: every earlier attempt has read `codeLength` numbers from the
random source. -/
def attemptCode (s : ShortLinkService) (env : CreateEnv) (i : Nat) : Except GoError String :=
  (GenerateRandomCode s.encoder (env.rand.advance (i * s.encoder.codeLength.toNat))).1

/-- A random source that yields 0 on every read. -/
def zeroReader : RandReader := { draw := fun _ => Except.ok 0 }

/-! ## Facts about the Go primitives -/

theorem wrapInt64_of_range (x : Int) (h1 : -2 ^ 63 ≤ x) (h2 : x < 2 ^ 63) : wrapInt64 x = x := by
  unfold wrapInt64
  omega

theorem swapRunes_length (rs : List Nat) (i j : Nat) :
    (swapRunes rs i j).length = rs.length := by
  simp [swapRunes]

theorem swapRunes_getElem? (rs : List Nat) (i j k : Nat) (hi : i < rs.length)
    (hj : j < rs.length) :
    (swapRunes rs i j)[k]? =
      if k = j then rs[i]? else if k = i then rs[j]? else rs[k]? := by
  unfold swapRunes
  rw [List.getElem?_set, List.getElem?_set, List.length_set]
  rw [List.getD_eq_getElem rs _ hi, List.getD_eq_getElem rs _ hj]
  by_cases h1 : k = j
  · subst h1
    simp [hj, List.getElem?_eq_getElem hi]
  · by_cases h2 : k = i
    · subst h2
      have h3 : ¬ j = k := fun h => h1 h.symm
      simp [h3, h1, hi, List.getElem?_eq_getElem hj]
    · have h3 : ¬ j = k := fun h => h1 h.symm
      have h4 : ¬ i = k := fun h => h2 h.symm
      simp [h1, h2, h3, h4]

/-- The two-index loop, started on a list whose ends are already exchanged up to `i` and
from `j` on, ends with the reversed list. -/
theorem reverseLoop_spec (orig : List Nat) :
    ∀ (fuel : Nat) (rs : List Nat) (i j : Int), 0 ≤ i →
      i + j = (orig.length : Int) - 1 → rs.length = orig.length → j - i ≤ 2 * (fuel : Int) →
      (∀ k : Nat, k < orig.length →
        rs[k]? = if (k : Int) < i ∨ j < (k : Int) then orig[orig.length - 1 - k]?
          else orig[k]?) →
      reverseLoop fuel rs i j = orig.reverse := by
  intro fuel
  induction fuel with
  | zero =>
    intro rs i j hi hsum hlen hfuel hinv
    simp only [reverseLoop]
    apply List.ext_getElem?
    intro k
    by_cases hk : k < orig.length
    · rw [hinv k hk, List.getElem?_reverse hk]
      by_cases hc : (k : Int) < i ∨ j < (k : Int)
      · simp [hc]
      · have : orig.length - 1 - k = k := by omega
        simp [hc, this]
    · have h1 : rs.length ≤ k := by omega
      have h2 : orig.reverse.length ≤ k := by simp; omega
      rw [List.getElem?_eq_none h1, List.getElem?_eq_none h2]
  | succ fuel ih =>
    intro rs i j hi hsum hlen hfuel hinv
    simp only [reverseLoop]
    by_cases hij : i < j
    · rw [if_pos hij]
      have hin : i.toNat < rs.length := by omega
      have hjn : j.toNat < rs.length := by omega
      apply ih
      · omega
      · omega
      · rw [swapRunes_length]; exact hlen
      · omega
      · intro k hk
        rw [swapRunes_getElem? rs _ _ k hin hjn]
        by_cases h1 : k = j.toNat
        · have hc : (k : Int) < i + 1 ∨ j - 1 < (k : Int) := by omega
          have hidx : orig.length - 1 - k = i.toNat := by omega
          rw [if_pos h1, if_pos hc, hidx, hinv i.toNat (by omega)]
          have hc2 : ¬ (((i.toNat : Nat) : Int) < i ∨ j < ((i.toNat : Nat) : Int)) := by omega
          rw [if_neg hc2]
        · by_cases h2 : k = i.toNat
          · have hc : (k : Int) < i + 1 ∨ j - 1 < (k : Int) := by omega
            have hidx : orig.length - 1 - k = j.toNat := by omega
            rw [if_neg h1, if_pos h2, if_pos hc, hidx, hinv j.toNat (by omega)]
            have hc2 : ¬ (((j.toNat : Nat) : Int) < i ∨ j < ((j.toNat : Nat) : Int)) := by omega
            rw [if_neg hc2]
          · rw [if_neg h1, if_neg h2, hinv k hk]
            by_cases hc : (k : Int) < i ∨ j < (k : Int)
            · have hc2 : (k : Int) < i + 1 ∨ j - 1 < (k : Int) := by omega
              rw [if_pos hc, if_pos hc2]
            · have hc2 : ¬ ((k : Int) < i + 1 ∨ j - 1 < (k : Int)) := by omega
              rw [if_neg hc, if_neg hc2]
    · rw [if_neg hij]
      apply List.ext_getElem?
      intro k
      by_cases hk : k < orig.length
      · rw [hinv k hk, List.getElem?_reverse hk]
        by_cases hc : (k : Int) < i ∨ j < (k : Int)
        · simp [hc]
        · have : orig.length - 1 - k = k := by omega
          simp [hc, this]
      · have h1 : rs.length ≤ k := by omega
        have h2 : orig.reverse.length ≤ k := by simp; omega
        rw [List.getElem?_eq_none h1, List.getElem?_eq_none h2]

theorem reverseLoop_eq_reverse (rs : List Nat) :
    reverseLoop rs.length rs 0 ((rs.length : Int) - 1) = rs.reverse := by
  apply reverseLoop_spec rs
  · omega
  · omega
  · rfl
  · omega
  · intro k hk
    have hc : ¬ ((k : Int) < 0 ∨ (rs.length : Int) - 1 < (k : Int)) := by omega
    rw [if_neg hc]

/-- On ASCII bytes every rune is one byte. -/
theorem runesLoop_ascii :
    ∀ (fuel : Nat) (l : List Char), l.length ≤ fuel → (∀ c ∈ l, c.toNat < 128) →
      runesLoop fuel l = l.map Char.toNat := by
  intro fuel
  induction fuel with
  | zero =>
    intro l hl _
    have : l = [] := List.length_eq_zero.mp (by omega)
    subst this
    rfl
  | succ fuel ih =>
    intro l hl h
    cases l with
    | nil => rfl
    | cons b rest =>
      have hb : b.toNat < 128 := h b (List.mem_cons_self _ _)
      have hd : DecodeRune (b :: rest) = (b.toNat, 1) := by
        simp only [DecodeRune]
        rw [if_pos hb]
      simp only [runesLoop, hd, List.map_cons, List.drop_succ_cons, List.drop_zero]
      rw [ih rest (by simpa using hl) (fun c hc => h c (List.mem_cons_of_mem _ hc))]

theorem encodeRune_ascii (c : Char) (h : c.toNat < 128) : encodeRune c.toNat = [c] := by
  unfold encodeRune
  rw [if_pos h, Char.ofNat_toNat]

theorem flatMap_encodeRune_ascii :
    ∀ l : List Char, (∀ c ∈ l, c.toNat < 128) → (l.map Char.toNat).flatMap encodeRune = l := by
  intro l
  induction l with
  | nil => intro _; rfl
  | cons c rest ih =>
    intro h
    simp only [List.map_cons, List.flatMap_cons]
    rw [encodeRune_ascii c (h c (List.mem_cons_self _ _)),
      ih (fun d hd => h d (List.mem_cons_of_mem _ hd))]
    rfl

/-- On an ASCII string `reverseString` reverses the bytes. -/
theorem reverseString_data (s : String) (h : ∀ c ∈ s.data, c.toNat < 128) :
    (reverseString s).data = s.data.reverse := by
  unfold reverseString runes
  rw [runesLoop_ascii _ _ (le_refl _) h, reverseLoop_eq_reverse]
  show ((s.data.map Char.toNat).reverse).flatMap encodeRune = s.data.reverse
  rw [← List.map_reverse]
  exact flatMap_encodeRune_ascii _ (fun c hc => h c (List.mem_reverse.mp hc))

/-! ## The encoder -/

theorem len_base62Chars : len base62Chars = 62 := by decide

theorem alphabet_ascii : ∀ c ∈ base62Chars.data, c.toNat < 128 := by decide

theorem indexByte_charAt_fin :
    ∀ k : Fin 62, IndexByte base62Chars (charAt base62Chars (k.val : Int)) = (k.val : Int) := by
  decide

theorem indexByte_charAt (k : Int) (h0 : 0 ≤ k) (h1 : k < 62) :
    IndexByte base62Chars (charAt base62Chars k) = k := by
  have h := indexByte_charAt_fin ⟨k.toNat, by omega⟩
  have hk : ((k.toNat : Nat) : Int) = k := by omega
  simp only [hk] at h
  exact h

theorem charAt_mem_fin : ∀ k : Fin 62, charAt base62Chars (k.val : Int) ∈ base62Chars.data := by
  decide

theorem charAt_mem (k : Int) (h0 : 0 ≤ k) (h1 : k < 62) :
    charAt base62Chars k ∈ base62Chars.data := by
  have h := charAt_mem_fin ⟨k.toNat, by omega⟩
  have hk : ((k.toNat : Nat) : Int) = k := by omega
  simp only [hk] at h
  exact h

theorem setCodeLength_chars (e : Base62Encoder) (L : Int) :
    (SetCodeLength e L).chars = e.chars := by
  unfold SetCodeLength
  split <;> rfl

theorem setCodeLength_base (e : Base62Encoder) (L : Int) :
    (SetCodeLength e L).base = e.base := by
  unfold SetCodeLength
  split <;> rfl

theorem setCodeLength_codeLength (e : Base62Encoder) (L : Int) (hL : 0 < L) :
    (SetCodeLength e L).codeLength = L := by
  unfold SetCodeLength
  rw [if_pos hL]

theorem encodeLoop_append (e : Base62Encoder) :
    ∀ (fuel : Nat) (num : Int) (acc : List Char),
      encodeLoop e fuel num acc = acc ++ encodeLoop e fuel num [] := by
  intro fuel
  induction fuel with
  | zero => intro num acc; simp [encodeLoop]
  | succ fuel ih =>
    intro num acc
    simp only [encodeLoop]
    by_cases h : num > 0
    · rw [if_pos h, if_pos h, ih, ih _ ([] ++ _)]
      simp
    · rw [if_neg h, if_neg h]
      simp

theorem encodeLoop_nonpos (e : Base62Encoder) (fuel : Nat) (num : Int) (acc : List Char)
    (h : num ≤ 0) : encodeLoop e fuel num acc = acc := by
  cases fuel with
  | zero => rfl
  | succ fuel =>
    simp only [encodeLoop]
    rw [if_neg (by omega)]

theorem encodeLoop_alphabet (e : Base62Encoder) (hc : e.chars = base62Chars)
    (hb : e.base = 62) :
    ∀ (fuel : Nat) (num : Int) (acc : List Char), (∀ c ∈ acc, c ∈ base62Chars.data) →
      ∀ c ∈ encodeLoop e fuel num acc, c ∈ base62Chars.data := by
  intro fuel
  induction fuel with
  | zero => intro num acc h; simpa [encodeLoop] using h
  | succ fuel ih =>
    intro num acc h
    simp only [encodeLoop]
    by_cases hpos : num > 0
    · rw [if_pos hpos]
      apply ih
      intro c hmem
      rcases List.mem_append.mp hmem with h1 | h1
      · exact h c h1
      · rw [List.mem_singleton] at h1
        rw [h1, hc, hb, Int.tmod_eq_emod (by omega) (by omega)]
        exact charAt_mem _ (by omega) (by omega)
    · rw [if_neg hpos]
      exact h

/-- The string written by the loop of `Encode`, reversed by `reverseString`. -/
theorem reverseString_encodeLoop (e : Base62Encoder) (hc : e.chars = base62Chars)
    (hb : e.base = 62) (fuel : Nat) (num : Int) :
    (reverseString (String.mk (encodeLoop e fuel num []))).data
      = (encodeLoop e fuel num []).reverse := by
  rw [reverseString_data]
  intro c hmem
  exact alphabet_ascii c
    (encodeLoop_alphabet e hc hb fuel num [] (by intro c hc2; cases hc2) c hmem)

theorem encode_alphabet (e : Base62Encoder) (hc : e.chars = base62Chars) (hb : e.base = 62)
    (num : Int) : ∀ c ∈ (Encode e num).data, c ∈ base62Chars.data := by
  unfold Encode
  by_cases h : num = 0
  · rw [if_pos h, hc]
    decide
  · rw [if_neg h, reverseString_encodeLoop e hc hb]
    intro c hmem
    rw [List.mem_reverse] at hmem
    exact encodeLoop_alphabet e hc hb _ _ [] (by intro c hc2; cases hc2) c hmem

/-- Decoding the symbols written by the loop of `Encode` (least significant first) adds
`num * power` to the running result, as long as that sum is an `int64`. -/
theorem decodeLoop_encodeLoop (e : Base62Encoder) (hc : e.chars = base62Chars)
    (hb : e.base = 62) :
    ∀ (fuel : Nat) (num result power : Int), 0 ≤ num → num ≤ (fuel : Int) → 0 ≤ result →
      (num = 0 ∨ (0 < power ∧ result + num * power < 2 ^ 63)) →
      decodeLoop e (encodeLoop e fuel num []) result power = result + num * power := by
  intro fuel
  induction fuel with
  | zero =>
    intro num result power h0 hf _ _
    have : num = 0 := by omega
    subst this
    simp [encodeLoop, decodeLoop]
  | succ fuel ih =>
    intro num result power h0 hf hr hp
    by_cases hpos : num > 0
    · have hp2 : 0 < power ∧ result + num * power < 2 ^ 63 := by
        rcases hp with h | h
        · omega
        · exact h
      obtain ⟨hpow, hsum⟩ := hp2
      simp only [encodeLoop]
      rw [if_pos hpos, encodeLoop_append]
      simp only [List.nil_append, List.singleton_append, decodeLoop]
      rw [hc, hb, Int.tdiv_eq_ediv h0 (by omega), Int.tmod_eq_emod h0 (by omega)]
      have hm0 : 0 ≤ num % 62 := by omega
      have hm1 : num % 62 < 62 := by omega
      rw [indexByte_charAt _ hm0 hm1]
      have hne : ¬ (num % 62 = -1) := by omega
      rw [if_neg hne]
      have hdecomp : num = num % 62 + 62 * (num / 62) := by omega
      have hq0 : 0 ≤ num / 62 := by omega
      have hmul : num * power = (num % 62) * power + (num / 62) * (power * 62) := by
        conv_lhs => rw [hdecomp]
        ring
      have hd0 : 0 ≤ (num % 62) * power := by positivity
      have hq1 : 0 ≤ (num / 62) * (power * 62) := by positivity
      have hw1 : wrapInt64 (num % 62 * power) = num % 62 * power :=
        wrapInt64_of_range _ (by omega) (by omega)
      rw [hw1]
      have hw2 : wrapInt64 (result + num % 62 * power) = result + num % 62 * power :=
        wrapInt64_of_range _ (by omega) (by omega)
      rw [hw2]
      by_cases hq : num / 62 = 0
      · rw [hq, encodeLoop_nonpos e fuel 0 [] (by omega)]
        simp only [decodeLoop]
        rw [hmul, hq]
        ring
      · have hqpos : 1 ≤ num / 62 := by omega
        have hp62 : power * 62 ≤ (num / 62) * (power * 62) := by
          have := Int.mul_le_mul_of_nonneg_right hqpos (show (0 : Int) ≤ power * 62 by omega)
          simpa using this
        have hw3 : wrapInt64 (power * 62) = power * 62 :=
          wrapInt64_of_range _ (by omega) (by omega)
        have hih := ih (num / 62) (result + num % 62 * power) (power * 62) hq0 (by omega)
          (by omega) (Or.inr ⟨by omega, by omega⟩)
        rw [hw3]
        show decodeLoop e (encodeLoop e fuel (num / 62) []) (result + num % 62 * power)
          (power * 62) = result + num * power
        rw [hih, hmul]
        ring
    · have : num = 0 := by omega
      subst this
      rw [encodeLoop_nonpos e _ 0 [] (by omega)]
      simp [decodeLoop]

theorem decode_encode_of (e : Base62Encoder) (hc : e.chars = base62Chars) (hb : e.base = 62)
    (x : Int) (h0 : 0 ≤ x) (h1 : x ≤ maxInt64) : Decode e (Encode e x) = x := by
  unfold Decode Encode
  by_cases hx : x = 0
  · subst hx
    rw [if_pos rfl, hc]
    simp only [List.reverse_singleton, decodeLoop, hc]
    decide
  · rw [if_neg hx, reverseString_encodeLoop e hc hb]
    simp only [List.reverse_reverse]
    rw [decodeLoop_encodeLoop e hc hb x.toNat x 0 1 h0 (by omega) (by omega)
      (Or.inr ⟨by omega, by unfold maxInt64 at h1; omega⟩)]
    ring

/-! ## `Decode` on symbols outside the alphabet -/

theorem indexFrom_of_not_mem (c : Char) :
    ∀ (l : List Char) (i : Int), c ∉ l → indexFrom c l i = -1 := by
  intro l
  induction l with
  | nil => intro i _; rfl
  | cons d rest ih =>
    intro i h
    simp only [List.mem_cons, not_or] at h
    simp only [indexFrom]
    rw [if_neg (fun hd => h.1 hd.symm)]
    exact ih (i + 1) h.2

theorem decodeLoop_invalid (e : Base62Encoder) (hc : e.chars = base62Chars) :
    ∀ (l : List Char), (∃ c ∈ l, c ∉ base62Chars.data) →
      ∀ result power : Int, decodeLoop e l result power = 0 := by
  intro l
  induction l with
  | nil => intro h; obtain ⟨c, hmem, _⟩ := h; cases hmem
  | cons d rest ih =>
    intro h result power
    simp only [decodeLoop]
    by_cases hd : IndexByte e.chars d = -1
    · rw [if_pos hd]
    · rw [if_neg hd]
      apply ih
      obtain ⟨c, hmem, hout⟩ := h
      rcases List.mem_cons.mp hmem with h1 | h1
      · subst h1
        exfalso
        apply hd
        rw [hc]
        exact indexFrom_of_not_mem c _ 0 hout
      · exact ⟨c, h1, hout⟩

/-! ## Generated codes -/

theorem randInt_range (r : RandReader) (v : Int) (h : (randInt r 62).1 = Except.ok v) :
    0 ≤ v ∧ v < 62 := by
  unfold randInt at h
  simp only at h
  split at h
  · cases h
  · injection h with h
    omega

/-- The filling loop keeps the length and leaves alphabet symbols at every index below
`i + n`, provided the indices below `i` already hold alphabet symbols. -/
theorem randomFill_spec (e : Base62Encoder) (hc : e.chars = base62Chars) (hb : e.base = 62) :
    ∀ (n i : Nat) (code : List Char) (r : RandReader) (out : List Char),
      (∀ (k : Nat) (c : Char), k < i → code[k]? = some c → c ∈ base62Chars.data) →
      (randomFill e n i code r).1 = Except.ok out →
      out.length = code.length ∧
        ∀ (k : Nat) (c : Char), k < i + n → out[k]? = some c → c ∈ base62Chars.data := by
  intro n
  induction n with
  | zero =>
    intro i code r out hpre h
    simp only [randomFill] at h
    injection h with h
    subst h
    exact ⟨rfl, fun k c hk hget => hpre k c (by omega) hget⟩
  | succ n ih =>
    intro i code r out hpre h
    simp only [randomFill] at h
    rw [hb] at h
    cases hr : randInt r 62 with
    | mk res r1 =>
      rw [hr] at h
      cases res with
      | error err => simp at h
      | ok randomIndex =>
        simp only at h
        have hrange := randInt_range r randomIndex (by rw [hr])
        have hstep := ih (i + 1) (code.set i (charAt e.chars randomIndex)) r1 out
          (by
            intro k c hk hget
            rw [List.getElem?_set] at hget
            by_cases hik : i = k
            · rw [if_pos hik] at hget
              split at hget
              · injection hget with hget
                rw [← hget, hc]
                exact charAt_mem _ hrange.1 hrange.2
              · cases hget
            · rw [if_neg hik] at hget
              exact hpre k c (by omega) hget) h
        refine ⟨by rw [hstep.1, List.length_set], ?_⟩
        intro k c hk hget
        exact hstep.2 k c (by omega) hget

theorem randomFill_replicate (e : Base62Encoder) (hc : e.chars = base62Chars)
    (hb : e.base = 62) (n : Nat) (r : RandReader) (out : List Char)
    (h : (randomFill e (List.replicate n (Char.ofNat 0)).length 0
      (List.replicate n (Char.ofNat 0)) r).1 = Except.ok out) :
    out.length = n ∧ ∀ c ∈ out, c ∈ base62Chars.data := by
  have hs := randomFill_spec e hc hb _ 0 _ r out (by intro k c hk; omega) h
  simp only [List.length_replicate] at hs
  refine ⟨hs.1, ?_⟩
  intro c hmem
  obtain ⟨k, hk, hget⟩ := List.getElem_of_mem hmem
  exact hs.2 k c (by omega) (by rw [List.getElem?_eq_getElem hk, hget])

/-- With a random source that never fails the filling loop returns a code. -/
theorem randomFill_ok (e : Base62Encoder) :
    ∀ (n i : Nat) (code : List Char) (r : RandReader),
      (∀ k, ∃ v, r.draw k = Except.ok v) →
      ∃ out, (randomFill e n i code r).1 = Except.ok out := by
  intro n
  induction n with
  | zero => intro i code r _; exact ⟨code, rfl⟩
  | succ n ih =>
    intro i code r h
    obtain ⟨v, hv⟩ := h 0
    simp only [randomFill, randInt, hv]
    exact ih (i + 1) _ _ (fun k => h (k + 1))

/-! ## Claims on the encoder -/

/-- C1: for every non-negative 64-bit integer `x`, and whatever code length is configured,
`Decode (Encode x) = x`, with the arithmetic of `Decode` taken as Go `int64` arithmetic (the
last, unused multiplication of `power` included). -/
theorem decode_encode_roundtrip (L x : Int) (h0 : 0 ≤ x) (h1 : x ≤ maxInt64) :
    Decode (SetCodeLength NewBase62Encoder L) (Encode (SetCodeLength NewBase62Encoder L) x)
      = x :=
  decode_encode_of _ (by rw [setCodeLength_chars]; rfl)
    (by rw [setCodeLength_base]; exact len_base62Chars) x h0 h1

theorem decode_encode_roundtrip_witness :
    (0 : Int) ≤ 9223372036854775807 ∧ (9223372036854775807 : Int) ≤ maxInt64 ∧
      Decode (SetCodeLength NewBase62Encoder 6)
        (Encode (SetCodeLength NewBase62Encoder 6) 9223372036854775807)
        = 9223372036854775807 :=
  ⟨by decide, by decide, decode_encode_roundtrip 6 9223372036854775807 (by decide) (by decide)⟩

/-- C2 (as stated, refuted): the string `"!"` has a symbol outside the alphabet, and `Decode`
gives it the very outcome it gives `"0"`, the encoding of zero. -/
theorem decode_invalid_not_distinct :
    '!' ∈ ("!" : String).data ∧ '!' ∉ base62Chars.data ∧
      Encode NewBase62Encoder 0 = "0" ∧
      Decode NewBase62Encoder "!" = Decode NewBase62Encoder "0" := by
  decide

/-- C2 (amended): for every string with at least one symbol outside the 62-symbol alphabet,
`Decode` returns the plain number `0`, which is also what it returns for the encoding of
zero. -/
theorem decode_invalid_returns_zero (L : Int) (s : String)
    (h : ∃ c ∈ s.data, c ∉ base62Chars.data) :
    Decode (SetCodeLength NewBase62Encoder L) s = 0 ∧
      Decode (SetCodeLength NewBase62Encoder L) s
        = Decode (SetCodeLength NewBase62Encoder L) (Encode (SetCodeLength NewBase62Encoder L) 0)
      := by
  have hc : (SetCodeLength NewBase62Encoder L).chars = base62Chars := by
    rw [setCodeLength_chars]; rfl
  have hb : (SetCodeLength NewBase62Encoder L).base = 62 := by
    rw [setCodeLength_base]; exact len_base62Chars
  have h0 : Decode (SetCodeLength NewBase62Encoder L) s = 0 := by
    unfold Decode
    apply decodeLoop_invalid _ hc
    obtain ⟨c, hmem, hout⟩ := h
    exact ⟨c, List.mem_reverse.mpr hmem, hout⟩
  refine ⟨h0, ?_⟩
  rw [h0, decode_encode_of _ hc hb 0 (by decide) (by decide)]

theorem decode_invalid_returns_zero_witness :
    (∃ c ∈ ("ab!c" : String).data, c ∉ base62Chars.data) ∧
      Decode (SetCodeLength NewBase62Encoder 6) "ab!c" = 0 :=
  ⟨⟨'!', by decide, by decide⟩,
    (decode_invalid_returns_zero 6 "ab!c" ⟨'!', by decide, by decide⟩).1⟩

/-- C3 (as stated, refuted): with the configured length 6 and the non-negative id `62^6`,
`GenerateCodeFromID` returns, without error, the seven-symbol code `"1000000"`. -/
theorem generateCodeFromID_longer_than_configured :
    (0 : Int) < 6 ∧ (0 : Int) ≤ 56800235584 ∧
      (GenerateCodeFromID (SetCodeLength NewBase62Encoder 6) 56800235584
        { draw := fun _ => Except.ok 0 }).1 = Except.ok "1000000" ∧
      len "1000000" = 7 ∧ len "1000000" ≠ 6 := by
  decide

/-- C3 (amended): for every configured length `L > 0`, every outcome of the random source and
every id, a code returned without error by `GenerateRandomCode` has exactly `L` symbols, a
code returned without error by `GenerateCodeFromID id` has `max L (len (Encode id))` symbols
(exactly `L` when the encoding of the id has at most `L` symbols, the unpadded and
untruncated encoding otherwise), and both consist of alphabet symbols only; when the random
source does not fail, both calls do return a code. -/
theorem generated_code_shape (L : Int) (hL : 0 < L) (r : RandReader) (id : Int) :
    (∀ code, (GenerateRandomCode (SetCodeLength NewBase62Encoder L) r).1 = Except.ok code →
      len code = L ∧ ∀ c ∈ code.data, c ∈ base62Chars.data) ∧
    (∀ code, (GenerateCodeFromID (SetCodeLength NewBase62Encoder L) id r).1 = Except.ok code →
      len code = max L (len (Encode (SetCodeLength NewBase62Encoder L) id)) ∧
        ∀ c ∈ code.data, c ∈ base62Chars.data) ∧
    ((∀ k, ∃ v, r.draw k = Except.ok v) →
      (∃ code, (GenerateRandomCode (SetCodeLength NewBase62Encoder L) r).1 = Except.ok code) ∧
      ∃ code, (GenerateCodeFromID (SetCodeLength NewBase62Encoder L) id r).1 = Except.ok code)
    := by
  have hc : (SetCodeLength NewBase62Encoder L).chars = base62Chars := by
    rw [setCodeLength_chars]; rfl
  have hb : (SetCodeLength NewBase62Encoder L).base = 62 := by
    rw [setCodeLength_base]; exact len_base62Chars
  have hl : (SetCodeLength NewBase62Encoder L).codeLength = L := setCodeLength_codeLength _ L hL
  refine ⟨?_, ?_, ?_⟩
  rotate_left 2
  · intro hr
    constructor
    · obtain ⟨out, hout⟩ := randomFill_ok (SetCodeLength NewBase62Encoder L)
        (List.replicate (SetCodeLength NewBase62Encoder L).codeLength.toNat (Char.ofNat 0)).length
        0 (List.replicate (SetCodeLength NewBase62Encoder L).codeLength.toNat (Char.ofNat 0)) r hr
      refine ⟨String.mk out, ?_⟩
      unfold GenerateRandomCode
      simp only
      cases hfill : randomFill (SetCodeLength NewBase62Encoder L)
        (List.replicate (SetCodeLength NewBase62Encoder L).codeLength.toNat (Char.ofNat 0)).length
        0 (List.replicate (SetCodeLength NewBase62Encoder L).codeLength.toNat (Char.ofNat 0)) r with
      | mk res r1 =>
        rw [hfill] at hout
        simp only at hout
        rw [hout]
    · unfold GenerateCodeFromID
      simp only
      by_cases hshort : len (Encode (SetCodeLength NewBase62Encoder L) id)
          < (SetCodeLength NewBase62Encoder L).codeLength
      · rw [if_pos hshort]
        obtain ⟨out, hout⟩ := randomFill_ok (SetCodeLength NewBase62Encoder L)
          (List.replicate ((SetCodeLength NewBase62Encoder L).codeLength
            - len (Encode (SetCodeLength NewBase62Encoder L) id)).toNat (Char.ofNat 0)).length
          0 (List.replicate ((SetCodeLength NewBase62Encoder L).codeLength
            - len (Encode (SetCodeLength NewBase62Encoder L) id)).toNat (Char.ofNat 0)) r hr
        cases hfill : randomFill (SetCodeLength NewBase62Encoder L)
          (List.replicate ((SetCodeLength NewBase62Encoder L).codeLength
            - len (Encode (SetCodeLength NewBase62Encoder L) id)).toNat (Char.ofNat 0)).length
          0 (List.replicate ((SetCodeLength NewBase62Encoder L).codeLength
            - len (Encode (SetCodeLength NewBase62Encoder L) id)).toNat (Char.ofNat 0)) r with
        | mk res r1 =>
          rw [hfill] at hout
          simp only at hout
          rw [hout]
          exact ⟨_, rfl⟩
      · rw [if_neg hshort]
        exact ⟨_, rfl⟩
  · intro code h
    unfold GenerateRandomCode at h
    simp only at h
    rw [hl] at h
    split at h
    · cases h
    · rename_i code1 r1 heq
      injection h with h
      have hs := randomFill_replicate _ hc hb L.toNat r code1 (by rw [heq])
      subst h
      refine ⟨?_, hs.2⟩
      show (code1.length : Int) = L
      rw [hs.1]
      omega
  · intro code h
    have henc := encode_alphabet (SetCodeLength NewBase62Encoder L) hc hb id
    unfold GenerateCodeFromID at h
    simp only at h
    rw [hl] at h
    by_cases hshort : len (Encode (SetCodeLength NewBase62Encoder L) id) < L
    · rw [if_pos hshort] at h
      split at h
      · cases h
      · rename_i part r1 heq
        injection h with h
        have hs := randomFill_replicate _ hc hb _ r part (by rw [heq])
        subst h
        constructor
        · rw [max_eq_left (le_of_lt hshort)]
          have hlen : len (Encode (SetCodeLength NewBase62Encoder L) id)
              = ((Encode (SetCodeLength NewBase62Encoder L) id).data.length : Int) := rfl
          show (((String.mk part ++ Encode (SetCodeLength NewBase62Encoder L) id).data.length
            : Nat) : Int) = L
          rw [String.data_append, List.length_append]
          show ((part.length + _ : Nat) : Int) = _
          rw [hs.1]
          push_cast
          omega
        · intro c hmem
          rw [String.data_append] at hmem
          rcases List.mem_append.mp hmem with h1 | h1
          · exact hs.2 c h1
          · exact henc c h1
    · rw [if_neg hshort] at h
      injection h with h
      subst h
      refine ⟨?_, henc⟩
      rw [max_eq_right (by omega)]

theorem generated_code_shape_witness :
    (0 : Int) < 6 ∧
      (GenerateRandomCode (SetCodeLength NewBase62Encoder 6)
        { draw := fun k => Except.ok (k + 70) }).1 = Except.ok "89ABCD" ∧
      len "89ABCD" = 6 ∧ ∀ c ∈ ("89ABCD" : String).data, c ∈ base62Chars.data :=
  ⟨by decide, by decide,
    (generated_code_shape 6 (by decide) { draw := fun k => Except.ok (k + 70) } 0).1
      "89ABCD" (by decide)⟩

/-! ## Resolution of expired links -/

/-- C4 (as stated, refuted): a link created at time 0 with expiry 5 is warmed into the cache
for the default TTL; at time 10 the Store's link is expired, yet `GetOriginalURL` answers
from the cache with the target URL and starts an increment of the access count, which the
Store then applies. -/
theorem resolve_expired_from_cache :
    (((initialService 3600 "http://localhost:8080").run
        [Op.create (calmCreate 0) ⟨"http://example.com", "abc", some 5⟩]).repo.lookup "abc").map
          (fun l => l.ExpiresAt) = some (some 5) ∧
      (5 : Time) < 10 ∧
      (((initialService 3600 "http://localhost:8080").run
        [Op.create (calmCreate 0) ⟨"http://example.com", "abc", some 5⟩]).GetOriginalURL
          (calmResolve 10) "abc").1 = Except.ok "http://example.com" ∧
      ((((initialService 3600 "http://localhost:8080").run
        [Op.create (calmCreate 0) ⟨"http://example.com", "abc", some 5⟩,
         Op.resolve (calmResolve 10) "abc", Op.background 10 none]).repo.lookup "abc").map
          (fun l => l.AccessCount)) = some 1 := by
  decide

/-- C4 (amended): when the cache lookup yields a miss or a cache error and the Store lookup
itself succeeds, a link whose `expiresAt` is in the past resolves to `ErrExpiredLink`, and the
state is left as it was: no access-count increment, no cache write, no goroutine. -/
theorem resolve_expired_on_cache_miss (s : ShortLinkService) (env : ResolveEnv)
    (shortCode : String) (link : ShortLink) (expiresAt : Time) (cacheErr : GoError)
    (hmiss : s.cache.Get env.now env.cacheGet (cacheKey shortCode) = Except.error cacheErr)
    (hstore : env.storeGet = none)
    (hlink : s.repo.lookup shortCode = some link)
    (hexp : link.ExpiresAt = some expiresAt) (hpast : expiresAt < env.now) :
    s.GetOriginalURL env shortCode
      = (Except.error (GoError.sentinel Sentinel.ErrExpiredLink), s) := by
  unfold ShortLinkService.GetOriginalURL
  rw [hmiss]
  simp only [Repository.GetShortLinkByCode, hstore, hlink, ShortLink.IsExpired, hexp,
    decide_eq_true hpast, if_true]

theorem resolve_expired_on_cache_miss_witness :
    (((initialService 3600 "http://localhost:8080").run
        [Op.create (calmCreate 0) ⟨"http://example.com", "abc", some 5⟩]).GetOriginalURL
          (calmResolve 4000) "abc")
      = (Except.error (GoError.sentinel Sentinel.ErrExpiredLink),
          (initialService 3600 "http://localhost:8080").run
            [Op.create (calmCreate 0) ⟨"http://example.com", "abc", some 5⟩]) :=
  resolve_expired_on_cache_miss _ (calmResolve 4000) "abc"
    { ID := 1, ShortCode := "abc", OriginalURL := "http://example.com", AccessCount := 0,
      CreatedAt := 0, UpdatedAt := 0, ExpiresAt := some 5 } 5
    (GoError.sentinel Sentinel.redisNil) (by decide) (by decide) (by decide) (by decide)
    (by decide)

/-! ## `IsValidCode`: runes and bytes -/

theorem high_bytes_not_in_alphabet :
    ∀ k : Fin 128, Char.ofNat (128 + k.val) ∉ base62Chars.data := by
  decide

theorem runes_alphabet_no_error : (runes base62Chars).contains RuneError = false := by decide

theorem mem_of_indexFrom_nonneg (c : Char) :
    ∀ (l : List Char) (i : Int), 0 ≤ i → 0 ≤ indexFrom c l i → c ∈ l := by
  intro l
  induction l with
  | nil =>
    intro i _ h
    simp only [indexFrom] at h
    omega
  | cons d rest ih =>
    intro i hi h
    simp only [indexFrom] at h
    by_cases hd : d = c
    · rw [hd]
      exact List.mem_cons_self _ _
    · rw [if_neg hd] at h
      exact List.mem_cons_of_mem _ (ih (i + 1) (by omega) h)

theorem head_mem_of_indexSubFrom_nonneg (a : Char) (sub : List Char) :
    ∀ (l : List Char) (i : Int), 0 ≤ i → 0 ≤ indexSubFrom (a :: sub) l i → a ∈ l := by
  intro l
  induction l with
  | nil =>
    intro i _ h
    simp [indexSubFrom] at h
  | cons c rest ih =>
    intro i hi h
    simp only [indexSubFrom] at h
    by_cases hp : hasPrefixList (c :: rest) (a :: sub) = true
    · simp only [hasPrefixList, Bool.and_eq_true, decide_eq_true_eq] at hp
      rw [← hp.1]
      exact List.mem_cons_self _ _
    · rw [if_neg hp] at h
      exact List.mem_cons_of_mem _ (ih (i + 1) (by omega) h)

/-- A rune found in the alphabet by `strings.ContainsRune` is an ASCII byte of the
alphabet. -/
theorem containsRune_alphabet (r : Nat) (h : ContainsRune base62Chars r = true) :
    r < 128 ∧ Char.ofNat r ∈ base62Chars.data := by
  unfold ContainsRune at h
  by_cases h1 : r < 128
  · rw [if_pos h1] at h
    exact ⟨h1, mem_of_indexFrom_nonneg _ _ 0 (le_refl _) (of_decide_eq_true h)⟩
  · exfalso
    rw [if_neg h1] at h
    by_cases h2 : r = RuneError
    · rw [if_pos h2, runes_alphabet_no_error] at h
      cases h
    · rw [if_neg h2] at h
      by_cases h3 : (55296 ≤ r ∧ r ≤ 57343) ∨ 1114111 < r
      · rw [if_pos h3] at h
        cases h
      · rw [if_neg h3] at h
        have hidx := of_decide_eq_true h
        unfold encodeRune at hidx
        rw [if_neg h1] at hidx
        by_cases h4 : r < 2048
        · rw [if_pos h4] at hidx
          have hm := head_mem_of_indexSubFrom_nonneg _ _ _ 0 (le_refl _) hidx
          have hk := high_bytes_not_in_alphabet ⟨64 + r / 64, by omega⟩
          have he : 128 + (64 + r / 64) = 192 + r / 64 := by omega
          simp only [he] at hk
          exact hk hm
        · rw [if_neg h4, if_neg h3] at hidx
          by_cases h5 : r < 65536
          · rw [if_pos h5] at hidx
            have hm := head_mem_of_indexSubFrom_nonneg _ _ _ 0 (le_refl _) hidx
            have hk := high_bytes_not_in_alphabet ⟨96 + r / 4096, by omega⟩
            have he : 128 + (96 + r / 4096) = 224 + r / 4096 := by omega
            simp only [he] at hk
            exact hk hm
          · rw [if_neg h5] at hidx
            have hm := head_mem_of_indexSubFrom_nonneg _ _ _ 0 (le_refl _) hidx
            have hk := high_bytes_not_in_alphabet ⟨112 + r / 262144, by omega⟩
            have he : 128 + (112 + r / 262144) = 240 + r / 262144 := by omega
            simp only [he] at hk
            exact hk hm

/-- A decoded rune below 128 is the first byte itself, of width one. -/
theorem decodeRune_ascii (b : Char) (rest : List Char)
    (h : (DecodeRune (b :: rest)).1 < 128) :
    b.toNat < 128 ∧ DecodeRune (b :: rest) = (b.toNat, 1) := by
  by_cases hb : b.toNat < 128
  · refine ⟨hb, ?_⟩
    simp only [DecodeRune]
    rw [if_pos hb]
  · exfalso
    rcases rest with _ | ⟨b1, _ | ⟨b2, _ | ⟨b3, r3⟩⟩⟩ <;>
      simp only [DecodeRune, RuneError] at h <;>
      split_ifs at h <;>
      omega

theorem runesLoop_all_alphabet :
    ∀ (fuel : Nat) (l : List Char), l.length ≤ fuel →
      (runesLoop fuel l).all (fun r => ContainsRune base62Chars r) = true →
      ∀ c ∈ l, c ∈ base62Chars.data := by
  intro fuel
  induction fuel with
  | zero =>
    intro l hl _ c hc
    have : l = [] := List.length_eq_zero.mp (by omega)
    subst this
    cases hc
  | succ fuel ih =>
    intro l hl h c hc
    cases l with
    | nil => cases hc
    | cons b rest =>
      simp only [runesLoop, List.all_cons, Bool.and_eq_true] at h
      obtain ⟨hhead, htail⟩ := h
      have hr := containsRune_alphabet _ hhead
      have hd := decodeRune_ascii b rest hr.1
      rw [hd.2] at htail hr
      simp only [List.drop_succ_cons, List.drop_zero] at htail
      rcases List.mem_cons.mp hc with h1 | h1
      · rw [h1]
        have := hr.2
        simp only [Char.ofNat_toNat] at this
        exact this
      · exact ih rest (by simpa using hl) htail c h1

/-- A code accepted by `IsValidCode` has only alphabet bytes. -/
theorem isValidCode_bytes (e : Base62Encoder) (hc : e.chars = base62Chars) (code : String)
    (h : IsValidCode e code = true) : ∀ c ∈ code.data, c ∈ base62Chars.data := by
  unfold IsValidCode runes at h
  rw [hc] at h
  exact runesLoop_all_alphabet _ _ (le_refl _) h

/-- A custom code that is too short, too long or has a byte outside the alphabet is turned
down by `IsValidShortCode`. -/
theorem isValidShortCode_false (code : String)
    (h : len code < 3 ∨ 20 < len code ∨ ∃ c ∈ code.data, c ∉ base62Chars.data) :
    IsValidShortCode code = false := by
  unfold IsValidShortCode
  by_cases hlen : len code < 3 ∨ len code > 20
  · rw [if_pos hlen]
  · rw [if_neg hlen]
    rcases h with h | h | h
    · exact absurd (Or.inl h) hlen
    · exact absurd (Or.inr h) hlen
    · obtain ⟨c, hmem, hout⟩ := h
      cases hv : IsValidCode NewBase62Encoder code with
      | false => rfl
      | true => exact absurd (isValidCode_bytes _ rfl code hv c hmem) hout

/-! ## The scheme check of `IsValidURL` -/

theorem setPath_scheme (u v : URL) (p : String) (h : setPath u p = Except.ok v) :
    v.Scheme = u.Scheme := by
  unfold setPath at h
  split at h
  · cases h
  · injection h with h
    rw [← h]

theorem setFragment_scheme (u v : URL) (f : String) (h : setFragment u f = Except.ok v) :
    v.Scheme = u.Scheme := by
  unfold setFragment at h
  split at h
  · cases h
  · injection h with h
    rw [← h]

theorem parseAuthorityAndPath_scheme (viaRequest : Bool) (u v : URL) (rest : String)
    (h : parseAuthorityAndPath viaRequest u rest = Except.ok v) : v.Scheme = u.Scheme := by
  unfold parseAuthorityAndPath at h
  split_ifs at h
  · simp only at h
    split at h
    · cases h
    · exact (setPath_scheme _ v _ h).trans rfl
  · exact (setPath_scheme _ v _ h).trans rfl
  · exact setPath_scheme u v _ h

/-- The scheme found by `getScheme` in a text that starts with `http:` or `https:`. -/
theorem getScheme_http (tail : List Char) :
    (∃ rest, getScheme (String.mk ('h' :: 't' :: 't' :: 'p' :: ':' :: tail))
        = Except.ok ("http", rest)) ∧
      ∃ rest, getScheme (String.mk ('h' :: 't' :: 't' :: 'p' :: 's' :: ':' :: tail))
        = Except.ok ("https", rest) := by
  constructor
  · refine ⟨sliceFrom (String.mk ('h' :: 't' :: 't' :: 'p' :: ':' :: tail)) 5, ?_⟩
    simp [getScheme, getSchemeLoop, isLetter, isDigit, sliceTo]
  · refine ⟨sliceFrom (String.mk ('h' :: 't' :: 't' :: 'p' :: 's' :: ':' :: tail)) 6, ?_⟩
    simp [getScheme, getSchemeLoop, isLetter, isDigit, sliceTo]

theorem hasPrefixList_append :
    ∀ (l p : List Char), hasPrefixList l p = true → ∃ t, l = p ++ t := by
  intro l p
  induction p generalizing l with
  | nil => intro _; exact ⟨l, rfl⟩
  | cons d p ih =>
    intro h
    cases l with
    | nil => simp [hasPrefixList] at h
    | cons c l =>
      simp only [hasPrefixList, Bool.and_eq_true, decide_eq_true_eq] at h
      obtain ⟨t, ht⟩ := ih l h.2
      exact ⟨t, by rw [h.1, ht]; rfl⟩

/-- A URL text that starts with `http:` parses, if at all, with the scheme `http`. -/
theorem parse_scheme_http (tail : List Char) (u : URL)
    (h : parse (String.mk ('h' :: 't' :: 't' :: 'p' :: ':' :: tail)) false = Except.ok u) :
    u.Scheme = "http" := by
  obtain ⟨rest, hs⟩ := (getScheme_http tail).1
  unfold parse at h
  rw [hs] at h
  have hlow : ToLower "http" = "http" := by decide
  simp only [hlow] at h
  split_ifs at h with h1 h2 h3 h4 h5 h6 h7 h8
  all_goals first
    | exact (parseAuthorityAndPath_scheme _ _ _ _ h).trans rfl
    | exact absurd (congrArg String.data h3) (by simp)
    | exact absurd (by decide) h6
    | (injection h with h; rw [← h])

/-- A URL text that starts with `https:` parses, if at all, with the scheme `https`. -/
theorem parse_scheme_https (tail : List Char) (u : URL)
    (h : parse (String.mk ('h' :: 't' :: 't' :: 'p' :: 's' :: ':' :: tail)) false
      = Except.ok u) :
    u.Scheme = "https" := by
  obtain ⟨rest, hs⟩ := (getScheme_http tail).2
  unfold parse at h
  rw [hs] at h
  have hlow : ToLower "https" = "https" := by decide
  simp only [hlow] at h
  split_ifs at h with h1 h2 h3 h4 h5 h6 h7 h8
  all_goals first
    | exact (parseAuthorityAndPath_scheme _ _ _ _ h).trans rfl
    | exact absurd (congrArg String.data h3) (by simp)
    | exact absurd (by decide) h6
    | (injection h with h; rw [← h])

theorem parse_outer_scheme (s : String) (u : URL) (sch : String)
    (hinner : ∀ v, parse (Cut s '#').1 false = Except.ok v → v.Scheme = sch)
    (h : Parse s = Except.ok u) : u.Scheme = sch := by
  unfold Parse at h
  cases hp : parse (Cut s '#').1 false with
  | error err => rw [hp] at h; cases h
  | ok v =>
    rw [hp] at h
    simp only at h
    split_ifs at h
    · injection h with h
      rw [← h]
      exact hinner v hp
    · cases hf : setFragment v (Cut s '#').2.1 with
      | error err => rw [hf] at h; cases h
      | ok w =>
        rw [hf] at h
        injection h with h
        rw [← h, setFragment_scheme v w _ hf]
        exact hinner v hp

/-- A text that starts with `http://` or `https://` parses, if at all, with that scheme. -/
theorem Parse_scheme_of_prefix (s : String) (u : URL)
    (hpre : HasPrefix s "http://" = true ∨ HasPrefix s "https://" = true)
    (h : Parse s = Except.ok u) : u.Scheme = "http" ∨ u.Scheme = "https" := by
  rcases hpre with hpre | hpre
  · left
    obtain ⟨t, ht⟩ := hasPrefixList_append _ _ hpre
    apply parse_outer_scheme s u "http" _ h
    intro v hv
    have hcut : (Cut s '#').1
        = String.mk ('h' :: 't' :: 't' :: 'p' :: ':' :: (cutList '#' ('/' :: '/' :: t)).1) := by
      unfold Cut
      rw [ht]
      simp [cutList]
    rw [hcut] at hv
    exact parse_scheme_http _ v hv
  · right
    obtain ⟨t, ht⟩ := hasPrefixList_append _ _ hpre
    apply parse_outer_scheme s u "https" _ h
    intro v hv
    have hcut : (Cut s '#').1
        = String.mk ('h' :: 't' :: 't' :: 'p' :: 's' :: ':' :: (cutList '#' ('/' :: '/' :: t)).1)
        := by
      unfold Cut
      rw [ht]
      simp [cutList]
    rw [hcut] at hv
    exact parse_scheme_https _ v hv

/-- The scheme check of `IsValidURL` never turns a URL down: after the `http://` prefix is
put in front of every text that starts with neither `http://` nor `https://`, the parsed
scheme is always `http` or `https`, and `IsValidURL` accepts exactly the non-empty texts whose
prefixed form parses with a non-empty host. -/
theorem isValidURL_iff (rawURL : String) :
    IsValidURL rawURL = true ↔
      rawURL ≠ "" ∧
        ∃ u, Parse (if (!HasPrefix rawURL "http://" && !HasPrefix rawURL "https://") = true
                    then "http://" ++ rawURL else rawURL) = Except.ok u ∧ u.Host ≠ "" := by
  have hpre : HasPrefix (if (!HasPrefix rawURL "http://" && !HasPrefix rawURL "https://") = true
      then "http://" ++ rawURL else rawURL) "http://" = true ∨
      HasPrefix (if (!HasPrefix rawURL "http://" && !HasPrefix rawURL "https://") = true
      then "http://" ++ rawURL else rawURL) "https://" = true := by
    by_cases hc : (!HasPrefix rawURL "http://" && !HasPrefix rawURL "https://") = true
    · rw [if_pos hc]
      left
      unfold HasPrefix
      rw [String.data_append]
      simp [hasPrefixList]
    · rw [if_neg hc]
      simp only [Bool.and_eq_true, Bool.not_eq_true', not_and, Bool.not_eq_false] at hc
      by_cases h1 : HasPrefix rawURL "http://" = true
      · exact Or.inl h1
      · right
        apply hc
        cases hb : HasPrefix rawURL "http://" with
        | false => rfl
        | true => exact absurd hb h1
  unfold IsValidURL
  by_cases he : rawURL = ""
  · simp [he]
  · rw [if_neg he]
    simp only
    cases hp : Parse (if (!HasPrefix rawURL "http://" && !HasPrefix rawURL "https://") = true
        then "http://" ++ rawURL else rawURL) with
    | error err => simp [he]
    | ok u =>
      have hs := Parse_scheme_of_prefix _ u hpre hp
      by_cases hh : u.Host = ""
      · simp [he, hh]
      · have hs2 : ¬ (u.Scheme ≠ "http" ∧ u.Scheme ≠ "https") := by
          intro ⟨h1, h2⟩
          rcases hs with h | h
          · exact h1 h
          · exact h2 h
        simp [he, hh, hs2]

/-! ## `CreateShortLink`: the paths through the operation -/

theorem any_code_eq_isSome (r : Repository) (shortCode : String) :
    (r.rows.any fun l => l.ShortCode = shortCode) = (r.lookup shortCode).isSome := by
  unfold Repository.lookup
  induction r.rows with
  | nil => rfl
  | cons l rest ih =>
    simp only [List.any_cons, List.find?_cons]
    by_cases h : l.ShortCode = shortCode
    · simp [h]
    · simp [h, ih]

theorem isValidShortCode_ne_empty (code : String) (h : IsValidShortCode code = true) :
    code ≠ "" := by
  intro he
  subst he
  revert h
  decide

/-- With a valid URL and a non-empty, well-formed custom code, `CreateShortLink` goes on with
that code. -/
theorem create_with_custom_code (s : ShortLinkService) (env : CreateEnv)
    (req : CreateShortLinkRequest) (hurl : IsValidURL req.URL = true)
    (hv : IsValidShortCode req.CustomCode = true) :
    s.CreateShortLink env req = s.createWithCode env req (NormalizeURL req.URL) req.CustomCode := by
  unfold ShortLinkService.CreateShortLink
  simp [hurl, hv, isValidShortCode_ne_empty _ hv]

/-- With a valid URL and no custom code, `CreateShortLink` goes on with the code returned by
`generateUniqueShortCode`. -/
theorem create_with_generated_code (s : ShortLinkService) (env : CreateEnv)
    (req : CreateShortLinkRequest) (shortCode : String) (hurl : IsValidURL req.URL = true)
    (hnone : req.CustomCode = "") (hgen : s.generateUniqueShortCode env = Except.ok shortCode) :
    s.CreateShortLink env req = s.createWithCode env req (NormalizeURL req.URL) shortCode := by
  unfold ShortLinkService.CreateShortLink
  simp [hurl, hnone, hgen]

/-- The existence check finds a stored code unless the filter answers "absent". -/
theorem isShortCodeExists_of_stored (s : ShortLinkService) (reply : FilterReply)
    (shortCode : String) (hstored : (s.repo.lookup shortCode).isSome = true)
    (hreply : s.bloomFilter.Exists reply shortCode ≠ Except.ok false) :
    s.isShortCodeExists reply none shortCode = Except.ok true := by
  unfold ShortLinkService.isShortCodeExists
  cases hex : s.bloomFilter.Exists reply shortCode with
  | error err => simp [Repository.ShortCodeExists, any_code_eq_isSome, hstored]
  | ok b =>
    cases b with
    | false => exact absurd hex hreply
    | true => simp [Repository.ShortCodeExists, any_code_eq_isSome, hstored]

/-- The existence check reports a code that is not stored as free, whatever the filter
does. -/
theorem isShortCodeExists_of_free (s : ShortLinkService) (reply : FilterReply)
    (shortCode : String) (hfree : s.repo.lookup shortCode = none) :
    s.isShortCodeExists reply none shortCode = Except.ok false := by
  unfold ShortLinkService.isShortCodeExists
  cases hex : s.bloomFilter.Exists reply shortCode with
  | error err => simp [Repository.ShortCodeExists, any_code_eq_isSome, hfree]
  | ok b =>
    cases b with
    | false => simp
    | true => simp [Repository.ShortCodeExists, any_code_eq_isSome, hfree]

/-- The code is free and the Store works: the link is inserted, the filter and the cache
are written as far as they allow, and the response is built. -/
theorem createWithCode_of_free (s : ShortLinkService) (env : CreateEnv)
    (req : CreateShortLinkRequest) (normalizedURL shortCode : String)
    (hfree : s.repo.lookup shortCode = none) (hchk : env.chkStore = none)
    (hins : env.insert = none) :
    s.createWithCode env req normalizedURL shortCode =
      (Except.ok
        { ShortURL := s.buildShortURL shortCode, ShortCode := shortCode,
          OriginalURL := normalizedURL, ExpiresAt := req.ExpiresAt, CreatedAt := env.now },
       { s with
         repo :=
          { rows := s.repo.rows ++
              [{ ID := s.repo.nextID, ShortCode := shortCode, OriginalURL := normalizedURL,
                 AccessCount := 0, CreatedAt := env.now, UpdatedAt := env.now,
                 ExpiresAt := req.ExpiresAt }],
            nextID := s.repo.nextID + 1 },
         bloomFilter := (s.bloomFilter.Add env.filterAdd shortCode).2,
         cache :=
          (s.cache.SetWithDefaultTTL env.now env.cacheSet (cacheKey shortCode) normalizedURL).2 })
    := by
  unfold ShortLinkService.createWithCode
  rw [hchk, isShortCodeExists_of_free s _ _ hfree]
  simp [Repository.CreateShortLink, Repository.insertRow, hins, hfree]

/-- Whatever happens, `createWithCode` leaves the state as it was or appends one row with the
chosen code to the Store and hands the code to the filter. -/
theorem createWithCode_state (s : ShortLinkService) (env : CreateEnv)
    (req : CreateShortLinkRequest) (normalizedURL shortCode : String) :
    (s.createWithCode env req normalizedURL shortCode).2 = s ∨
      ∃ row : ShortLink, row.ShortCode = shortCode ∧
        (s.createWithCode env req normalizedURL shortCode).2.repo.rows = s.repo.rows ++ [row] ∧
        (s.createWithCode env req normalizedURL shortCode).2.bloomFilter
          = (s.bloomFilter.Add env.filterAdd shortCode).2 := by
  unfold ShortLinkService.createWithCode
  cases hex : s.isShortCodeExists env.chkFilter env.chkStore shortCode with
  | error err => exact Or.inl rfl
  | ok b =>
    cases b with
    | true => exact Or.inl rfl
    | false =>
      cases hins : env.insert with
      | some desc =>
        left
        simp [Repository.CreateShortLink]
      | none =>
        cases hl : s.repo.lookup shortCode with
        | some l =>
          left
          simp [Repository.CreateShortLink, Repository.insertRow, hl]
        | none =>
          right
          refine ⟨{ ID := s.repo.nextID, ShortCode := shortCode, OriginalURL := normalizedURL,
                    AccessCount := 0, CreatedAt := env.now, UpdatedAt := env.now,
                    ExpiresAt := req.ExpiresAt }, rfl, ?_, ?_⟩
          · simp [Repository.CreateShortLink, Repository.insertRow, hl]
          · simp [Repository.CreateShortLink, Repository.insertRow, hl]

/-- The same for the whole of `CreateShortLink`. -/
theorem createShortLink_state (s : ShortLinkService) (env : CreateEnv)
    (req : CreateShortLinkRequest) :
    (s.CreateShortLink env req).2 = s ∨
      ∃ (shortCode : String) (row : ShortLink), row.ShortCode = shortCode ∧
        (s.CreateShortLink env req).2.repo.rows = s.repo.rows ++ [row] ∧
        (s.CreateShortLink env req).2.bloomFilter
          = (s.bloomFilter.Add env.filterAdd shortCode).2 := by
  unfold ShortLinkService.CreateShortLink
  by_cases hurl : IsValidURL req.URL = true
  · simp only [hurl, Bool.not_true, Bool.false_eq_true, if_false]
    by_cases hc : req.CustomCode ≠ ""
    · rw [if_pos hc]
      by_cases hv : IsValidShortCode req.CustomCode = true
      · simp only [hv, Bool.not_true, Bool.false_eq_true, if_false]
        rcases createWithCode_state s env req (NormalizeURL req.URL) req.CustomCode with h | h
        · exact Or.inl h
        · exact Or.inr ⟨req.CustomCode, h⟩
      · have hv2 : IsValidShortCode req.CustomCode = false := by
          cases hb : IsValidShortCode req.CustomCode with
          | false => rfl
          | true => exact absurd hb hv
        rw [hv2]
        exact Or.inl rfl
    · rw [if_neg hc]
      cases hg : s.generateUniqueShortCode env with
      | error err => exact Or.inl rfl
      | ok shortCode =>
        rcases createWithCode_state s env req (NormalizeURL req.URL) shortCode with h | h
        · exact Or.inl h
        · exact Or.inr ⟨shortCode, h⟩
  · have hurl2 : IsValidURL req.URL = false := by
      cases hb : IsValidURL req.URL with
      | false => rfl
      | true => exact absurd hb hurl
    rw [hurl2]
    exact Or.inl rfl

/-! ## Claims on `CreateShortLink` -/

/-- C5 (the code at the failing input): `"ftp://example.com"` does not start with `http://`
or `https://`, so `IsValidURL` parses `"http://ftp://example.com"`, whose scheme is `http`
and whose host is `ftp:`; the URL is accepted, and `CreateShortLink` stores a link for it. -/
theorem isValidURL_accepts_ftp_scheme :
    IsValidURL "ftp://example.com" = true ∧
      (Parse "http://ftp://example.com").map (fun u => (u.Scheme, u.Host, u.Path))
        = Except.ok ("http", "ftp:", "//example.com") ∧
      ((initialService 3600 "http://localhost:8080").CreateShortLink (calmCreate 0)
        ⟨"ftp://example.com", "abc", none⟩).1
        = Except.ok
            { ShortURL := "http://localhost:8080/abc", ShortCode := "abc",
              OriginalURL := "http://ftp://example.com", ExpiresAt := none, CreatedAt := 0 } ∧
      (((initialService 3600 "http://localhost:8080").CreateShortLink (calmCreate 0)
        ⟨"ftp://example.com", "abc", none⟩).2.repo.lookup "abc").map (fun l => l.OriginalURL)
        = some "http://ftp://example.com" := by
  decide

/-- C6 (as stated, refuted): with the valid URL `"http://example.com"` and the custom code
`"ab"` of length 2, `CreateShortLink` fails with a fresh error that is not `ErrInvalidURL`, and
the create handler answers with status 500, not 400. -/
theorem create_short_custom_code_status :
    IsValidURL "http://example.com" = true ∧ len "ab" = 2 ∧
      ((initialService 3600 "http://localhost:8080").CreateShortLink (calmCreate 0)
        ⟨"http://example.com", "ab", none⟩).1
        = Except.error (GoError.errorf "invalid custom code format") ∧
      errorsIs (GoError.errorf "invalid custom code format") Sentinel.ErrInvalidURL = false ∧
      (Handler.CreateShortLink (initialService 3600 "http://localhost:8080") (calmCreate 0)
        (Except.ok ⟨"http://example.com", "ab", none⟩)).1 = 500 ∧
      (Handler.CreateShortLink (initialService 3600 "http://localhost:8080") (calmCreate 0)
        (Except.ok ⟨"http://example.com", "ab", none⟩)).1 ≠ StatusBadRequest := by
  decide

/-- C6 (amended): for every valid URL and every non-empty custom code whose length is outside
`[3,20]` or that has a symbol outside the alphabet, `CreateShortLink` fails with the fresh
error "invalid custom code format", which is neither `ErrInvalidURL` nor
`ErrShortCodeExists`; the create handler maps it to status 500; the state, and so the Store,
is unchanged. -/
theorem create_invalid_custom_code (s : ShortLinkService) (env : CreateEnv)
    (req : CreateShortLinkRequest) (hurl : IsValidURL req.URL = true)
    (hne : req.CustomCode ≠ "")
    (hbad : len req.CustomCode < 3 ∨ 20 < len req.CustomCode ∨
      ∃ c ∈ req.CustomCode.data, c ∉ base62Chars.data) :
    s.CreateShortLink env req = (Except.error (GoError.errorf "invalid custom code format"), s) ∧
      errorsIs (GoError.errorf "invalid custom code format") Sentinel.ErrInvalidURL = false ∧
      errorsIs (GoError.errorf "invalid custom code format") Sentinel.ErrShortCodeExists = false ∧
      Handler.CreateShortLink s env (Except.ok req) = (StatusInternalServerError, s) := by
  have hcreate : s.CreateShortLink env req
      = (Except.error (GoError.errorf "invalid custom code format"), s) := by
    unfold ShortLinkService.CreateShortLink
    simp [hurl, hne, isValidShortCode_false _ hbad]
  refine ⟨hcreate, rfl, rfl, ?_⟩
  unfold Handler.CreateShortLink
  simp only [hcreate]
  rfl

theorem create_invalid_custom_code_witness :
    Handler.CreateShortLink (initialService 3600 "http://localhost:8080") (calmCreate 0)
        (Except.ok ⟨"http://example.com", "ab!", none⟩)
      = (StatusInternalServerError, initialService 3600 "http://localhost:8080") :=
  (create_invalid_custom_code (initialService 3600 "http://localhost:8080") (calmCreate 0)
    ⟨"http://example.com", "ab!", none⟩ (by decide) (by decide)
    (Or.inr (Or.inr ⟨'!', by decide, by decide⟩))).2.2.2

/-- C7 (as stated, refuted): after a create whose filter `Add` failed, the Store holds `"abc"`
and the filter reports it absent; the next create with the same code reaches the insert, the
Store rejects the duplicate, and `CreateShortLink` returns a wrapped storage error that is not
`ErrShortCodeExists`; the handler answers 500, not 409. -/
theorem create_duplicate_insert_status :
    (((initialService 3600 "http://localhost:8080").run
        [Op.create { calmCreate 0 with filterAdd := some "filter down" }
          ⟨"http://example.com", "abc", none⟩]).bloomFilter.Exists FilterReply.honest "abc")
        = Except.ok false ∧
      (((initialService 3600 "http://localhost:8080").run
        [Op.create { calmCreate 0 with filterAdd := some "filter down" }
          ⟨"http://example.com", "abc", none⟩]).CreateShortLink (calmCreate 1)
          ⟨"http://example.org", "abc", none⟩).1
        = Except.error (GoError.wrapf "failed to save short link"
            (GoError.wrapf "failed to create short link"
              (GoError.external "duplicate key value violates unique constraint"))) ∧
      errorsIs (GoError.wrapf "failed to save short link"
            (GoError.wrapf "failed to create short link"
              (GoError.external "duplicate key value violates unique constraint")))
          Sentinel.ErrShortCodeExists = false ∧
      (Handler.CreateShortLink ((initialService 3600 "http://localhost:8080").run
        [Op.create { calmCreate 0 with filterAdd := some "filter down" }
          ⟨"http://example.com", "abc", none⟩]) (calmCreate 1)
          (Except.ok ⟨"http://example.org", "abc", none⟩)).1 = 500 ∧
      (Handler.CreateShortLink ((initialService 3600 "http://localhost:8080").run
        [Op.create { calmCreate 0 with filterAdd := some "filter down" }
          ⟨"http://example.com", "abc", none⟩]) (calmCreate 1)
          (Except.ok ⟨"http://example.org", "abc", none⟩)).1 ≠ StatusConflict := by
  decide

/-- C7 (amended): whenever the code of the new link (the valid custom code, or else the code
returned by `generateUniqueShortCode`) is reported absent by the filter while the Store
already holds a link with it, the insert is attempted and rejected by the uniqueness
constraint, and `CreateShortLink` returns the storage error wrapped twice ("failed to save
short link", "failed to create short link"); that error is neither `ErrShortCodeExists` nor
`ErrInvalidURL`, the create handler maps it to status 500, and the state is unchanged. -/
theorem create_duplicate_insert_is_internal (s : ShortLinkService) (env : CreateEnv)
    (req : CreateShortLinkRequest) (shortCode : String) (hurl : IsValidURL req.URL = true)
    (hcode : (req.CustomCode = shortCode ∧ IsValidShortCode shortCode = true) ∨
      (req.CustomCode = "" ∧ s.generateUniqueShortCode env = Except.ok shortCode))
    (habsent : s.bloomFilter.Exists env.chkFilter shortCode = Except.ok false)
    (hstored : (s.repo.lookup shortCode).isSome = true) (hins : env.insert = none) :
    s.CreateShortLink env req
        = (Except.error (GoError.wrapf "failed to save short link"
            (GoError.wrapf "failed to create short link"
              (GoError.external "duplicate key value violates unique constraint"))), s) ∧
      (∀ err, (s.CreateShortLink env req).1 = Except.error err →
        errorsIs err Sentinel.ErrShortCodeExists = false ∧
          errorsIs err Sentinel.ErrInvalidURL = false) ∧
      Handler.CreateShortLink s env (Except.ok req) = (StatusInternalServerError, s) := by
  have hpath : s.CreateShortLink env req
      = s.createWithCode env req (NormalizeURL req.URL) shortCode := by
    rcases hcode with ⟨hc, hv⟩ | ⟨hnone, hgen⟩
    · rw [← hc] at hv
      rw [create_with_custom_code s env req hurl hv, hc]
    · exact create_with_generated_code s env req shortCode hurl hnone hgen
  have hcreate : s.CreateShortLink env req
        = (Except.error (GoError.wrapf "failed to save short link"
            (GoError.wrapf "failed to create short link"
              (GoError.external "duplicate key value violates unique constraint"))), s) := by
    rw [hpath]
    unfold ShortLinkService.createWithCode ShortLinkService.isShortCodeExists
    rw [habsent]
    simp [Repository.CreateShortLink, Repository.insertRow, hins, hstored]
  refine ⟨hcreate, ?_, ?_⟩
  · intro err herr
    rw [hcreate] at herr
    injection herr with herr
    subst herr
    exact ⟨rfl, rfl⟩
  · unfold Handler.CreateShortLink
    simp only [hcreate]
    rfl

theorem create_duplicate_insert_is_internal_witness :
    Handler.CreateShortLink ((initialService 3600 "http://localhost:8080").run
        [Op.create { calmCreate 0 with filterAdd := some "filter down" }
          ⟨"http://example.com", "", none⟩]) (calmCreate 1)
          (Except.ok ⟨"http://example.org", "", none⟩)
      = (StatusInternalServerError, (initialService 3600 "http://localhost:8080").run
        [Op.create { calmCreate 0 with filterAdd := some "filter down" }
          ⟨"http://example.com", "", none⟩]) :=
  (create_duplicate_insert_is_internal _ (calmCreate 1) ⟨"http://example.org", "", none⟩
    "012345" (by decide) (Or.inr ⟨rfl, by decide⟩) (by decide) (by decide) (by decide)).2.2

/-! ## Two creates with one custom code; the filter and the Store -/

/-- C8 (the code at the failing input): the URL and the custom code `"abc"` are valid and the
code is not in the Store; the first create succeeds although its filter `Add` fails; in the
second create the filter answers "absent", `isShortCodeExists` takes that answer as certain
and does not ask the Store, the insert is rejected, and the result is a wrapped storage
error, not `ErrShortCodeExists`. -/
theorem second_create_not_conflict :
    IsValidURL "http://example.com" = true ∧ IsValidShortCode "abc" = true ∧
      (initialService 3600 "http://localhost:8080").repo.lookup "abc" = none ∧
      ((initialService 3600 "http://localhost:8080").CreateShortLink
        { calmCreate 0 with filterAdd := some "filter down" }
        ⟨"http://example.com", "abc", none⟩).1
        = Except.ok
            { ShortURL := "http://localhost:8080/abc", ShortCode := "abc",
              OriginalURL := "http://example.com", ExpiresAt := none, CreatedAt := 0 } ∧
      (((initialService 3600 "http://localhost:8080").CreateShortLink
        { calmCreate 0 with filterAdd := some "filter down" }
        ⟨"http://example.com", "abc", none⟩).2.CreateShortLink (calmCreate 1)
        ⟨"http://example.com", "abc", none⟩).1
        = Except.error (GoError.wrapf "failed to save short link"
            (GoError.wrapf "failed to create short link"
              (GoError.external "duplicate key value violates unique constraint"))) ∧
      (((initialService 3600 "http://localhost:8080").CreateShortLink
        { calmCreate 0 with filterAdd := some "filter down" }
        ⟨"http://example.com", "abc", none⟩).2.CreateShortLink (calmCreate 1)
        ⟨"http://example.com", "abc", none⟩).1
        ≠ Except.error (GoError.sentinel Sentinel.ErrShortCodeExists) ∧
      (((initialService 3600 "http://localhost:8080").CreateShortLink
        { calmCreate 0 with filterAdd := some "filter down" }
        ⟨"http://example.com", "abc", none⟩).2.repo.lookup "abc").isSome = true ∧
      ((initialService 3600 "http://localhost:8080").CreateShortLink
        { calmCreate 0 with filterAdd := some "filter down" }
        ⟨"http://example.com", "abc", none⟩).2.isShortCodeExists FilterReply.honest none "abc"
        = Except.ok false ∧
      (Handler.CreateShortLink ((initialService 3600 "http://localhost:8080").CreateShortLink
        { calmCreate 0 with filterAdd := some "filter down" }
        ⟨"http://example.com", "abc", none⟩).2 (calmCreate 1)
        (Except.ok ⟨"http://example.com", "abc", none⟩)).1 = StatusInternalServerError := by
  decide

/-- Two sequential creates with one custom code while the filter is in step with the Store:
for valid URLs and a valid custom code that is not yet in the Store, with the Store calls
succeeding, the first create succeeds whatever the filter and the cache do; the second
returns `ErrShortCodeExists` provided the filter `Add` of the first call succeeded or the
filter lookup of the second call fails or answers with a false positive. -/
theorem sequential_custom_creates (s : ShortLinkService) (env1 env2 : CreateEnv)
    (req1 req2 : CreateShortLinkRequest) (code : String)
    (hurl1 : IsValidURL req1.URL = true) (hurl2 : IsValidURL req2.URL = true)
    (hc1 : req1.CustomCode = code) (hc2 : req2.CustomCode = code)
    (hv : IsValidShortCode code = true) (hfree : s.repo.lookup code = none)
    (hchk1 : env1.chkStore = none) (hins1 : env1.insert = none) (hchk2 : env2.chkStore = none)
    (hfilter : env1.filterAdd = none ∨ env2.chkFilter ≠ FilterReply.honest) :
    (s.CreateShortLink env1 req1).1
        = Except.ok
            { ShortURL := s.BaseURL ++ "/" ++ code, ShortCode := code,
              OriginalURL := NormalizeURL req1.URL, ExpiresAt := req1.ExpiresAt,
              CreatedAt := env1.now } ∧
      ((s.CreateShortLink env1 req1).2.CreateShortLink env2 req2).1
        = Except.error (GoError.sentinel Sentinel.ErrShortCodeExists) := by
  subst hc1
  have h1 := create_with_custom_code s env1 req1 hurl1 hv
  rw [createWithCode_of_free s env1 req1 _ _ hfree hchk1 hins1] at h1
  rw [h1]
  refine ⟨rfl, ?_⟩
  rw [create_with_custom_code _ env2 req2 hurl2 (by rw [hc2]; exact hv), hc2]
  unfold ShortLinkService.createWithCode
  rw [hchk2, isShortCodeExists_of_stored]
  · rfl
  · show (List.find? (fun l => decide (l.ShortCode = req1.CustomCode)) (s.repo.rows ++ _)).isSome
      = true
    simp
  · show BloomFilter.Exists (s.bloomFilter.Add env1.filterAdd req1.CustomCode).2 env2.chkFilter
      req1.CustomCode ≠ Except.ok false
    rcases hfilter with hadd | hreply
    · rw [hadd]
      cases env2.chkFilter <;> simp [BloomFilter.Exists, BloomFilter.Add]
    · cases hr : env2.chkFilter with
      | honest => exact absurd hr hreply
      | fail desc => simp [BloomFilter.Exists]
      | falsePositive => simp [BloomFilter.Exists]

theorem sequential_custom_creates_witness :
    (((initialService 3600 "http://localhost:8080").CreateShortLink
        { calmCreate 0 with cacheSet := some "cache down" }
        ⟨"example.com", "abc", none⟩).2.CreateShortLink
          { calmCreate 1 with chkFilter := FilterReply.fail "filter down" }
          ⟨"http://example.org", "abc", none⟩).1
      = Except.error (GoError.sentinel Sentinel.ErrShortCodeExists) :=
  (sequential_custom_creates (initialService 3600 "http://localhost:8080")
    { calmCreate 0 with cacheSet := some "cache down" }
    { calmCreate 1 with chkFilter := FilterReply.fail "filter down" }
    ⟨"example.com", "abc", none⟩ ⟨"http://example.org", "abc", none⟩ "abc"
    (by decide) (by decide) rfl rfl (by decide) (by decide) rfl rfl rfl (Or.inl rfl)).2

/-- C9 (the code at the failing input): one create from the empty Store and the empty filter,
during which the filter `Add` fails (the failure is only logged, after the insert): the Store
holds a link for `"abc"` and the filter reports `"abc"` definitely absent. -/
theorem store_code_absent_from_filter :
    (((initialService 3600 "http://localhost:8080").run
        [Op.create { calmCreate 0 with filterAdd := some "filter down" }
          ⟨"http://example.com", "abc", none⟩]).repo.lookup "abc").isSome = true ∧
      ((initialService 3600 "http://localhost:8080").run
        [Op.create { calmCreate 0 with filterAdd := some "filter down" }
          ⟨"http://example.com", "abc", none⟩]).bloomFilter.Exists FilterReply.honest "abc"
        = Except.ok false := by
  decide

/-- Every stored code was handed to the filter. -/
theorem run_creates_covered (calls : List (CreateEnv × CreateShortLinkRequest))
    (hadd : ∀ c ∈ calls, c.1.filterAdd = none) :
    ∀ s : ShortLinkService, (∀ l ∈ s.repo.rows, l.ShortCode ∈ s.bloomFilter.items) →
      ∀ l ∈ (s.run (calls.map fun c => Op.create c.1 c.2)).repo.rows,
        l.ShortCode ∈ (s.run (calls.map fun c => Op.create c.1 c.2)).bloomFilter.items := by
  induction calls with
  | nil => intro s h; exact h
  | cons c rest ih =>
    intro s h
    have hrest : ∀ c2 ∈ rest, c2.1.filterAdd = none :=
      fun c2 hc2 => hadd c2 (List.mem_cons_of_mem _ hc2)
    have hc : c.1.filterAdd = none := hadd c (List.mem_cons_self _ _)
    show ∀ l ∈ ((s.CreateShortLink c.1 c.2).2.run (rest.map fun c => Op.create c.1 c.2)).repo.rows,
      l.ShortCode ∈
        ((s.CreateShortLink c.1 c.2).2.run (rest.map fun c => Op.create c.1 c.2)).bloomFilter.items
    apply ih hrest
    rcases createShortLink_state s c.1 c.2 with hs | ⟨shortCode, row, hrow, hrows, hbloom⟩
    · rw [hs]
      exact h
    · intro l hl
      rw [hrows] at hl
      rw [hbloom, hc]
      simp only [BloomFilter.Add, List.mem_cons]
      rcases List.mem_append.mp hl with h1 | h1
      · exact Or.inr (h l h1)
      · rw [List.mem_singleton] at h1
        rw [h1, hrow]
        exact Or.inl rfl

/-- The filter covers the Store as long as no filter `Add` fails: in every state reached
from the empty Store and the empty filter by `CreateShortLink` calls in which every filter
`Add` succeeded (whatever the other collaborator calls do), every code with a link in the
Store is reported possibly-present by the filter. -/
theorem filter_covers_store (TTL : Int) (BaseURL : String)
    (calls : List (CreateEnv × CreateShortLinkRequest))
    (hadd : ∀ c ∈ calls, c.1.filterAdd = none) (shortCode : String) :
    ((((initialService TTL BaseURL).run (calls.map fun c => Op.create c.1 c.2)).repo.lookup
        shortCode).isSome = true →
        ((initialService TTL BaseURL).run
          (calls.map fun c => Op.create c.1 c.2)).bloomFilter.Exists FilterReply.honest shortCode
          = Except.ok true) ∧
      (∀ reply,
        ((initialService TTL BaseURL).run
          (calls.map fun c => Op.create c.1 c.2)).bloomFilter.Exists reply shortCode
          = Except.ok false →
        ((initialService TTL BaseURL).run (calls.map fun c => Op.create c.1 c.2)).repo.lookup
          shortCode = none) := by
  have hcov := run_creates_covered calls hadd (initialService TTL BaseURL)
    (by intro l hl; cases hl)
  have hmem : ∀ l, ((initialService TTL BaseURL).run
      (calls.map fun c => Op.create c.1 c.2)).repo.lookup shortCode = some l →
      shortCode ∈ ((initialService TTL BaseURL).run
        (calls.map fun c => Op.create c.1 c.2)).bloomFilter.items := by
    intro l hl
    unfold Repository.lookup at hl
    have h1 := List.mem_of_find?_eq_some hl
    have h2 := List.find?_some hl
    simp only [decide_eq_true_eq] at h2
    rw [← h2]
    exact hcov l h1
  constructor
  · intro hsome
    obtain ⟨l, hl⟩ := Option.isSome_iff_exists.mp hsome
    simp [BloomFilter.Exists, hmem l hl]
  · intro reply hreply
    cases hl : ((initialService TTL BaseURL).run
      (calls.map fun c => Op.create c.1 c.2)).repo.lookup shortCode with
    | none => rfl
    | some l =>
      exfalso
      have hin := hmem l hl
      cases reply with
      | fail desc => simp [BloomFilter.Exists] at hreply
      | falsePositive => simp [BloomFilter.Exists] at hreply
      | honest => simp [BloomFilter.Exists, hin] at hreply

theorem filter_covers_store_witness :
    ((initialService 3600 "http://localhost:8080").run
      ([(calmCreate 0, (⟨"http://example.com", "abc", none⟩ : CreateShortLinkRequest)),
        ({ calmCreate 1 with cacheSet := some "cache down" },
          ⟨"example.org", "", some 9⟩)].map
        fun c => Op.create c.1 c.2)).bloomFilter.Exists FilterReply.honest "abc"
      = Except.ok true :=
  (filter_covers_store 3600 "http://localhost:8080"
    [(calmCreate 0, ⟨"http://example.com", "abc", none⟩),
      ({ calmCreate 1 with cacheSet := some "cache down" }, ⟨"example.org", "", some 9⟩)]
    (by
      intro c hc
      simp only [List.mem_cons, List.mem_singleton, List.not_mem_nil, or_false] at hc
      rcases hc with h | h <;> rw [h] <;> rfl)
    "abc").1 (by decide)

/-! ## Statistics -/

/-- Every row is counted exactly once among the active, the expired and the rows without
expiry. -/
theorem stats_partition (now : Time) (rows : List ShortLink) :
    (rows.length : Int)
      = ((rows.filter (countedActive now)).length : Int)
        + ((rows.filter (countedExpired now)).length : Int)
        + ((rows.filter fun l => l.ExpiresAt.isNone).length : Int) := by
  induction rows with
  | nil => rfl
  | cons l rest ih =>
    cases hexp : l.ExpiresAt with
    | none =>
      simp only [List.filter_cons, countedActive, countedExpired, hexp, Option.isNone_none,
        List.length_cons, if_true, Bool.false_eq_true, if_false]
      push_cast
      omega
    | some t =>
      by_cases ht : t > now
      · have h2 : ¬ t ≤ now := not_le.mpr ht
        simp only [List.filter_cons, countedActive, countedExpired, hexp, Option.isNone_some,
          List.length_cons, ht, h2, decide_True, decide_False, if_true, Bool.false_eq_true,
          if_false]
        push_cast
        omega
      · have h2 : t ≤ now := not_lt.mp ht
        simp only [List.filter_cons, countedActive, countedExpired, hexp, Option.isNone_some,
          List.length_cons, ht, h2, decide_True, decide_False, if_true, Bool.false_eq_true,
          if_false]
        push_cast
        omega

/-- C10 (as stated, refuted): the Store holds one link, without expiry; it is a link "whose
expiresAt is null or later than now", yet `GetStats` reports `active_links = 0` (and counts the
link as permanent). -/
theorem stats_null_expiry_not_active :
    ((((initialService 3600 "http://localhost:8080").run
        [Op.create (calmCreate 0) ⟨"http://example.com", "abc", none⟩]).repo.rows.filter
          fun l => match l.ExpiresAt with
            | none => true
            | some t => decide (t > 7)).length : Int) = 1 ∧
      ((initialService 3600 "http://localhost:8080").run
        [Op.create (calmCreate 0) ⟨"http://example.com", "abc", none⟩]).GetStats 7 none
        = Except.ok
            { total_links := 1, total_accesses := 0, active_links := 0, expired_links := 0,
              permanent_links := 1 } := by
  decide

/-- C10 (amended): for every non-empty Store state and instant `now` (the query not failing),
`GetStats` returns `active_links` = the number of links whose `expiresAt` is non-null and
later than `now` (a link without expiry is not counted as active), `permanent_links` =
`total_links − active_links − expired_links`, which is the number of links whose `expiresAt`
is null, and, when no link expires at the very instant `now`, `expired_links` = the number of
links whose `expiresAt` is in the past (non-null and before `now`). -/
theorem getStats_counts (s : ShortLinkService) (now : Time) (hrows : s.repo.rows ≠ []) :
    ∃ st : Stats, s.GetStats now none = Except.ok st ∧
      st.total_links = (s.repo.rows.length : Int) ∧
      st.active_links = ((s.repo.rows.filter fun l =>
        match l.ExpiresAt with
        | none => false
        | some t => decide (now < t)).length : Int) ∧
      ((∀ l ∈ s.repo.rows, l.ExpiresAt ≠ some now) →
        st.expired_links = ((s.repo.rows.filter fun l =>
          match l.ExpiresAt with
          | none => false
          | some t => decide (t < now)).length : Int)) ∧
      st.permanent_links = st.total_links - st.active_links - st.expired_links ∧
      st.permanent_links = ((s.repo.rows.filter fun l => l.ExpiresAt.isNone).length : Int) := by
  have hst : s.GetStats now none = Except.ok
      { total_links := (s.repo.rows.length : Int),
        total_accesses := (s.repo.rows.map fun l => l.AccessCount).sum,
        active_links := ((s.repo.rows.filter (countedActive now)).length : Int),
        expired_links := ((s.repo.rows.filter (countedExpired now)).length : Int),
        permanent_links := (s.repo.rows.length : Int)
          - ((s.repo.rows.filter (countedActive now)).length : Int)
          - ((s.repo.rows.filter (countedExpired now)).length : Int) } := by
    unfold ShortLinkService.GetStats Repository.GetStats
    simp only [hrows, if_false]
  refine ⟨_, hst, rfl, rfl, ?_, rfl, ?_⟩
  · intro hno
    show ((s.repo.rows.filter (countedExpired now)).length : Int) = _
    congr 2
    apply List.filter_congr
    intro l hl
    unfold countedExpired
    cases hexp : l.ExpiresAt with
    | none => rfl
    | some t =>
      have hne : t ≠ now := by
        intro h
        exact hno l hl (by rw [hexp, h])
      by_cases hlt : t < now
      · simp [hlt, le_of_lt hlt]
      · have hle : ¬ t ≤ now := fun h => hlt (lt_of_le_of_ne h hne)
        simp [hlt, hle]
  · have h := stats_partition now s.repo.rows
    simp only
    omega

theorem getStats_counts_witness :
    ∃ st : Stats,
      ((initialService 3600 "http://localhost:8080").run
        [Op.create (calmCreate 0) ⟨"http://example.com", "abc", none⟩,
         Op.create (calmCreate 1) ⟨"http://example.com", "abd", some 5⟩,
         Op.create (calmCreate 2) ⟨"http://example.com", "abe", some 9⟩]).GetStats 7 none
        = Except.ok st ∧ st.active_links = 1 ∧ st.expired_links = 1 ∧ st.permanent_links = 1 := by
  obtain ⟨st, h1, _, h3, h4, _, h6⟩ := getStats_counts
    ((initialService 3600 "http://localhost:8080").run
      [Op.create (calmCreate 0) ⟨"http://example.com", "abc", none⟩,
       Op.create (calmCreate 1) ⟨"http://example.com", "abd", some 5⟩,
       Op.create (calmCreate 2) ⟨"http://example.com", "abe", some 9⟩]) 7 (by decide)
  exact ⟨st, h1, by rw [h3]; decide, by rw [h4 (by decide)]; decide, by rw [h6]; decide⟩

/-! ## Cleanup of expired links -/

/-- C11: for every Store state and instant `now`, `CleanExpiredLinks` (the statement being
executed) removes exactly the links whose `expiresAt` is non-null and strictly before `now`,
keeps every other link as it is and in its place (every link without expiry among them),
returns the number of links removed, and touches nothing but the Store. -/
theorem cleanExpiredLinks_exact (s : ShortLinkService) (now : Time) :
    (s.CleanExpiredLinks now none).1
        = Except.ok ((s.repo.rows.length : Int)
            - ((s.CleanExpiredLinks now none).2.repo.rows.length : Int)) ∧
      (s.CleanExpiredLinks now none).2.repo.rows
        = s.repo.rows.filter (fun l =>
            match l.ExpiresAt with
            | none => true
            | some expiresAt => decide (¬ expiresAt < now)) ∧
      (∀ l, l ∈ (s.CleanExpiredLinks now none).2.repo.rows ↔
        l ∈ s.repo.rows ∧ ¬ ∃ expiresAt, l.ExpiresAt = some expiresAt ∧ expiresAt < now) ∧
      (∀ l ∈ s.repo.rows, l.ExpiresAt = none → l ∈ (s.CleanExpiredLinks now none).2.repo.rows) ∧
      (s.CleanExpiredLinks now none).2 = { s with repo := (s.CleanExpiredLinks now none).2.repo }
    := by
  have hrows : (s.CleanExpiredLinks now none).2.repo.rows
      = s.repo.rows.filter (fun l =>
          match l.ExpiresAt with
          | none => true
          | some expiresAt => decide (¬ expiresAt < now)) := by
    show s.repo.rows.filter (fun l => !deletedByCleanup now l) = _
    congr 1
    funext l
    unfold deletedByCleanup
    cases l.ExpiresAt with
    | none => rfl
    | some t => by_cases h : t < now <;> simp [h]
  have hmem : ∀ l, l ∈ (s.CleanExpiredLinks now none).2.repo.rows ↔
      l ∈ s.repo.rows ∧ ¬ ∃ expiresAt, l.ExpiresAt = some expiresAt ∧ expiresAt < now := by
    intro l
    rw [hrows, List.mem_filter]
    constructor
    · rintro ⟨h1, h2⟩
      refine ⟨h1, ?_⟩
      rintro ⟨t, ht, hlt⟩
      rw [ht] at h2
      simp only [decide_eq_true_eq] at h2
      exact h2 hlt
    · rintro ⟨h1, h2⟩
      refine ⟨h1, ?_⟩
      cases hexp : l.ExpiresAt with
      | none => rfl
      | some t =>
        simp only [decide_eq_true_eq]
        intro hlt
        exact h2 ⟨t, hexp, hlt⟩
  refine ⟨?_, hrows, hmem, ?_, rfl⟩
  · show Except.ok ((s.repo.rows.filter (deletedByCleanup now)).length : Int)
      = Except.ok ((s.repo.rows.length : Int)
          - ((s.repo.rows.filter fun l => !deletedByCleanup now l).length : Int))
    congr 1
    have hpart : ∀ rows : List ShortLink,
        ((rows.filter (deletedByCleanup now)).length : Int)
          + ((rows.filter fun l => !deletedByCleanup now l).length : Int) = (rows.length : Int) := by
      intro rows
      induction rows with
      | nil => rfl
      | cons l rest ih =>
        cases hd : deletedByCleanup now l <;>
          simp only [List.filter_cons, hd, Bool.not_true, Bool.not_false, Bool.false_eq_true,
            if_true, if_false, List.length_cons] <;>
          push_cast <;> omega
    have := hpart s.repo.rows
    omega
  · intro l hl hnone
    exact (hmem l).mpr ⟨hl, by rintro ⟨t, ht, _⟩; rw [hnone] at ht; cases ht⟩

/-! ## Resolution: unknown codes and valid links -/

/-- C12 (as stated, refuted): a link created at time 0 with expiry 5 is warmed into the cache
for the default TTL and deleted from the Store by the cleanup at time 10; at time 20 the Store
holds no link for `"abc"`, yet `GetOriginalURL` answers from the cache with the target
URL. -/
theorem resolve_unknown_from_cache :
    ((initialService 3600 "http://localhost:8080").run
        [Op.create (calmCreate 0) ⟨"http://example.com", "abc", some 5⟩,
         Op.clean 10 none]).repo.lookup "abc" = none ∧
      (((initialService 3600 "http://localhost:8080").run
        [Op.create (calmCreate 0) ⟨"http://example.com", "abc", some 5⟩,
         Op.clean 10 none]).GetOriginalURL (calmResolve 20) "abc").1
        = Except.ok "http://example.com" ∧
      (((initialService 3600 "http://localhost:8080").run
        [Op.create (calmCreate 0) ⟨"http://example.com", "abc", some 5⟩,
         Op.clean 10 none]).GetOriginalURL (calmResolve 20) "abc").1
        ≠ Except.error (GoError.sentinel Sentinel.ErrShortCodeNotFound) := by
  decide

/-- C12 (amended): in every state, when the cache lookup yields a miss or a cache error and
the Store lookup itself succeeds, a code for which the Store holds no link resolves to
`ErrShortCodeNotFound`, never to a target URL, and the state is left as it was. -/
theorem resolve_unknown_on_cache_miss (s : ShortLinkService) (env : ResolveEnv)
    (shortCode : String) (cacheErr : GoError)
    (hmiss : s.cache.Get env.now env.cacheGet (cacheKey shortCode) = Except.error cacheErr)
    (hstore : env.storeGet = none) (hnone : s.repo.lookup shortCode = none) :
    s.GetOriginalURL env shortCode
      = (Except.error (GoError.sentinel Sentinel.ErrShortCodeNotFound), s) := by
  unfold ShortLinkService.GetOriginalURL
  rw [hmiss]
  simp [Repository.GetShortLinkByCode, hstore, hnone, errorsIs]

theorem resolve_unknown_on_cache_miss_witness :
    ((initialService 3600 "http://localhost:8080").run
        [Op.create (calmCreate 0) ⟨"http://example.com", "abc", some 5⟩,
         Op.clean 10 none]).GetOriginalURL (calmResolve 4000) "abc"
      = (Except.error (GoError.sentinel Sentinel.ErrShortCodeNotFound),
          (initialService 3600 "http://localhost:8080").run
            [Op.create (calmCreate 0) ⟨"http://example.com", "abc", some 5⟩,
             Op.clean 10 none]) :=
  resolve_unknown_on_cache_miss _ (calmResolve 4000) "abc" (GoError.sentinel Sentinel.redisNil)
    (by decide) (by decide) (by decide)

/-- The link found for a code after `IncrementAccessCount` is the link found before, with
its count raised by one and `updated_at` set. -/
theorem lookup_after_increment (rows : List ShortLink) (now : Time) (shortCode : String) :
    (rows.map fun l =>
        if l.ShortCode = shortCode then
          { l with AccessCount := l.AccessCount + 1, UpdatedAt := now }
        else l).find? (fun l => l.ShortCode = shortCode)
      = (rows.find? fun l => l.ShortCode = shortCode).map
          fun l => { l with AccessCount := l.AccessCount + 1, UpdatedAt := now } := by
  induction rows with
  | nil => rfl
  | cons l rest ih =>
    by_cases h : l.ShortCode = shortCode
    · simp [List.find?_cons, h]
    · simp [List.find?_cons, h, ih]

/-- The link found for another code is not touched by `IncrementAccessCount`. -/
theorem lookup_other_after_increment (rows : List ShortLink) (now : Time)
    (shortCode other : String) (hne : other ≠ shortCode) :
    (rows.map fun l =>
        if l.ShortCode = shortCode then
          { l with AccessCount := l.AccessCount + 1, UpdatedAt := now }
        else l).find? (fun l => l.ShortCode = other)
      = rows.find? fun l => l.ShortCode = other := by
  induction rows with
  | nil => rfl
  | cons l rest ih =>
    by_cases h : l.ShortCode = shortCode
    · have h2 : ¬ shortCode = other := fun h3 => hne h3.symm
      simp [List.find?_cons, h, h2, ih]
    · simp [List.find?_cons, h, ih]

/-- The deadline given to a key by `Set` has not passed at the time of the write. -/
theorem set_deadline_live (c : RedisClient) (now : Time) (key value : String)
    (expiration : Int) :
    CacheEntry.live
      { key := key, value := value,
        deadline :=
          if expiration > 0 then some (now + expiration)
          else if expiration = -1 then
            match c.entries.find? fun e => e.key = key && e.live now with
            | some e => e.deadline
            | none => none
          else none } now = true := by
  by_cases h1 : expiration > 0
  · simp only [if_pos h1, CacheEntry.live, decide_eq_true_eq]
    exact lt_add_of_pos_right now h1
  · rw [if_neg h1]
    by_cases h2 : expiration = -1
    · rw [if_pos h2]
      cases hf : c.entries.find? fun e => e.key = key && e.live now with
      | none => rfl
      | some e =>
        have hl := List.find?_some hf
        simp only [Bool.and_eq_true, decide_eq_true_eq] at hl
        have h3 := hl.2
        unfold CacheEntry.live at h3 ⊢
        exact h3
    · rw [if_neg h2]
      rfl

/-- A key whose entry is first among the entries and has not expired is read back. -/
theorem get_first_live (e : CacheEntry) (rest : List CacheEntry) (TTL : Int) (now : Time)
    (h : e.live now = true) :
    RedisClient.Get { entries := e :: rest, TTL := TTL } now none e.key = Except.ok e.value := by
  unfold RedisClient.Get
  simp [List.find?_cons, h]

/-- A successful cache write makes the key readable at once, with the written value. -/
theorem get_after_set (c : RedisClient) (now : Time) (key value : String) (expiration : Int) :
    (c.Set now none key value expiration).2.Get now none key = Except.ok value :=
  get_first_live _ _ _ _ (set_deadline_live c now key value expiration)

/-- C13: whenever the cache lookup for a code yields a miss or any cache error and the Store
(its calls succeeding) holds a non-expired link for the code, `GetOriginalURL` returns the
link's stored target with no error, whatever the cache write does; the cache is left as the
write of (`"shorturl:" + code`, target) at the default TTL leaves it (readable at once when the
write succeeds); and the link's access count in the Store is raised by exactly one, every
link with another code being untouched. -/
theorem resolve_valid_on_cache_miss (s : ShortLinkService) (env : ResolveEnv)
    (shortCode : String) (link : ShortLink) (cacheErr : GoError)
    (hmiss : s.cache.Get env.now env.cacheGet (cacheKey shortCode) = Except.error cacheErr)
    (hstore : env.storeGet = none) (hincr : env.storeIncrement = none)
    (hlink : s.repo.lookup shortCode = some link)
    (hvalid : link.IsExpired env.now = false) :
    (s.GetOriginalURL env shortCode).1 = Except.ok link.OriginalURL ∧
      (∀ outcome, (s.GetOriginalURL { env with cacheSet := outcome } shortCode).1
        = Except.ok link.OriginalURL) ∧
      cacheKey shortCode = "shorturl:" ++ shortCode ∧
      (s.GetOriginalURL env shortCode).2.cache
        = (s.cache.Set env.now env.cacheSet ("shorturl:" ++ shortCode) link.OriginalURL
            s.cache.TTL).2 ∧
      (env.cacheSet = none →
        (s.GetOriginalURL env shortCode).2.cache.Get env.now none (cacheKey shortCode)
          = Except.ok link.OriginalURL) ∧
      (s.GetOriginalURL env shortCode).2.repo.lookup shortCode
        = some { link with AccessCount := link.AccessCount + 1, UpdatedAt := env.now } ∧
      (∀ other, other ≠ shortCode →
        (s.GetOriginalURL env shortCode).2.repo.lookup other = s.repo.lookup other) ∧
      (s.GetOriginalURL env shortCode).2.background = s.background := by
  have hsome : (s.repo.rows.filter fun l => l.ShortCode = shortCode).length ≠ 0 := by
    intro h0
    have hnil := List.length_eq_zero.mp h0
    have hmem := List.mem_of_find?_eq_some hlink
    have hcode := List.find?_some hlink
    have : link ∈ s.repo.rows.filter fun l => l.ShortCode = shortCode :=
      List.mem_filter.mpr ⟨hmem, hcode⟩
    rw [hnil] at this
    cases this
  have hres : ∀ outcome, s.GetOriginalURL { env with cacheSet := outcome } shortCode
      = (Except.ok link.OriginalURL,
          { s with
            cache := (s.cache.SetWithDefaultTTL env.now outcome (cacheKey shortCode)
              link.OriginalURL).2,
            repo := { s.repo with rows := s.repo.rows.map fun l =>
              if l.ShortCode = shortCode then
                { l with AccessCount := l.AccessCount + 1, UpdatedAt := env.now }
              else l } }) := by
    intro outcome
    unfold ShortLinkService.GetOriginalURL
    simp only [hmiss, Repository.GetShortLinkByCode, hstore, hlink, hvalid, hincr,
      Repository.IncrementAccessCount, hsome, if_false, Bool.false_eq_true]
  have hself : s.GetOriginalURL env shortCode
      = s.GetOriginalURL { env with cacheSet := env.cacheSet } shortCode := rfl
  rw [hself, hres env.cacheSet]
  refine ⟨rfl, fun outcome => by rw [hres outcome], rfl, rfl, ?_, ?_, ?_, rfl⟩
  · intro hset
    show (s.cache.Set env.now env.cacheSet (cacheKey shortCode) link.OriginalURL
      s.cache.TTL).2.Get env.now none (cacheKey shortCode) = _
    rw [hset]
    exact get_after_set _ _ _ _ _
  · show (s.repo.rows.map _).find? _ = _
    rw [lookup_after_increment]
    unfold Repository.lookup at hlink
    rw [hlink]
    rfl
  · intro other hne
    exact lookup_other_after_increment _ _ _ _ hne

theorem resolve_valid_on_cache_miss_witness :
    (((initialService 3600 "http://localhost:8080").run
        [Op.create { calmCreate 0 with cacheSet := some "cache down" }
          ⟨"http://example.com", "abc", some 50⟩]).GetOriginalURL
          { calmResolve 10 with cacheSet := some "cache down" } "abc").1
        = Except.ok "http://example.com" ∧
      ((((initialService 3600 "http://localhost:8080").run
        [Op.create { calmCreate 0 with cacheSet := some "cache down" }
          ⟨"http://example.com", "abc", some 50⟩]).GetOriginalURL
          { calmResolve 10 with cacheSet := some "cache down" } "abc").2.repo.lookup "abc").map
          (fun l => l.AccessCount) = some 1 := by
  have h := resolve_valid_on_cache_miss
    ((initialService 3600 "http://localhost:8080").run
      [Op.create { calmCreate 0 with cacheSet := some "cache down" }
        ⟨"http://example.com", "abc", some 50⟩])
    { calmResolve 10 with cacheSet := some "cache down" } "abc"
    { ID := 1, ShortCode := "abc", OriginalURL := "http://example.com", AccessCount := 0,
      CreatedAt := 0, UpdatedAt := 0, ExpiresAt := some 50 }
    (GoError.sentinel Sentinel.redisNil) (by decide) (by decide) (by decide) (by decide)
    (by decide)
  exact ⟨h.1, by rw [h.2.2.2.2.2.1]; rfl⟩

/-! ## `CreateShortLink`: the response after a successful insert -/

/-- The two outcomes of `createWithCode`: an error with the state as it was, or the response
with the new row in the Store and the filter and cache written as far as they allow. -/
theorem createWithCode_cases (s : ShortLinkService) (env : CreateEnv)
    (req : CreateShortLinkRequest) (normalizedURL shortCode : String) :
    ((∃ err, (s.createWithCode env req normalizedURL shortCode).1 = Except.error err) ∧
        (s.createWithCode env req normalizedURL shortCode).2 = s) ∨
      s.createWithCode env req normalizedURL shortCode =
        (Except.ok
          { ShortURL := s.BaseURL ++ "/" ++ shortCode, ShortCode := shortCode,
            OriginalURL := normalizedURL, ExpiresAt := req.ExpiresAt, CreatedAt := env.now },
         { s with
           repo :=
            { rows := s.repo.rows ++
                [{ ID := s.repo.nextID, ShortCode := shortCode, OriginalURL := normalizedURL,
                   AccessCount := 0, CreatedAt := env.now, UpdatedAt := env.now,
                   ExpiresAt := req.ExpiresAt }],
              nextID := s.repo.nextID + 1 },
           bloomFilter := (s.bloomFilter.Add env.filterAdd shortCode).2,
           cache :=
            (s.cache.SetWithDefaultTTL env.now env.cacheSet (cacheKey shortCode)
              normalizedURL).2 }) := by
  unfold ShortLinkService.createWithCode
  cases hex : s.isShortCodeExists env.chkFilter env.chkStore shortCode with
  | error err => exact Or.inl ⟨⟨_, rfl⟩, rfl⟩
  | ok b =>
    cases b with
    | true => exact Or.inl ⟨⟨_, rfl⟩, rfl⟩
    | false =>
      cases hins : env.insert with
      | some desc =>
        left
        simp [Repository.CreateShortLink]
      | none =>
        cases hl : s.repo.lookup shortCode with
        | some l =>
          left
          simp [Repository.CreateShortLink, Repository.insertRow, hl]
        | none =>
          right
          simp [Repository.CreateShortLink, Repository.insertRow, hl,
            ShortLinkService.buildShortURL]

/-- The filter `Add` and the cache write have no say in the code that is generated. -/
theorem generateLoop_accelerators (s : ShortLinkService) (env : CreateEnv)
    (addOutcome setOutcome : Option String) :
    ∀ (n i : Nat) (r : RandReader),
      generateLoop s { env with filterAdd := addOutcome, cacheSet := setOutcome } n i r
        = generateLoop s env n i r := by
  intro n
  induction n with
  | zero => intro i r; rfl
  | succ n ih =>
    intro i r
    simp only [generateLoop, ih]

/-- The same for the existence check and the insert: they are the same whatever the filter
`Add` and the cache write will do, so the outcome (error or response) is the same. -/
theorem createWithCode_accelerators (s : ShortLinkService) (env : CreateEnv)
    (req : CreateShortLinkRequest) (normalizedURL shortCode : String)
    (addOutcome setOutcome : Option String) :
    (s.createWithCode { env with filterAdd := addOutcome, cacheSet := setOutcome } req
        normalizedURL shortCode).1
      = (s.createWithCode env req normalizedURL shortCode).1 := by
  unfold ShortLinkService.createWithCode
  simp only
  cases s.isShortCodeExists env.chkFilter env.chkStore shortCode with
  | error err => rfl
  | ok b =>
    cases b with
    | true => rfl
    | false =>
      simp only [Bool.false_eq_true, if_false]
      cases hc : s.repo.CreateShortLink env.now env.insert
        { ID := 0, ShortCode := shortCode, OriginalURL := normalizedURL, AccessCount := 0,
          CreatedAt := 0, UpdatedAt := 0, ExpiresAt := req.ExpiresAt } with
      | mk res repo1 =>
        cases res with
        | error err => rfl
        | ok saved => rfl

theorem createShortLink_accelerators (s : ShortLinkService) (env : CreateEnv)
    (req : CreateShortLinkRequest) (addOutcome setOutcome : Option String) :
    (s.CreateShortLink { env with filterAdd := addOutcome, cacheSet := setOutcome } req).1
      = (s.CreateShortLink env req).1 := by
  unfold ShortLinkService.CreateShortLink ShortLinkService.generateUniqueShortCode
  simp only [generateLoop_accelerators]
  split_ifs
  · rfl
  · rfl
  · exact createWithCode_accelerators s env req _ _ addOutcome setOutcome
  · cases generateLoop s env 10 0 env.rand with
    | error err => rfl
    | ok shortCode => exact createWithCode_accelerators s env req _ _ addOutcome setOutcome

/-- C14: whenever the Store insert in `CreateShortLink` succeeds, that is, the Store gains
the row `row`, the call returns success, whatever the filter `Add` and the cache write
return, and the response has `ShortURL = BaseURL + "/" + code`, `ShortCode = code`,
`OriginalURL = NormalizeURL(request URL)`, `ExpiresAt` = the expiry of the request and
`CreatedAt` = the creation time the Store assigned to the row. -/
theorem create_success_response (s : ShortLinkService) (env : CreateEnv)
    (req : CreateShortLinkRequest) (row : ShortLink)
    (hinsert : (s.CreateShortLink env req).2.repo.rows = s.repo.rows ++ [row]) :
    (s.CreateShortLink env req).1
        = Except.ok
            { ShortURL := s.BaseURL ++ "/" ++ row.ShortCode, ShortCode := row.ShortCode,
              OriginalURL := NormalizeURL req.URL, ExpiresAt := req.ExpiresAt,
              CreatedAt := row.CreatedAt } ∧
      (∀ addOutcome setOutcome,
        (s.CreateShortLink { env with filterAdd := addOutcome, cacheSet := setOutcome } req).1
          = Except.ok
              { ShortURL := s.BaseURL ++ "/" ++ row.ShortCode, ShortCode := row.ShortCode,
                OriginalURL := NormalizeURL req.URL, ExpiresAt := req.ExpiresAt,
                CreatedAt := row.CreatedAt }) ∧
      row.OriginalURL = NormalizeURL req.URL ∧ row.ExpiresAt = req.ExpiresAt ∧
      row.CreatedAt = env.now ∧ row.AccessCount = 0 := by
  have hne : s.repo.rows ≠ s.repo.rows ++ [row] := by
    intro h
    have := congrArg List.length h
    simp at this
  have key : ∀ shortCode,
      (s.CreateShortLink env req) = s.createWithCode env req (NormalizeURL req.URL) shortCode →
      (s.CreateShortLink env req).1
        = Except.ok
            { ShortURL := s.BaseURL ++ "/" ++ row.ShortCode, ShortCode := row.ShortCode,
              OriginalURL := NormalizeURL req.URL, ExpiresAt := req.ExpiresAt,
              CreatedAt := row.CreatedAt } ∧
      row.OriginalURL = NormalizeURL req.URL ∧ row.ExpiresAt = req.ExpiresAt ∧
      row.CreatedAt = env.now ∧ row.AccessCount = 0 := by
    intro shortCode hpath
    rcases createWithCode_cases s env req (NormalizeURL req.URL) shortCode with ⟨_, hs⟩ | hok
    · rw [hpath, hs] at hinsert
      exact absurd hinsert hne
    · rw [hpath, hok] at hinsert
      have hrow := List.append_cancel_left hinsert
      injection hrow with hrow _
      rw [hpath, hok, ← hrow]
      exact ⟨rfl, rfl, rfl, rfl, rfl⟩
  have main : (s.CreateShortLink env req).1
        = Except.ok
            { ShortURL := s.BaseURL ++ "/" ++ row.ShortCode, ShortCode := row.ShortCode,
              OriginalURL := NormalizeURL req.URL, ExpiresAt := req.ExpiresAt,
              CreatedAt := row.CreatedAt } ∧
      row.OriginalURL = NormalizeURL req.URL ∧ row.ExpiresAt = req.ExpiresAt ∧
      row.CreatedAt = env.now ∧ row.AccessCount = 0 := by
    by_cases hurl : IsValidURL req.URL = true
    · by_cases hc : req.CustomCode = ""
      · cases hg : s.generateUniqueShortCode env with
        | error err =>
          exfalso
          have hs : (s.CreateShortLink env req).2 = s := by
            unfold ShortLinkService.CreateShortLink
            simp [hurl, hc, hg]
          rw [hs] at hinsert
          exact hne hinsert
        | ok shortCode =>
          exact key shortCode (create_with_generated_code s env req shortCode hurl hc hg)
      · by_cases hv : IsValidShortCode req.CustomCode = true
        · exact key req.CustomCode (create_with_custom_code s env req hurl hv)
        · exfalso
          have hs : (s.CreateShortLink env req).2 = s := by
            unfold ShortLinkService.CreateShortLink
            simp [hurl, hc, hv]
          rw [hs] at hinsert
          exact hne hinsert
    · exfalso
      have hs : (s.CreateShortLink env req).2 = s := by
        unfold ShortLinkService.CreateShortLink
        simp [hurl]
      rw [hs] at hinsert
      exact hne hinsert
  refine ⟨main.1, ?_, main.2⟩
  intro addOutcome setOutcome
  rw [createShortLink_accelerators, main.1]

theorem create_success_response_witness :
    ((initialService 3600 "http://localhost:8080").CreateShortLink
        { calmCreate 7 with filterAdd := some "filter down", cacheSet := some "cache down" }
        ⟨"example.com/docs/", "", some 99⟩).1
      = Except.ok
          { ShortURL := "http://localhost:8080/012345", ShortCode := "012345",
            OriginalURL := "http://example.com/docs", ExpiresAt := some 99, CreatedAt := 7 } :=
  (create_success_response (initialService 3600 "http://localhost:8080")
    { calmCreate 7 with filterAdd := some "filter down", cacheSet := some "cache down" }
    ⟨"example.com/docs/", "", some 99⟩
    { ID := 1, ShortCode := "012345", OriginalURL := "http://example.com/docs",
      AccessCount := 0, CreatedAt := 7, UpdatedAt := 7, ExpiresAt := some 99 }
    (by decide)).1

/-! ## The existence check, the link information, the access count -/

/-- C15: for every code, when the membership filter reports the code definitely absent,
`isShortCodeExists` returns `(false, nil)` without the Store having any say (whatever the
Store holds and even if its call would fail); when the filter reports possibly-present or the
filter call fails, it returns exactly the result, value and error, of the Store's
`ShortCodeExists` for that code. -/
theorem isShortCodeExists_two_tier (s : ShortLinkService) (reply : FilterReply)
    (fail : Option String) (shortCode : String) :
    (s.bloomFilter.Exists reply shortCode = Except.ok false →
        s.isShortCodeExists reply fail shortCode = Except.ok false ∧
        ∀ (repo : Repository) (fail2 : Option String),
          ShortLinkService.isShortCodeExists { s with repo := repo } reply fail2 shortCode
            = Except.ok false) ∧
      (s.bloomFilter.Exists reply shortCode = Except.ok true →
        s.isShortCodeExists reply fail shortCode = s.repo.ShortCodeExists fail shortCode) ∧
      (∀ err, s.bloomFilter.Exists reply shortCode = Except.error err →
        s.isShortCodeExists reply fail shortCode = s.repo.ShortCodeExists fail shortCode) := by
  refine ⟨?_, ?_, ?_⟩
  · intro h
    constructor
    · unfold ShortLinkService.isShortCodeExists
      rw [h]
      rfl
    · intro repo fail2
      unfold ShortLinkService.isShortCodeExists
      show (match s.bloomFilter.Exists reply shortCode with
        | Except.error _ => repo.ShortCodeExists fail2 shortCode
        | Except.ok codeExists =>
          if (!codeExists) = true then Except.ok false
          else repo.ShortCodeExists fail2 shortCode) = Except.ok false
      rw [h]
      rfl
  · intro h
    unfold ShortLinkService.isShortCodeExists
    rw [h]
    rfl
  · intro err h
    unfold ShortLinkService.isShortCodeExists
    rw [h]

theorem isShortCodeExists_two_tier_witness :
    ShortLinkService.isShortCodeExists
        ((initialService 3600 "http://localhost:8080").run
          [Op.create { calmCreate 0 with filterAdd := some "filter down" }
            ⟨"http://example.com", "abc", none⟩])
        FilterReply.honest (some "database down") "abc" = Except.ok false ∧
      ShortLinkService.isShortCodeExists
        ((initialService 3600 "http://localhost:8080").run
          [Op.create { calmCreate 0 with filterAdd := some "filter down" }
            ⟨"http://example.com", "abc", none⟩])
        (FilterReply.fail "filter down") none "abc" = Except.ok true :=
  ⟨((isShortCodeExists_two_tier _ FilterReply.honest (some "database down") "abc").1
      (by decide)).1,
   ((isShortCodeExists_two_tier
      ((initialService 3600 "http://localhost:8080").run
        [Op.create { calmCreate 0 with filterAdd := some "filter down" }
          ⟨"http://example.com", "abc", none⟩])
      (FilterReply.fail "filter down") none "abc").2.2
      (GoError.external "filter down") (by decide)).trans (by decide)⟩

/-- C19: for every code, `GetShortLinkInfo` (the Store lookup being executed) returns
`ErrShortCodeNotFound` when the Store holds no link for it, and otherwise the stored code,
target URL, access count, creation time and expiry of the link, whether or not the expiry is
in the past; its result is a function of the Store alone (the cache, the filter and the
pending goroutines have no say), and it produces no new state: nothing is written. -/
theorem getShortLinkInfo_store_only (s : ShortLinkService) (shortCode : String) :
    (s.repo.lookup shortCode = none →
        s.GetShortLinkInfo none shortCode
          = Except.error (GoError.sentinel Sentinel.ErrShortCodeNotFound)) ∧
      (∀ link, s.repo.lookup shortCode = some link →
        s.GetShortLinkInfo none shortCode
          = Except.ok
              { ShortCode := link.ShortCode, OriginalURL := link.OriginalURL,
                AccessCount := link.AccessCount, CreatedAt := link.CreatedAt,
                ExpiresAt := link.ExpiresAt } ∧
        link.ShortCode = shortCode ∧
        ∀ now, (link.IsExpired now = true →
          s.GetShortLinkInfo none shortCode
            = Except.ok
                { ShortCode := link.ShortCode, OriginalURL := link.OriginalURL,
                  AccessCount := link.AccessCount, CreatedAt := link.CreatedAt,
                  ExpiresAt := link.ExpiresAt })) ∧
      (∀ (cache : RedisClient) (bloomFilter : BloomFilter) (background : List String)
          (fail : Option String),
        ShortLinkService.GetShortLinkInfo
            { s with cache := cache, bloomFilter := bloomFilter, background := background }
            fail shortCode
          = s.GetShortLinkInfo fail shortCode) := by
  refine ⟨?_, ?_, ?_⟩
  · intro h
    unfold ShortLinkService.GetShortLinkInfo
    simp [Repository.GetShortLinkByCode, h, errorsIs]
  · intro link h
    have hres : s.GetShortLinkInfo none shortCode
          = Except.ok
              { ShortCode := link.ShortCode, OriginalURL := link.OriginalURL,
                AccessCount := link.AccessCount, CreatedAt := link.CreatedAt,
                ExpiresAt := link.ExpiresAt } := by
      unfold ShortLinkService.GetShortLinkInfo
      simp [Repository.GetShortLinkByCode, h]
    refine ⟨hres, ?_, fun _ _ => hres⟩
    have := List.find?_some h
    simpa using this
  · intro cache bloomFilter background fail
    rfl

theorem getShortLinkInfo_store_only_witness :
    ((initialService 3600 "http://localhost:8080").run
        [Op.create (calmCreate 0) ⟨"http://example.com", "abc", some 5⟩]).GetShortLinkInfo
          none "abc"
        = Except.ok
            { ShortCode := "abc", OriginalURL := "http://example.com", AccessCount := 0,
              CreatedAt := 0, ExpiresAt := some 5 } ∧
      ((initialService 3600 "http://localhost:8080").run
        [Op.create (calmCreate 0) ⟨"http://example.com", "abc", some 5⟩]).GetShortLinkInfo
          none "abd"
        = Except.error (GoError.sentinel Sentinel.ErrShortCodeNotFound) :=
  ⟨((getShortLinkInfo_store_only
      ((initialService 3600 "http://localhost:8080").run
        [Op.create (calmCreate 0) ⟨"http://example.com", "abc", some 5⟩]) "abc").2.1
      { ID := 1, ShortCode := "abc", OriginalURL := "http://example.com", AccessCount := 0,
        CreatedAt := 0, UpdatedAt := 0, ExpiresAt := some 5 } (by decide)).2.2 10 (by decide),
   (getShortLinkInfo_store_only
      ((initialService 3600 "http://localhost:8080").run
        [Op.create (calmCreate 0) ⟨"http://example.com", "abc", some 5⟩]) "abd").1
      (by decide)⟩

/-! ## `generateUniqueShortCode` -/

theorem advance_advance (r : RandReader) (a b : Nat) :
    (r.advance a).advance b = r.advance (a + b) := by
  unfold RandReader.advance
  simp only [RandReader.mk.injEq]
  funext k
  congr 1
  omega

theorem advance_zero (r : RandReader) : r.advance 0 = r := rfl

/-- After a successful filling loop of `n` rounds the random source has moved on by `n`
reads. -/
theorem randomFill_reader (e : Base62Encoder) :
    ∀ (n i : Nat) (code : List Char) (r : RandReader) (out : List Char),
      (randomFill e n i code r).1 = Except.ok out →
      (randomFill e n i code r).2 = r.advance n := by
  intro n
  induction n with
  | zero => intro i code r out _; rfl
  | succ n ih =>
    intro i code r out h
    simp only [randomFill] at h ⊢
    cases hd : r.draw 0 with
    | error err =>
      simp only [randInt, hd] at h
      cases h
    | ok v =>
      simp only [randInt, hd] at h ⊢
      rw [ih _ _ _ out h]
      exact (advance_advance r 1 n).trans (by rw [Nat.add_comm])

/-- The filling loop of `n` rounds looks at the first `n` reads only. -/
theorem randomFill_agree (e : Base62Encoder) :
    ∀ (n i : Nat) (code : List Char) (r r2 : RandReader),
      (∀ k, k < n → r2.draw k = r.draw k) →
      (randomFill e n i code r2).1 = (randomFill e n i code r).1 := by
  intro n
  induction n with
  | zero => intro i code r r2 _; rfl
  | succ n ih =>
    intro i code r r2 h
    simp only [randomFill, randInt, h 0 (Nat.succ_pos n)]
    cases r.draw 0 with
    | error err => rfl
    | ok v =>
      simp only
      exact ih _ _ _ _ (fun k hk => h (k + 1) (by omega))

theorem generateRandomCode_reader (e : Base62Encoder) (r : RandReader) (code : String)
    (h : (GenerateRandomCode e r).1 = Except.ok code) :
    (GenerateRandomCode e r).2 = r.advance e.codeLength.toNat := by
  unfold GenerateRandomCode at h ⊢
  simp only at h ⊢
  cases hf : randomFill e (List.replicate e.codeLength.toNat (Char.ofNat 0)).length 0
      (List.replicate e.codeLength.toNat (Char.ofNat 0)) r with
  | mk res r1 =>
    rw [hf] at h
    cases res with
    | error err => cases h
    | ok out =>
      have := randomFill_reader e _ 0 _ r out (by rw [hf])
      rw [hf] at this
      simp only [List.length_replicate] at this
      exact this

theorem generateRandomCode_agree (e : Base62Encoder) (r r2 : RandReader)
    (h : ∀ k, k < e.codeLength.toNat → r2.draw k = r.draw k) :
    (GenerateRandomCode e r2).1 = (GenerateRandomCode e r).1 := by
  have hf := randomFill_agree e (List.replicate e.codeLength.toNat (Char.ofNat 0)).length 0
    (List.replicate e.codeLength.toNat (Char.ofNat 0)) r r2
    (by simpa using h)
  unfold GenerateRandomCode
  simp only
  cases h1 : randomFill e (List.replicate e.codeLength.toNat (Char.ofNat 0)).length 0
      (List.replicate e.codeLength.toNat (Char.ofNat 0)) r with
  | mk res r1 =>
    cases h2 : randomFill e (List.replicate e.codeLength.toNat (Char.ofNat 0)).length 0
        (List.replicate e.codeLength.toNat (Char.ofNat 0)) r2 with
    | mk res2 r3 =>
      rw [h1, h2] at hf
      simp only at hf
      subst hf
      cases res2 <;> rfl

/-- What one attempt does with the code it drew: return it, fail, or go on. -/
theorem generateLoop_step (s : ShortLinkService) (env : CreateEnv) (n i : Nat) (r : RandReader) :
    generateLoop s env (n + 1) i r =
      match (GenerateRandomCode s.encoder r).1 with
      | Except.error err => Except.error err
      | Except.ok shortCode =>
        match s.bloomFilter.Exists (env.genFilter i) shortCode with
        | Except.error _ =>
          match s.repo.ShortCodeExists (env.genStoreFirst i) shortCode with
          | Except.error dbErr => Except.error dbErr
          | Except.ok false => Except.ok shortCode
          | Except.ok true =>
            match s.repo.ShortCodeExists (env.genStoreSecond i) shortCode with
            | Except.error err => Except.error err
            | Except.ok false => Except.ok shortCode
            | Except.ok true =>
              generateLoop s env n (i + 1) (r.advance s.encoder.codeLength.toNat)
        | Except.ok false => Except.ok shortCode
        | Except.ok true =>
          match s.repo.ShortCodeExists (env.genStoreSecond i) shortCode with
          | Except.error err => Except.error err
          | Except.ok false => Except.ok shortCode
          | Except.ok true =>
            generateLoop s env n (i + 1) (r.advance s.encoder.codeLength.toNat) := by
  simp only [generateLoop]
  cases hg : GenerateRandomCode s.encoder r with
  | mk res r1 =>
    cases res with
    | error err => rfl
    | ok shortCode =>
      have hr : r1 = r.advance s.encoder.codeLength.toNat := by
        have := generateRandomCode_reader s.encoder r shortCode (by rw [hg])
        rw [hg] at this
        exact this
      subst hr
      simp only
      cases s.bloomFilter.Exists (env.genFilter i) shortCode with
      | error err =>
        simp only
        cases s.repo.ShortCodeExists (env.genStoreFirst i) shortCode with
        | error e2 => rfl
        | ok b =>
          cases b with
          | false => rfl
          | true =>
            simp only [Bool.not_true, Bool.false_eq_true, if_false]
            cases s.repo.ShortCodeExists (env.genStoreSecond i) shortCode with
            | error e3 => rfl
            | ok b2 => cases b2 <;> rfl
      | ok b =>
        cases b with
        | false => rfl
        | true =>
          simp only [Bool.not_true, Bool.false_eq_true, if_false]
          cases s.repo.ShortCodeExists (env.genStoreSecond i) shortCode with
          | error e3 => rfl
          | ok b2 => cases b2 <;> rfl

/-- The retry loop does not read `env.rand`: the random source is passed to it. -/
theorem generateLoop_rand (s : ShortLinkService) (env : CreateEnv) (rand2 : RandReader) :
    ∀ (n i : Nat) (r : RandReader),
      generateLoop s { env with rand := rand2 } n i r = generateLoop s env n i r := by
  intro n
  induction n with
  | zero => intro i r; rfl
  | succ n ih =>
    intro i r
    rw [generateLoop_step, generateLoop_step, ih]

/-- A loop of `n` attempts looks at the first `n * codeLength` reads only. -/
theorem generateLoop_agree (s : ShortLinkService) (env : CreateEnv) :
    ∀ (n i : Nat) (r r2 : RandReader),
      (∀ k, k < n * s.encoder.codeLength.toNat → r2.draw k = r.draw k) →
      generateLoop s env n i r2 = generateLoop s env n i r := by
  intro n
  induction n with
  | zero => intro i r r2 _; rfl
  | succ n ih =>
    intro i r r2 h
    have hL : ∀ k, k < s.encoder.codeLength.toNat → r2.draw k = r.draw k := by
      intro k hk
      apply h
      rw [Nat.succ_mul]
      omega
    have hrest : generateLoop s env n (i + 1) (r2.advance s.encoder.codeLength.toNat) =
        generateLoop s env n (i + 1) (r.advance s.encoder.codeLength.toNat) := by
      apply ih
      intro k hk
      show r2.draw (k + s.encoder.codeLength.toNat) = r.draw (k + s.encoder.codeLength.toNat)
      apply h
      rw [Nat.succ_mul]
      omega
    rw [generateLoop_step, generateLoop_step, generateRandomCode_agree s.encoder r r2 hL, hrest]

/-- A loop whose every attempt draws a code that is reported as taken gives up. -/
theorem generateLoop_exhausted (s : ShortLinkService) (env : CreateEnv) :
    ∀ (n i : Nat),
      (∀ j, i ≤ j → j < i + n → ∃ code, attemptCode s env j = Except.ok code ∧
        (s.bloomFilter.Exists (env.genFilter j) code = Except.ok true ∨
          ((∃ err, s.bloomFilter.Exists (env.genFilter j) code = Except.error err) ∧
            s.repo.ShortCodeExists (env.genStoreFirst j) code = Except.ok true)) ∧
        s.repo.ShortCodeExists (env.genStoreSecond j) code = Except.ok true) →
      generateLoop s env n i (env.rand.advance (i * s.encoder.codeLength.toNat)) =
        Except.error (GoError.errorf "failed to generate unique short code after 10 retries") := by
  intro n
  induction n with
  | zero => intro i _; rfl
  | succ n ih =>
    intro i h
    obtain ⟨code, hcode, hfirst, hsecond⟩ := h i (Nat.le_refl i) (by omega)
    have hnext : generateLoop s env n (i + 1)
        ((env.rand.advance (i * s.encoder.codeLength.toNat)).advance s.encoder.codeLength.toNat) =
        Except.error (GoError.errorf "failed to generate unique short code after 10 retries") := by
      rw [advance_advance, ← Nat.succ_mul]
      exact ih (i + 1) (fun j h1 h2 => h j (by omega) (by omega))
    rw [generateLoop_step]
    unfold attemptCode at hcode
    rw [hcode]
    rcases hfirst with hf | ⟨⟨err, hf⟩, hs1⟩
    · simp only [hf, hsecond, hnext]
    · simp only [hf, hs1, hsecond, hnext]

/-- A code returned by the loop was drawn in one of its attempts and was reported as absent
in that attempt. -/
theorem generateLoop_returned (s : ShortLinkService) (env : CreateEnv) (code : String) :
    ∀ (n i : Nat),
      generateLoop s env n i (env.rand.advance (i * s.encoder.codeLength.toNat)) =
        Except.ok code →
      ∃ j, i ≤ j ∧ j < i + n ∧ attemptCode s env j = Except.ok code ∧
        (s.bloomFilter.Exists (env.genFilter j) code = Except.ok false ∨
          ((∃ err, s.bloomFilter.Exists (env.genFilter j) code = Except.error err) ∧
            s.repo.ShortCodeExists (env.genStoreFirst j) code = Except.ok false) ∨
          s.repo.ShortCodeExists (env.genStoreSecond j) code = Except.ok false) := by
  intro n
  induction n with
  | zero => intro i h; cases h
  | succ n ih =>
    intro i h
    rw [generateLoop_step] at h
    have hnext : ∀ (_ : generateLoop s env n (i + 1)
        ((env.rand.advance (i * s.encoder.codeLength.toNat)).advance s.encoder.codeLength.toNat) =
        Except.ok code), ∃ j, i ≤ j ∧ j < i + (n + 1) ∧ attemptCode s env j = Except.ok code ∧
        (s.bloomFilter.Exists (env.genFilter j) code = Except.ok false ∨
          ((∃ err, s.bloomFilter.Exists (env.genFilter j) code = Except.error err) ∧
            s.repo.ShortCodeExists (env.genStoreFirst j) code = Except.ok false) ∨
          s.repo.ShortCodeExists (env.genStoreSecond j) code = Except.ok false) := by
      intro h2
      rw [advance_advance, ← Nat.succ_mul] at h2
      obtain ⟨j, h1, h3, h4⟩ := ih (i + 1) h2
      exact ⟨j, by omega, by omega, h4⟩
    cases hg : (GenerateRandomCode s.encoder
        (env.rand.advance (i * s.encoder.codeLength.toNat))).1 with
    | error err => rw [hg] at h; cases h
    | ok shortCode =>
      rw [hg] at h
      simp only at h
      have here : ∀ (_ : shortCode = code) (_ : s.bloomFilter.Exists (env.genFilter i) shortCode =
            Except.ok false ∨
          ((∃ err, s.bloomFilter.Exists (env.genFilter i) shortCode = Except.error err) ∧
            s.repo.ShortCodeExists (env.genStoreFirst i) shortCode = Except.ok false) ∨
          s.repo.ShortCodeExists (env.genStoreSecond i) shortCode = Except.ok false),
          ∃ j, i ≤ j ∧ j < i + (n + 1) ∧ attemptCode s env j = Except.ok code ∧
        (s.bloomFilter.Exists (env.genFilter j) code = Except.ok false ∨
          ((∃ err, s.bloomFilter.Exists (env.genFilter j) code = Except.error err) ∧
            s.repo.ShortCodeExists (env.genStoreFirst j) code = Except.ok false) ∨
          s.repo.ShortCodeExists (env.genStoreSecond j) code = Except.ok false) := by
        intro hc hd
        subst hc
        exact ⟨i, Nat.le_refl i, by omega, hg, hd⟩
      cases hf : s.bloomFilter.Exists (env.genFilter i) shortCode with
      | error err =>
        rw [hf] at h
        simp only at h
        cases h1 : s.repo.ShortCodeExists (env.genStoreFirst i) shortCode with
        | error e2 => rw [h1] at h; cases h
        | ok b =>
          rw [h1] at h
          cases b with
          | false =>
            simp only [Except.ok.injEq] at h
            exact here h (Or.inr (Or.inl ⟨⟨err, hf⟩, h1⟩))
          | true =>
            simp only at h
            cases h2 : s.repo.ShortCodeExists (env.genStoreSecond i) shortCode with
            | error e3 => rw [h2] at h; cases h
            | ok b2 =>
              rw [h2] at h
              cases b2 with
              | false =>
                simp only [Except.ok.injEq] at h
                exact here h (Or.inr (Or.inr h2))
              | true => exact hnext h
      | ok b =>
        rw [hf] at h
        cases b with
        | false =>
          simp only [Except.ok.injEq] at h
          exact here h (Or.inl hf)
        | true =>
          simp only at h
          cases h2 : s.repo.ShortCodeExists (env.genStoreSecond i) shortCode with
          | error e3 => rw [h2] at h; cases h
          | ok b2 =>
            rw [h2] at h
            cases b2 with
            | false =>
              simp only [Except.ok.injEq] at h
              exact here h (Or.inr (Or.inr h2))
            | true => exact hnext h

/-- C16: `generateUniqueShortCode` makes at most 10 attempts: its result depends on the first
`10 * codeLength` reads of the random source only (10 codes of `codeLength` characters).
When in each of the 10 attempts a code is drawn that the filter does not report as absent
(it answers "present", or its call fails and the Store lookup that replaces it answers
"exists") and the confirming Store lookup answers "exists", the result is the error
"failed to generate unique short code after 10 retries", which is neither `ErrInvalidURL`
nor `ErrShortCodeExists`; `CreateShortLink` of a valid URL without custom code then returns
it wrapped, leaves the service as it was, and the handler answers 500.  Whenever a code is
returned, it is the code drawn in some attempt `i < 10`, and in that attempt the filter
reported it absent, or the Store did (in the lookup after a failed filter call or in the
confirming lookup). -/
theorem generateUniqueShortCode_bounded (s : ShortLinkService) (env : CreateEnv) :
    (∀ rand2 : RandReader,
        (∀ k, k < 10 * s.encoder.codeLength.toNat → rand2.draw k = env.rand.draw k) →
        s.generateUniqueShortCode { env with rand := rand2 } = s.generateUniqueShortCode env) ∧
    ((∀ i, i < 10 → ∃ code, attemptCode s env i = Except.ok code ∧
          (s.bloomFilter.Exists (env.genFilter i) code = Except.ok true ∨
            ((∃ err, s.bloomFilter.Exists (env.genFilter i) code = Except.error err) ∧
              s.repo.ShortCodeExists (env.genStoreFirst i) code = Except.ok true)) ∧
          s.repo.ShortCodeExists (env.genStoreSecond i) code = Except.ok true) →
      s.generateUniqueShortCode env =
          Except.error (GoError.errorf "failed to generate unique short code after 10 retries") ∧
        errorsIs (GoError.errorf "failed to generate unique short code after 10 retries")
          Sentinel.ErrInvalidURL = false ∧
        errorsIs (GoError.errorf "failed to generate unique short code after 10 retries")
          Sentinel.ErrShortCodeExists = false ∧
        ∀ req : CreateShortLinkRequest, IsValidURL req.URL = true → req.CustomCode = "" →
          s.CreateShortLink env req =
              (Except.error (GoError.wrapf "failed to generate short code"
                (GoError.errorf "failed to generate unique short code after 10 retries")), s) ∧
            Handler.CreateShortLink s env (Except.ok req) = (StatusInternalServerError, s)) ∧
    (∀ code, s.generateUniqueShortCode env = Except.ok code →
      ∃ i, i < 10 ∧ attemptCode s env i = Except.ok code ∧
        (s.bloomFilter.Exists (env.genFilter i) code = Except.ok false ∨
          ((∃ err, s.bloomFilter.Exists (env.genFilter i) code = Except.error err) ∧
            s.repo.ShortCodeExists (env.genStoreFirst i) code = Except.ok false) ∨
          s.repo.ShortCodeExists (env.genStoreSecond i) code = Except.ok false)) := by
  refine ⟨?_, ?_, ?_⟩
  · intro rand2 h
    unfold ShortLinkService.generateUniqueShortCode
    rw [generateLoop_rand]
    exact generateLoop_agree s env 10 0 env.rand rand2 h
  · intro h
    have hgen : s.generateUniqueShortCode env =
        Except.error (GoError.errorf "failed to generate unique short code after 10 retries") := by
      have := generateLoop_exhausted s env 10 0 (fun j _ hj => h j (by omega))
      rw [Nat.zero_mul] at this
      exact this
    refine ⟨hgen, rfl, rfl, ?_⟩
    intro req hurl hnone
    have hcreate : s.CreateShortLink env req =
        (Except.error (GoError.wrapf "failed to generate short code"
          (GoError.errorf "failed to generate unique short code after 10 retries")), s) := by
      unfold ShortLinkService.CreateShortLink
      simp only [hurl, hnone, hgen, Bool.not_true, Bool.false_eq_true, if_false, ne_eq,
        not_true_eq_false]
    refine ⟨hcreate, ?_⟩
    unfold Handler.CreateShortLink
    simp only [hcreate]
    rfl
  · intro code h
    have h0 : generateLoop s env 10 0 (env.rand.advance (0 * s.encoder.codeLength.toNat)) =
        Except.ok code := by
      rw [Nat.zero_mul]
      exact h
    obtain ⟨j, _, hj, hrest⟩ := generateLoop_returned s env code 10 0 h0
    exact ⟨j, by omega, hrest⟩

/-- C16 at concrete inputs: over a Store that holds "000000" with a random source that draws
"000000" in every attempt the loop gives up and the handler answers 500; over the empty
service the first code drawn, "012345", is returned because the filter reports it absent. -/
theorem generateUniqueShortCode_bounded_witness :
    (((initialService 3600 "http://localhost:8080").run
        [Op.create (calmCreate 0)
          { URL := "http://example.com", CustomCode := "000000", ExpiresAt := none }]
        ).generateUniqueShortCode { calmCreate 1 with rand := zeroReader } =
      Except.error (GoError.errorf "failed to generate unique short code after 10 retries") ∧
    (Handler.CreateShortLink ((initialService 3600 "http://localhost:8080").run
        [Op.create (calmCreate 0)
          { URL := "http://example.com", CustomCode := "000000", ExpiresAt := none }])
        { calmCreate 1 with rand := zeroReader }
        (Except.ok { URL := "http://example.org", CustomCode := "", ExpiresAt := none })).1 =
      500) ∧
    ((initialService 3600 "http://localhost:8080").generateUniqueShortCode (calmCreate 0) =
        Except.ok "012345" ∧
      (initialService 3600 "http://localhost:8080").bloomFilter.Exists
        ((calmCreate 0).genFilter 0) "012345" = Except.ok false) := by
  have hf : ((initialService 3600 "http://localhost:8080").run
        [Op.create (calmCreate 0)
          { URL := "http://example.com", CustomCode := "000000", ExpiresAt := none }]
        ).bloomFilter.Exists FilterReply.honest "000000" = Except.ok true := by decide
  have hs : ((initialService 3600 "http://localhost:8080").run
        [Op.create (calmCreate 0)
          { URL := "http://example.com", CustomCode := "000000", ExpiresAt := none }]
        ).repo.ShortCodeExists none "000000" = Except.ok true := by decide
  have h := (generateUniqueShortCode_bounded
    ((initialService 3600 "http://localhost:8080").run
        [Op.create (calmCreate 0)
          { URL := "http://example.com", CustomCode := "000000", ExpiresAt := none }])
    { calmCreate 1 with rand := zeroReader }).2.1
    (fun i _ => ⟨"000000", by rfl, Or.inl hf, hs⟩)
  refine ⟨⟨h.1, ?_⟩, by decide, by decide⟩
  rw [(h.2.2.2 { URL := "http://example.org", CustomCode := "", ExpiresAt := none }
    (by decide) rfl).2]
  rfl

/-! ## The shape of a parsed `http://` or `https://` URL -/

theorem escapeBytes_path_slash (t : List Char) :
    escapeBytes encoding.encodePath ('/' :: t) = '/' :: escapeBytes encoding.encodePath t := by
  have h : shouldEscape '/' encoding.encodePath = false := by decide
  simp only [escapeBytes, h, Bool.false_eq_true, if_false]

theorem escapeBytes_path_append_slash (l : List Char) :
    escapeBytes encoding.encodePath (l ++ ['/']) =
      escapeBytes encoding.encodePath l ++ ['/'] := by
  induction l with
  | nil => exact escapeBytes_path_slash []
  | cons c l ih =>
    show escapeBytes encoding.encodePath (c :: (l ++ ['/'])) =
      escapeBytes encoding.encodePath (c :: l) ++ ['/']
    simp only [escapeBytes, ih]
    split_ifs <;> rfl

theorem unescapeBytes_path_slash (t : List Char) :
    unescapeBytes encoding.encodePath ('/' :: t) =
      '/' :: unescapeBytes encoding.encodePath t := by
  conv_lhs => unfold unescapeBytes
  rw [if_neg (by decide), if_neg (by decide)]

/-- A list that ends with `/` is its front followed by `/`. -/
theorem hasSuffix_slash (s : String) (h : HasSuffix s "/" = true) :
    s.data = s.data.take (s.data.length - 1) ++ ['/'] := by
  unfold HasSuffix at h
  obtain ⟨t, ht⟩ := hasPrefixList_append _ _ h
  have hs : s.data = t.reverse ++ ['/'] := by
    have := congrArg List.reverse ht
    simpa using this
  rw [hs]
  simp

theorem trimSuffix_slash (s : String) (h : HasSuffix s "/" = true) :
    TrimSuffix s "/" = String.mk (s.data.take (s.data.length - 1)) := by
  unfold TrimSuffix
  rw [if_pos h]
  rfl

/-- What `setPath` writes: the decoded path, and the given text as `RawPath` unless it is the
default encoding of the path. -/
theorem setPath_fields (u v : URL) (p : String) (h : setPath u p = Except.ok v) :
    v.Scheme = u.Scheme ∧ v.Opaque = u.Opaque ∧ v.Host = u.Host ∧ v.User = u.User ∧
      v.RawQuery = u.RawQuery ∧ v.ForceQuery = u.ForceQuery ∧
      v.Path = String.mk (unescapeBytes encoding.encodePath p.data) ∧
      (v.RawPath = "" ∨ (v.RawPath = p ∧ unescape p encoding.encodePath = Except.ok v.Path)) := by
  unfold setPath at h
  cases hu : unescape p encoding.encodePath with
  | error err => rw [hu] at h; cases h
  | ok path =>
    rw [hu] at h
    simp only at h
    injection h with h
    have hpath : path = String.mk (unescapeBytes encoding.encodePath p.data) := by
      unfold unescape at hu
      split at hu
      · cases hu
      · injection hu with hu
        exact hu.symm
    subst h
    refine ⟨rfl, rfl, rfl, rfl, rfl, rfl, hpath, ?_⟩
    by_cases hc : p = escape path encoding.encodePath
    · left
      simp only [if_pos hc]
    · right
      simp only [if_neg hc]
      exact ⟨trivial, trivial⟩

/-- Where `strings.Index(s, "/")` points, there is a `/`. -/
theorem indexSubFrom_slash :
    ∀ (l : List Char) (k : Int), 0 ≤ k → 0 ≤ indexSubFrom ['/'] l k →
      k ≤ indexSubFrom ['/'] l k ∧
        ∃ t, l.drop (indexSubFrom ['/'] l k - k).toNat = '/' :: t := by
  intro l
  induction l with
  | nil =>
    intro k _ h
    simp [indexSubFrom] at h
  | cons c l ih =>
    intro k hk h
    by_cases hc : c = '/'
    · subst hc
      have : indexSubFrom ['/'] ('/' :: l) k = k := by simp [indexSubFrom, hasPrefixList]
      rw [this]
      exact ⟨le_refl k, l, by simp⟩
    · have hstep : indexSubFrom ['/'] (c :: l) k = indexSubFrom ['/'] l (k + 1) := by
        simp [indexSubFrom, hasPrefixList, hc]
      rw [hstep] at h ⊢
      obtain ⟨h1, t, ht⟩ := ih (k + 1) (by omega) h
      refine ⟨by omega, t, ?_⟩
      have hn : (indexSubFrom ['/'] l (k + 1) - k).toNat =
          (indexSubFrom ['/'] l (k + 1) - (k + 1)).toNat + 1 := by omega
      rw [hn, List.drop_succ_cons]
      exact ht

/-- The path text that `parseAuthorityAndPath` hands to `setPath` after an authority is empty
or starts with `/`. -/
theorem path_after_authority (authority : String) :
    (if Index authority "/" ≥ 0 then sliceFrom authority (Index authority "/") else "") = "" ∨
      ∃ t, (if Index authority "/" ≥ 0 then sliceFrom authority (Index authority "/") else "") =
        String.mk ('/' :: t) := by
  by_cases h : Index authority "/" ≥ 0
  · right
    rw [if_pos h]
    unfold Index at h ⊢
    obtain ⟨_, t, ht⟩ := indexSubFrom_slash authority.data 0 (le_refl 0) h
    refine ⟨t, ?_⟩
    unfold sliceFrom
    rw [← ht]
    simp
  · left
    rw [if_neg h]

/-- The fields of a URL with a scheme after `parseAuthorityAndPath` has read a text that
starts with `//`. -/
theorem parseAuthorityAndPath_fields (u v : URL) (rest : String) (hs : u.Scheme ≠ "")
    (hpre : HasPrefix rest "//" = true)
    (h : parseAuthorityAndPath false u rest = Except.ok v) :
    v.Scheme = u.Scheme ∧ v.Opaque = u.Opaque ∧ v.RawQuery = u.RawQuery ∧
      v.ForceQuery = u.ForceQuery ∧ v.Fragment = u.Fragment ∧ v.RawFragment = u.RawFragment ∧
      (v.Path = "" ∨ ∃ t, v.Path = String.mk ('/' :: t)) ∧
      (v.RawPath = "" ∨ unescape v.RawPath encoding.encodePath = Except.ok v.Path) := by
  unfold parseAuthorityAndPath at h
  rw [if_pos ⟨Or.inl hs, hpre⟩] at h
  simp only at h
  split at h
  · cases h
  · rename_i user host _
    obtain ⟨h1, h2, _, _, h5, h6, h7, h8⟩ := setPath_fields _ v _ h
    refine ⟨h1, h2, h5, h6, ?_, ?_, ?_, ?_⟩
    · unfold setPath at h
      split at h
      · cases h
      · injection h with h
        rw [← h]
    · unfold setPath at h
      split at h
      · cases h
      · injection h with h
        rw [← h]
    · rw [h7]
      rcases path_after_authority (sliceFrom rest 2) with hp | ⟨t, hp⟩
      · left
        rw [hp]
        rfl
      · right
        rw [hp]
        exact ⟨unescapeBytes encoding.encodePath t, by
          show String.mk (unescapeBytes encoding.encodePath ('/' :: t)) = _
          rw [unescapeBytes_path_slash]⟩
    · rcases h8 with h8 | ⟨h8, h9⟩
      · exact Or.inl h8
      · right
        rw [h8]
        exact h9

theorem getScheme_http_rest (tail : List Char) :
    getScheme (String.mk ('h' :: 't' :: 't' :: 'p' :: ':' :: tail)) =
        Except.ok ("http", String.mk tail) ∧
      getScheme (String.mk ('h' :: 't' :: 't' :: 'p' :: 's' :: ':' :: tail)) =
        Except.ok ("https", String.mk tail) := by
  constructor
  · simp [getScheme, getSchemeLoop, isLetter, isDigit, sliceTo, sliceFrom]
  · simp [getScheme, getSchemeLoop, isLetter, isDigit, sliceTo, sliceFrom]

/-- The text that `parse` hands to `parseAuthorityAndPath` still starts with `//` when the
text after the scheme does. -/
theorem rest_starts (t : List Char) (forced : Bool)
    (hf : forced = true → HasSuffix (String.mk ('/' :: '/' :: t)) "?" = true) :
    HasPrefix (if forced = true
        then sliceTo (String.mk ('/' :: '/' :: t)) (len (String.mk ('/' :: '/' :: t)) - 1)
        else (Cut (String.mk ('/' :: '/' :: t)) '?').1) "//" = true := by
  cases forced with
  | false =>
    simp [Cut, cutList, HasPrefix, hasPrefixList]
  | true =>
    have hs := hf rfl
    cases t with
    | nil => exact absurd hs (by decide)
    | cons c t =>
      simp [sliceTo, len, HasPrefix, hasPrefixList]

/-- The fields of the URL that `parse` makes of a text with a scheme followed by `//`. -/
theorem parse_fields (s scheme : String) (t : List Char) (u : URL)
    (hg : getScheme s = Except.ok (scheme, String.mk ('/' :: '/' :: t)))
    (hlow : ToLower scheme ≠ "")
    (h : parse s false = Except.ok u) :
    u.Opaque = "" ∧ u.Scheme ≠ "" ∧ u.Fragment = "" ∧
      (u.Path = "" ∨ ∃ p, u.Path = String.mk ('/' :: p)) ∧
      (u.RawPath = "" ∨ unescape u.RawPath encoding.encodePath = Except.ok u.Path) := by
  unfold parse at h
  rw [hg] at h
  simp only at h
  have hpre := rest_starts t
    (HasSuffix (String.mk ('/' :: '/' :: t)) "?" &&
      decide (CountByte (String.mk ('/' :: '/' :: t)) '?' = 1))
    (fun hf => by
      simp only [Bool.and_eq_true] at hf
      exact hf.1)
  have hstar : s ≠ "*" := by
    intro hs
    rw [hs] at hg
    have hstar2 : getScheme "*" = Except.ok ("", "*") := by decide
    rw [hstar2] at hg
    injection hg with hg
    injection hg with _ hg
    exact absurd (congrArg String.data hg) (by simp)
  have hone : HasPrefix (if (HasSuffix (String.mk ('/' :: '/' :: t)) "?" &&
        decide (CountByte (String.mk ('/' :: '/' :: t)) '?' = 1)) = true
      then sliceTo (String.mk ('/' :: '/' :: t)) (len (String.mk ('/' :: '/' :: t)) - 1)
      else (Cut (String.mk ('/' :: '/' :: t)) '?').1) "/" = true := by
    obtain ⟨r, hr⟩ := hasPrefixList_append _ _ hpre
    unfold HasPrefix
    rw [hr]
    rfl
  generalize hF : (HasSuffix (String.mk ('/' :: '/' :: t)) "?" &&
        decide (CountByte (String.mk ('/' :: '/' :: t)) '?' = 1)) = forced at h hpre hone
  generalize hR : (if forced = true
      then sliceTo (String.mk ('/' :: '/' :: t)) (len (String.mk ('/' :: '/' :: t)) - 1)
      else (Cut (String.mk ('/' :: '/' :: t)) '?').1) = rest at h hpre hone
  by_cases c1 : stringContainsCTLByte s = true
  · rw [if_pos c1] at h
    cases h
  · rw [if_neg c1, if_neg (by simp), if_neg hstar, if_neg (by rw [hone]; decide)] at h
    obtain ⟨f1, f2, _, _, f5, _, f7, f8⟩ := parseAuthorityAndPath_fields _ u _ hlow hpre h
    exact ⟨f2.trans rfl, by rw [f1]; exact hlow, f5.trans rfl, f7, f8⟩

theorem setFragment_fields (u v : URL) (f : String) (h : setFragment u f = Except.ok v) :
    v.Opaque = u.Opaque ∧ v.Scheme = u.Scheme ∧ v.Path = u.Path ∧ v.RawPath = u.RawPath := by
  unfold setFragment at h
  split at h
  · cases h
  · injection h with h
    rw [← h]
    exact ⟨rfl, rfl, rfl, rfl⟩

/-- A text that starts with `http://` or `https://` parses, if at all, into a URL without
opaque part, with a scheme, with a path that is empty or starts with `/`, and with a
`RawPath` that is empty or decodes to the path. -/
theorem Parse_fields_of_prefixed (s : String) (u : URL)
    (hpre : HasPrefix s "http://" = true ∨ HasPrefix s "https://" = true)
    (h : Parse s = Except.ok u) :
    u.Opaque = "" ∧ u.Scheme ≠ "" ∧
      (u.Path = "" ∨ ∃ p, u.Path = String.mk ('/' :: p)) ∧
      (u.RawPath = "" ∨ unescape u.RawPath encoding.encodePath = Except.ok u.Path) := by
  have hinner : ∀ v, parse (Cut s '#').1 false = Except.ok v →
      v.Opaque = "" ∧ v.Scheme ≠ "" ∧
      (v.Path = "" ∨ ∃ p, v.Path = String.mk ('/' :: p)) ∧
      (v.RawPath = "" ∨ unescape v.RawPath encoding.encodePath = Except.ok v.Path) := by
    intro v hv
    rcases hpre with hpre | hpre
    · obtain ⟨t, ht⟩ := hasPrefixList_append _ _ hpre
      have hcut : (Cut s '#').1 = String.mk
          ('h' :: 't' :: 't' :: 'p' :: ':' :: '/' :: '/' :: (cutList '#' t).1) := by
        unfold Cut
        rw [ht]
        simp [cutList]
      rw [hcut] at hv
      obtain ⟨a, b, _, c, d⟩ := parse_fields _ "http" _ v (getScheme_http_rest _).1
        (by decide) hv
      exact ⟨a, b, c, d⟩
    · obtain ⟨t, ht⟩ := hasPrefixList_append _ _ hpre
      have hcut : (Cut s '#').1 = String.mk
          ('h' :: 't' :: 't' :: 'p' :: 's' :: ':' :: '/' :: '/' :: (cutList '#' t).1) := by
        unfold Cut
        rw [ht]
        simp [cutList]
      rw [hcut] at hv
      obtain ⟨a, b, _, c, d⟩ := parse_fields _ "https" _ v (getScheme_http_rest _).2
        (by decide) hv
      exact ⟨a, b, c, d⟩
  unfold Parse at h
  cases hp : parse (Cut s '#').1 false with
  | error err => rw [hp] at h; cases h
  | ok v =>
    rw [hp] at h
    simp only at h
    split_ifs at h
    · injection h with h
      rw [← h]
      exact hinner v hp
    · cases hf : setFragment v (Cut s '#').2.1 with
      | error err => rw [hf] at h; cases h
      | ok w =>
        rw [hf] at h
        injection h with h
        obtain ⟨a, b, c, d⟩ := setFragment_fields v w _ hf
        rw [← h, a, b, c, d]
        exact hinner v hp

/-! ## `NormalizeURL` and the trailing slash -/

theorem string_append_data_ne (a b : String) (c : Char) (t : List Char)
    (h : b.data = c :: t) : a ++ b ≠ "" := by
  intro he
  have := congrArg String.data he
  rw [String.data_append, h] at this
  simp at this

/-- The text written by `URL.String` for a URL with a scheme, without opaque part, and with
an escaped path that is empty or starts with `/`. -/
theorem string_of_fields (u : URL) (hop : u.Opaque = "") (hs : u.Scheme ≠ "")
    (hpath : EscapedPath u = "" ∨ ∃ t, EscapedPath u = String.mk ('/' :: t)) :
    URL.String u = u.Scheme ++ ":" ++ authorityString u ++ EscapedPath u ++
      ((if u.ForceQuery = true ∨ u.RawQuery ≠ "" then "?" ++ u.RawQuery else "") ++
        (if u.Fragment ≠ "" then "#" ++ EscapedFragment u else "")) := by
  have h1 : ¬ (EscapedPath u ≠ "" ∧ charAt (EscapedPath u) 0 ≠ '/' ∧ u.Host ≠ "") := by
    rintro ⟨a, b, _⟩
    rcases hpath with hp | ⟨t, hp⟩
    · exact a hp
    · apply b
      rw [hp]
      rfl
  have h2 : ¬ (u.Scheme ++ ":" ++ authorityString u = "" ∧
      Contains (Cut (EscapedPath u) '/').1 ":" = true) := by
    rintro ⟨a, _⟩
    have hd := congrArg String.data a
    simp [String.data_append] at hd
  unfold URL.String
  simp only [hop, hs, ne_eq, not_true_eq_false, not_false_eq_true, if_true, if_false, h1, h2]
  by_cases hq : u.ForceQuery = true ∨ ¬ u.RawQuery = ""
  · by_cases hf : u.Fragment = ""
    · simp only [hq, hf, if_true, not_true_eq_false, if_false, String.append_assoc,
        String.append_empty]
    · simp only [hq, hf, if_true, not_false_eq_true, String.append_assoc]
  · by_cases hf : u.Fragment = ""
    · simp only [hq, hf, if_true, not_true_eq_false, if_false, String.append_assoc,
        String.append_empty]
    · simp only [hq, hf, if_true, if_false, not_false_eq_true, String.append_assoc,
        String.empty_append]

/-- After the path is shortened the stale `RawPath` no longer decodes to it, so the path is
written in its default encoding. -/
theorem escapedPath_trimmed (u : URL) (p : String) (t : List Char)
    (hraw : u.RawPath = "" ∨ unescape u.RawPath encoding.encodePath = Except.ok u.Path)
    (hne : u.Path ≠ p) (hp : p = String.mk ('/' :: t)) :
    EscapedPath { u with Path := p } = escape p encoding.encodePath := by
  unfold EscapedPath
  have h1 : ¬ (u.RawPath ≠ "" ∧ validEncoded u.RawPath encoding.encodePath = true ∧
      unescape u.RawPath encoding.encodePath = Except.ok p) := by
    rintro ⟨a, _, c⟩
    rcases hraw with hr | hr
    · exact a hr
    · rw [hr] at c
      injection c with c
      exact hne c
  have h2 : ¬ (p = "*") := by
    rw [hp]
    intro h
    exact absurd (congrArg String.data h) (by simp)
  simp only [h1, h2, if_false]

theorem authorityString_path (u : URL) (p : String) (h1 : u.Path ≠ "") (h2 : p ≠ "") :
    authorityString { u with Path := p } = authorityString u := by
  unfold authorityString
  simp only [h1, h2, ne_eq, not_false_eq_true, or_true, true_or, if_true]

/-- The text that `IsValidURL` and `NormalizeURL` parse starts with `http://` or
`https://`. -/
theorem prefixed_starts (rawURL : String) :
    HasPrefix (if (!HasPrefix rawURL "http://" && !HasPrefix rawURL "https://") = true
      then "http://" ++ rawURL else rawURL) "http://" = true ∨
    HasPrefix (if (!HasPrefix rawURL "http://" && !HasPrefix rawURL "https://") = true
      then "http://" ++ rawURL else rawURL) "https://" = true := by
  by_cases hc : (!HasPrefix rawURL "http://" && !HasPrefix rawURL "https://") = true
  · rw [if_pos hc]
    left
    unfold HasPrefix
    rw [String.data_append]
    simp [hasPrefixList]
  · rw [if_neg hc]
    cases h1 : HasPrefix rawURL "http://" with
    | true => exact Or.inl rfl
    | false =>
      cases h2 : HasPrefix rawURL "https://" with
      | true => exact Or.inr rfl
      | false => rw [h1, h2] at hc; exact absurd rfl hc

/-- Go `NormalizeURL` on a non-empty text whose prefixed form parses. -/
theorem normalizeURL_of_parse (rawURL : String) (u : URL) (hne : rawURL ≠ "")
    (hparse : Parse (if (!HasPrefix rawURL "http://" && !HasPrefix rawURL "https://") = true
      then "http://" ++ rawURL else rawURL) = Except.ok u) :
    NormalizeURL rawURL =
      if len u.Path > 1 ∧ HasSuffix u.Path "/" = true then
        URL.String { u with Path := TrimSuffix u.Path "/" }
      else URL.String u := by
  unfold NormalizeURL
  rw [if_neg hne]
  simp only
  rw [hparse]

theorem prefixed_self (rawURL : String)
    (hpre : HasPrefix rawURL "http://" = true ∨ HasPrefix rawURL "https://" = true) :
    rawURL ≠ "" ∧
      (if (!HasPrefix rawURL "http://" && !HasPrefix rawURL "https://") = true
        then "http://" ++ rawURL else rawURL) = rawURL := by
  constructor
  · intro h
    rw [h] at hpre
    rcases hpre with h1 | h1 <;> exact absurd h1 (by decide)
  · rcases hpre with h1 | h1 <;> simp [h1]

/-- What `NormalizeURL` does to a parsed URL with scheme and `//` whose path is longer than
one byte and ends with `/`. -/
theorem normalize_trim (u : URL) (hop : u.Opaque = "") (hs : u.Scheme ≠ "")
    (hshape : u.Path = "" ∨ ∃ p, u.Path = String.mk ('/' :: p))
    (hraw : u.RawPath = "" ∨ unescape u.RawPath encoding.encodePath = Except.ok u.Path)
    (hlen : len u.Path > 1) (hsuf : HasSuffix u.Path "/" = true) :
    u.Path = TrimSuffix u.Path "/" ++ "/" ∧ TrimSuffix u.Path "/" ≠ "" ∧
      URL.String { u with Path := TrimSuffix u.Path "/" } =
        u.Scheme ++ ":" ++ authorityString u ++
          escape (TrimSuffix u.Path "/") encoding.encodePath ++
          ((if u.ForceQuery = true ∨ u.RawQuery ≠ "" then "?" ++ u.RawQuery else "") ++
            (if u.Fragment ≠ "" then "#" ++ EscapedFragment u else "")) ∧
      (u.RawPath = "" →
        URL.String u =
          u.Scheme ++ ":" ++ authorityString u ++
            (escape (TrimSuffix u.Path "/") encoding.encodePath ++ "/") ++
            ((if u.ForceQuery = true ∨ u.RawQuery ≠ "" then "?" ++ u.RawQuery else "") ++
              (if u.Fragment ≠ "" then "#" ++ EscapedFragment u else ""))) := by
  have hdata := hasSuffix_slash u.Path hsuf
  have htrim := trimSuffix_slash u.Path hsuf
  have hlen2 : 2 ≤ u.Path.data.length := by
    unfold len at hlen
    omega
  have hpath : u.Path = TrimSuffix u.Path "/" ++ "/" := by
    rw [htrim]
    apply String.ext
    rw [String.data_append]
    exact hdata
  have hpne : u.Path ≠ "" := by
    intro h
    rw [h] at hlen2
    simp at hlen2
  obtain ⟨q, hq⟩ : ∃ q, TrimSuffix u.Path "/" = String.mk ('/' :: q) := by
    rcases hshape with h | ⟨p, hp⟩
    · exact absurd h hpne
    · rw [htrim]
      have hd : u.Path.data = '/' :: p := by rw [hp]
      rw [hd] at hlen2 ⊢
      simp only [List.length_cons] at hlen2 ⊢
      refine ⟨p.take (p.length - 1), ?_⟩
      have : p.length + 1 - 1 = (p.length - 1) + 1 := by omega
      rw [this, List.take_succ_cons]
  have htne : TrimSuffix u.Path "/" ≠ "" := by
    rw [hq]
    intro h
    exact absurd (congrArg String.data h) (by simp)
  have hdiff : u.Path ≠ TrimSuffix u.Path "/" := by
    intro h
    have h2 := congrArg (fun s => s.data.length) h
    rw [htrim] at h2
    simp only [List.length_take] at h2
    omega
  have hesc := escapedPath_trimmed u (TrimSuffix u.Path "/") q hraw hdiff hq
  refine ⟨hpath, htne, ?_, ?_⟩
  · have h := string_of_fields { u with Path := TrimSuffix u.Path "/" } hop hs
      (Or.inr ⟨escapeBytes encoding.encodePath q, by
        rw [hesc, hq]
        unfold escape
        rw [escapeBytes_path_slash]⟩)
    rw [h, hesc, authorityString_path u _ hpne htne]
    rfl
  · intro hr
    have hE : EscapedPath u = escape (TrimSuffix u.Path "/") encoding.encodePath ++ "/" := by
      have hstar : ¬ u.Path = "*" := by
        intro h
        rw [h] at hlen2
        simp at hlen2
      unfold EscapedPath
      simp only [hr, ne_eq, not_true_eq_false, false_and, if_false, hstar]
      apply String.ext
      unfold escape
      rw [String.data_append]
      show escapeBytes encoding.encodePath u.Path.data = _
      conv_lhs => rw [hdata, escapeBytes_path_append_slash]
      rw [htrim]
    have h := string_of_fields u hop hs (Or.inr ⟨escapeBytes encoding.encodePath q ++ ['/'], by
      rw [hE, hq]
      unfold escape
      apply String.ext
      rw [String.data_append, escapeBytes_path_slash]
      rfl⟩)
    rw [h, hE]

/-- The trailing-slash rule of `NormalizeURL` in terms of the parsed URL: let `u` be the URL
that `NormalizeURL` parses from a non-empty text (the text itself when it starts with
`http://` or `https://`, as for every http/https URL; otherwise the text with `http://` in
front).  If the decoded path of `u` is longer than one byte and ends with `/`, the
result is the text of the URL that differs from `u` only in its path, which is the path of
`u` with exactly one trailing `/` removed; scheme, authority, query and fragment are written
as for `u`, and the shortened path is written in its default encoding.  When `u` carries no
separate `RawPath`, the text of `u` itself is the same text with the `/` after the path.  If
the path of `u` is empty or exactly `/`, the result is the text of `u`, path unchanged. -/
theorem normalizeURL_trailing_slash (rawURL : String) (u : URL) (hne : rawURL ≠ "")
    (hparse : Parse (if (!HasPrefix rawURL "http://" && !HasPrefix rawURL "https://") = true
      then "http://" ++ rawURL else rawURL) = Except.ok u) :
    (HasPrefix rawURL "http://" = true ∨ HasPrefix rawURL "https://" = true →
      Parse rawURL = Except.ok u) ∧
    (len u.Path > 1 → HasSuffix u.Path "/" = true →
      ∃ p, u.Path = p ++ "/" ∧ p ≠ "" ∧
        NormalizeURL rawURL = URL.String { u with Path := p } ∧
        NormalizeURL rawURL =
          u.Scheme ++ ":" ++ authorityString u ++ escape p encoding.encodePath ++
            ((if u.ForceQuery = true ∨ u.RawQuery ≠ "" then "?" ++ u.RawQuery else "") ++
              (if u.Fragment ≠ "" then "#" ++ EscapedFragment u else "")) ∧
        (u.RawPath = "" →
          URL.String u =
            u.Scheme ++ ":" ++ authorityString u ++ (escape p encoding.encodePath ++ "/") ++
              ((if u.ForceQuery = true ∨ u.RawQuery ≠ "" then "?" ++ u.RawQuery else "") ++
                (if u.Fragment ≠ "" then "#" ++ EscapedFragment u else "")))) ∧
    ((u.Path = "" ∨ u.Path = "/") → NormalizeURL rawURL = URL.String u) := by
  have hnorm := normalizeURL_of_parse rawURL u hne hparse
  obtain ⟨hop, hs, hshape, hraw⟩ := Parse_fields_of_prefixed _ u (prefixed_starts rawURL) hparse
  refine ⟨?_, ?_, ?_⟩
  · intro hpre
    rw [(prefixed_self rawURL hpre).2] at hparse
    exact hparse
  · intro hlen hsuf
    obtain ⟨h1, h2, h3, h4⟩ := normalize_trim u hop hs hshape hraw hlen hsuf
    rw [if_pos ⟨hlen, hsuf⟩] at hnorm
    exact ⟨TrimSuffix u.Path "/", h1, h2, hnorm, hnorm.trans h3, h4⟩
  · intro hp
    have hc : ¬ (len u.Path > 1 ∧ HasSuffix u.Path "/" = true) := by
      rintro ⟨hlen, _⟩
      rcases hp with hp | hp <;> rw [hp] at hlen <;> exact absurd hlen (by decide)
    rw [if_neg hc] at hnorm
    exact hnorm

/-- The trailing-slash rule at concrete inputs: "https://example.com/a/b/?q=1" parses with
path "/a/b/" and is normalized to "https://example.com/a/b?q=1"; "http://example.com/" and
"http://example.com" are left as they are. -/
theorem normalizeURL_trailing_slash_witness :
    (Parse "https://example.com/a/b/?q=1" =
        Except.ok { emptyURL with Scheme := "https", Host := "example.com", Path := "/a/b/",
                                  RawQuery := "q=1" } ∧
      NormalizeURL "https://example.com/a/b/?q=1" =
        "https" ++ ":" ++ "//example.com" ++ escape "/a/b" encoding.encodePath ++
          ("?q=1" ++ "") ∧
      NormalizeURL "https://example.com/a/b/?q=1" = "https://example.com/a/b?q=1") ∧
    NormalizeURL "http://example.com/" = "http://example.com/" ∧
    NormalizeURL "http://example.com" = "http://example.com" := by
  have h := normalizeURL_trailing_slash "https://example.com/a/b/?q=1"
    { emptyURL with Scheme := "https", Host := "example.com", Path := "/a/b/",
                    RawQuery := "q=1" } (by decide) (by decide)
  obtain ⟨p, hp, _, _, h4, _⟩ := h.2.1 (by decide) (by decide)
  have hp2 : p = "/a/b" := by
    have hd := congrArg String.data hp
    rw [String.data_append] at hd
    apply String.ext
    have : p.data ++ ['/'] = ['/', 'a', '/', 'b'] ++ ['/'] := hd.symm
    exact List.append_cancel_right this
  subst hp2
  exact ⟨⟨by decide, h4, by decide⟩, by decide, by decide⟩

/-- C18 (the code at the failing input): "http://example.com/a%2Fb/" is a parseable http URL
whose path (decoded "/a/b/", written "/a%2Fb/") is longer than one byte and ends with "/".
`NormalizeURL` shortens the decoded path and leaves the written one (`RawPath`) stale, so the
text is rebuilt from the decoded path: the result is "http://example.com/a/b", not the same
URL with one trailing slash removed, "http://example.com/a%2Fb", which is a different URL
(it is left as it is by `NormalizeURL`, and its one path segment "a%2Fb" parses with its own
`RawPath`, while the result has the two segments "a" and "b").  A space in the path comes
back as "%20". -/
theorem normalizeURL_reencodes_path :
    Parse "http://example.com/a%2Fb/" =
        Except.ok { emptyURL with Scheme := "http", Host := "example.com", Path := "/a/b/",
                                  RawPath := "/a%2Fb/" } ∧
      NormalizeURL "http://example.com/a%2Fb/" = "http://example.com/a/b" ∧
      NormalizeURL "http://example.com/a%2Fb/" ≠ "http://example.com/a%2Fb" ∧
      Parse "http://example.com/a%2Fb" =
        Except.ok { emptyURL with Scheme := "http", Host := "example.com", Path := "/a/b",
                                  RawPath := "/a%2Fb" } ∧
      Parse "http://example.com/a/b" =
        Except.ok { emptyURL with Scheme := "http", Host := "example.com", Path := "/a/b" } ∧
      NormalizeURL "http://example.com/a b/" = "http://example.com/a%20b" ∧
      NormalizeURL "http://example.com/a%2Fb" = "http://example.com/a%2Fb" := by
  decide

/-! ## The target stored for a URL without scheme -/

theorem hasPrefix_append_right (a b p : String) (h : HasPrefix a p = true) :
    HasPrefix (a ++ b) p = true := by
  unfold HasPrefix at h ⊢
  obtain ⟨t, ht⟩ := hasPrefixList_append _ _ h
  rw [String.data_append, ht, List.append_assoc]
  generalize t ++ b.data = r
  generalize p.data = q
  induction q with
  | nil => cases r <;> rfl
  | cons c q ih => simp [hasPrefixList, ih]

/-- The text of a URL with scheme `http`, without opaque part and with a host starts with
`http://`. -/
theorem url_string_starts_http (u : URL) (hs : u.Scheme = "http") (hop : u.Opaque = "")
    (hh : u.Host ≠ "") : HasPrefix (URL.String u) "http://" = true := by
  have hauth : HasPrefix (u.Scheme ++ ":" ++ authorityString u) "http://" = true := by
    unfold authorityString
    simp only [hs, hh, ne_eq, not_false_eq_true, true_or, or_true, if_true, false_and, and_false,
      if_false]
    generalize (match u.User with
      | some ui => Userinfo.String ui ++ "@"
      | none => "") = x
    generalize escape u.Host encoding.encodeHost = y
    unfold HasPrefix
    simp [String.data_append, hasPrefixList]
  unfold URL.String
  have hne : u.Scheme ≠ "" := by rw [hs]; decide
  simp only [hop, hne, ne_eq, not_true_eq_false, not_false_eq_true, if_true, if_false]
  split_ifs <;>
    first
      | exact hauth
      | exact hasPrefix_append_right _ _ _ hauth
      | exact hasPrefix_append_right _ _ _ (hasPrefix_append_right _ _ _ hauth)
      | exact hasPrefix_append_right _ _ _
          (hasPrefix_append_right _ _ _ (hasPrefix_append_right _ _ _ hauth))
      | exact hasPrefix_append_right _ _ _ (hasPrefix_append_right _ _ _
          (hasPrefix_append_right _ _ _ (hasPrefix_append_right _ _ _ hauth)))
      | exact hasPrefix_append_right _ _ _ (hasPrefix_append_right _ _ _
          (hasPrefix_append_right _ _ _ (hasPrefix_append_right _ _ _
            (hasPrefix_append_right _ _ _ hauth))))
      | exact hasPrefix_append_right _ _ _ (hasPrefix_append_right _ _ _
          (hasPrefix_append_right _ _ _ (hasPrefix_append_right _ _ _
            (hasPrefix_append_right _ _ _ (hasPrefix_append_right _ _ _ hauth)))))
      | exact hasPrefix_append_right _ _ _ (hasPrefix_append_right _ _ _
          (hasPrefix_append_right _ _ _ (hasPrefix_append_right _ _ _
            (hasPrefix_append_right _ _ _ (hasPrefix_append_right _ _ _
              (hasPrefix_append_right _ _ _ hauth))))))

/-- A text that starts with `http://` parses, if at all, with the scheme `http`. -/
theorem Parse_scheme_of_http (s : String) (u : URL)
    (hpre : HasPrefix s "http://" = true) (h : Parse s = Except.ok u) : u.Scheme = "http" := by
  obtain ⟨t, ht⟩ := hasPrefixList_append _ _ hpre
  apply parse_outer_scheme s u "http" _ h
  intro v hv
  have hcut : (Cut s '#').1
      = String.mk ('h' :: 't' :: 't' :: 'p' :: ':' :: (cutList '#' ('/' :: '/' :: t)).1) := by
    unfold Cut
    rw [ht]
    simp [cutList]
  rw [hcut] at hv
  exact parse_scheme_http _ v hv

theorem http_prepended_starts (rawURL : String) :
    HasPrefix ("http://" ++ rawURL) "http://" = true :=
  hasPrefix_append_right "http://" rawURL "http://" (by decide)

/-- The outcomes of `CreateShortLink`: an error with the service as it was, or a response
for a new row of the Store whose target is the normalized URL of the request. -/
theorem createShortLink_cases (s : ShortLinkService) (env : CreateEnv)
    (req : CreateShortLinkRequest) :
    ((∃ err, (s.CreateShortLink env req).1 = Except.error err) ∧
        (s.CreateShortLink env req).2 = s) ∨
      ∃ shortCode, s.CreateShortLink env req =
        (Except.ok
          { ShortURL := s.BaseURL ++ "/" ++ shortCode, ShortCode := shortCode,
            OriginalURL := NormalizeURL req.URL, ExpiresAt := req.ExpiresAt,
            CreatedAt := env.now },
         { s with
           repo :=
            { rows := s.repo.rows ++
                [{ ID := s.repo.nextID, ShortCode := shortCode,
                   OriginalURL := NormalizeURL req.URL,
                   AccessCount := 0, CreatedAt := env.now, UpdatedAt := env.now,
                   ExpiresAt := req.ExpiresAt }],
              nextID := s.repo.nextID + 1 },
           bloomFilter := (s.bloomFilter.Add env.filterAdd shortCode).2,
           cache :=
            (s.cache.SetWithDefaultTTL env.now env.cacheSet (cacheKey shortCode)
              (NormalizeURL req.URL)).2 }) := by
  have key : ∀ shortCode,
      s.CreateShortLink env req = s.createWithCode env req (NormalizeURL req.URL) shortCode →
      ((∃ err, (s.CreateShortLink env req).1 = Except.error err) ∧
        (s.CreateShortLink env req).2 = s) ∨
      ∃ shortCode, s.CreateShortLink env req =
        (Except.ok
          { ShortURL := s.BaseURL ++ "/" ++ shortCode, ShortCode := shortCode,
            OriginalURL := NormalizeURL req.URL, ExpiresAt := req.ExpiresAt,
            CreatedAt := env.now },
         { s with
           repo :=
            { rows := s.repo.rows ++
                [{ ID := s.repo.nextID, ShortCode := shortCode,
                   OriginalURL := NormalizeURL req.URL,
                   AccessCount := 0, CreatedAt := env.now, UpdatedAt := env.now,
                   ExpiresAt := req.ExpiresAt }],
              nextID := s.repo.nextID + 1 },
           bloomFilter := (s.bloomFilter.Add env.filterAdd shortCode).2,
           cache :=
            (s.cache.SetWithDefaultTTL env.now env.cacheSet (cacheKey shortCode)
              (NormalizeURL req.URL)).2 }) := by
    intro shortCode hpath
    rcases createWithCode_cases s env req (NormalizeURL req.URL) shortCode with h | h
    · left
      rw [hpath]
      exact h
    · right
      exact ⟨shortCode, hpath.trans h⟩
  by_cases hurl : IsValidURL req.URL = true
  · by_cases hc : req.CustomCode = ""
    · cases hg : s.generateUniqueShortCode env with
      | error err =>
        left
        unfold ShortLinkService.CreateShortLink
        simp [hurl, hc, hg]
      | ok shortCode =>
        exact key shortCode (create_with_generated_code s env req shortCode hurl hc hg)
    · by_cases hv : IsValidShortCode req.CustomCode = true
      · exact key req.CustomCode (create_with_custom_code s env req hurl hv)
      · left
        unfold ShortLinkService.CreateShortLink
        simp [hurl, hc, hv]
  · left
    unfold ShortLinkService.CreateShortLink
    simp [hurl]

/-- C17: for every URL that `IsValidURL` accepts and that starts with neither `http://` nor
`https://`, `NormalizeURL(url)` is `NormalizeURL("http://" + url)`: the text of the URL
parsed from `"http://" + url` (scheme `http`, non-empty host), with one trailing `/` taken
from a path longer than one byte, and this text starts with `http://`.  `CreateShortLink`
either fails and leaves the service as it was, or adds exactly one row to the Store, and the
target of this row, like the target in the response and the value written to the cache, is
`NormalizeURL(url)`. -/
theorem create_stores_normalized (s : ShortLinkService) (env : CreateEnv)
    (req : CreateShortLinkRequest) (hurl : IsValidURL req.URL = true)
    (h1 : HasPrefix req.URL "http://" = false) (h2 : HasPrefix req.URL "https://" = false) :
    NormalizeURL req.URL = NormalizeURL ("http://" ++ req.URL) ∧
    (∃ u, Parse ("http://" ++ req.URL) = Except.ok u ∧ u.Scheme = "http" ∧ u.Host ≠ "" ∧
      NormalizeURL req.URL =
        if len u.Path > 1 ∧ HasSuffix u.Path "/" = true then
          URL.String { u with Path := TrimSuffix u.Path "/" }
        else URL.String u) ∧
    HasPrefix (NormalizeURL req.URL) "http://" = true ∧
    (((∃ err, (s.CreateShortLink env req).1 = Except.error err) ∧
        (s.CreateShortLink env req).2 = s) ∨
      ∃ row resp, (s.CreateShortLink env req).2.repo.rows = s.repo.rows ++ [row] ∧
        row.OriginalURL = NormalizeURL req.URL ∧
        (s.CreateShortLink env req).1 = Except.ok resp ∧
        resp.OriginalURL = NormalizeURL req.URL ∧
        (s.CreateShortLink env req).2.cache =
          (s.cache.SetWithDefaultTTL env.now env.cacheSet (cacheKey row.ShortCode)
            (NormalizeURL req.URL)).2) := by
  obtain ⟨hne, u, hparse, hhost⟩ := (isValidURL_iff req.URL).mp hurl
  have hcond : (!HasPrefix req.URL "http://" && !HasPrefix req.URL "https://") = true := by
    rw [h1, h2]
    rfl
  have hparse0 := hparse
  rw [if_pos hcond] at hparse
  have hpre := http_prepended_starts req.URL
  have hs := Parse_scheme_of_http _ u hpre hparse
  obtain ⟨hop, _, _, _⟩ := Parse_fields_of_prefixed _ u (Or.inl hpre) hparse
  have hn1 := normalizeURL_of_parse req.URL u hne hparse0
  have hself := prefixed_self ("http://" ++ req.URL) (Or.inl hpre)
  have hn2 := normalizeURL_of_parse ("http://" ++ req.URL) u hself.1 (by rw [hself.2]; exact hparse)
  refine ⟨hn1.trans hn2.symm, ⟨u, hparse, hs, hhost, hn1⟩, ?_, ?_⟩
  · rw [hn1]
    split_ifs
    · exact url_string_starts_http _ hs hop hhost
    · exact url_string_starts_http _ hs hop hhost
  · rcases createShortLink_cases s env req with h | ⟨shortCode, h⟩
    · exact Or.inl h
    · right
      rw [h]
      exact ⟨_, _, rfl, rfl, rfl, rfl, rfl⟩

/-- C17 at the input of the scenario: "example.com" is accepted, and the row stored for it
by a create on the empty service has the target "http://example.com". -/
theorem create_stores_normalized_witness :
    IsValidURL "example.com" = true ∧
      NormalizeURL "example.com" = "http://example.com" ∧
      ((initialService 3600 "http://localhost:8080").CreateShortLink (calmCreate 0)
          { URL := "example.com", CustomCode := "", ExpiresAt := none }).2.repo.rows.map
        (fun l => l.OriginalURL) = ["http://example.com"] ∧
      HasPrefix (NormalizeURL "example.com") "http://" = true := by
  refine ⟨by decide, by decide, by decide, ?_⟩
  exact (create_stores_normalized (initialService 3600 "http://localhost:8080") (calmCreate 0)
    { URL := "example.com", CustomCode := "", ExpiresAt := none }
    (by decide) (by decide) (by decide)).2.2.1

/-- After `IncrementAccessCount`, whatever its code and outcome, the link found for a code is
the link found before, or that link with its count raised by one. -/
theorem lookup_increment_cases (r : Repository) (now : Time) (fail : Option String)
    (incremented shortCode : String) (link : ShortLink)
    (hlink : r.lookup shortCode = some link) :
    (r.IncrementAccessCount now fail incremented).2.lookup shortCode = some link ∨
      (r.IncrementAccessCount now fail incremented).2.lookup shortCode
        = some { link with AccessCount := link.AccessCount + 1, UpdatedAt := now } := by
  unfold Repository.IncrementAccessCount
  cases fail with
  | some desc => exact Or.inl hlink
  | none =>
    simp only
    split_ifs with h0
    · exact Or.inl hlink
    · by_cases hc : shortCode = incremented
      · right
        subst hc
        show (r.rows.map _).find? _ = _
        rw [lookup_after_increment]
        unfold Repository.lookup at hlink
        rw [hlink]
        rfl
      · left
        show (r.rows.map _).find? _ = _
        rw [lookup_other_after_increment _ _ _ _ hc]
        exact hlink

/-- The Store after one `GetOriginalURL` or one background goroutine is the Store before, or
the Store after one `IncrementAccessCount`. -/
theorem resolve_step_repo (s : ShortLinkService) (op : Op)
    (hop : (∃ env shortCode, op = Op.resolve env shortCode) ∨
      ∃ now fail, op = Op.background now fail) :
    (s.step op).repo = s.repo ∨
      ∃ now fail incremented,
        (s.step op).repo = (s.repo.IncrementAccessCount now fail incremented).2 := by
  rcases hop with ⟨env, shortCode, h⟩ | ⟨now, fail, h⟩
  · subst h
    show (s.GetOriginalURL env shortCode).2.repo = s.repo ∨
      ∃ now fail incremented, (s.GetOriginalURL env shortCode).2.repo
        = (s.repo.IncrementAccessCount now fail incremented).2
    unfold ShortLinkService.GetOriginalURL
    cases s.cache.Get env.now env.cacheGet (cacheKey shortCode) with
    | ok u => exact Or.inl rfl
    | error err =>
      simp only
      cases s.repo.GetShortLinkByCode env.storeGet shortCode with
      | error err2 =>
        simp only
        split_ifs <;> exact Or.inl rfl
      | ok link =>
        simp only
        split_ifs
        · exact Or.inl rfl
        · exact Or.inr ⟨env.now, env.storeIncrement, shortCode, rfl⟩
  · subst h
    show (s.runBackground now fail).repo = s.repo ∨
      ∃ now2 fail2 incremented, (s.runBackground now fail).repo
        = (s.repo.IncrementAccessCount now2 fail2 incremented).2
    unfold ShortLinkService.runBackground
    cases s.background with
    | nil => exact Or.inl rfl
    | cons shortCode rest => exact Or.inr ⟨now, fail, shortCode, rfl⟩

/-- A successful `IncrementAccessCount` of a stored code raises its count by exactly one. -/
theorem increment_stored (r : Repository) (now : Time) (shortCode : String) (link : ShortLink)
    (hlink : r.lookup shortCode = some link) :
    (r.IncrementAccessCount now none shortCode).1 = none ∧
      (r.IncrementAccessCount now none shortCode).2.lookup shortCode
        = some { link with AccessCount := link.AccessCount + 1, UpdatedAt := now } := by
  have hfind : r.rows.find? (fun l => decide (l.ShortCode = shortCode)) = some link := hlink
  have hcode := List.find?_some hfind
  have hsome : (r.rows.filter fun l => l.ShortCode = shortCode).length ≠ 0 := by
    intro h0
    have hnil := List.length_eq_zero.mp h0
    have hm : link ∈ r.rows.filter fun l => l.ShortCode = shortCode :=
      List.mem_filter.mpr ⟨List.mem_of_find?_eq_some hfind, hcode⟩
    rw [hnil] at hm
    cases hm
  constructor
  · unfold Repository.IncrementAccessCount
    simp only [hsome, if_false]
  · unfold Repository.IncrementAccessCount
    simp only [hsome, if_false]
    show (r.rows.map _).find? _ = _
    rw [lookup_after_increment, hfind]
    rfl

/-- One `GetOriginalURL` or one background goroutine keeps every stored link and leaves its
count or raises it by one. -/
theorem resolve_step_count (s : ShortLinkService) (op : Op)
    (hop : (∃ env shortCode, op = Op.resolve env shortCode) ∨
      ∃ now fail, op = Op.background now fail)
    (shortCode : String) (link : ShortLink) (hlink : s.repo.lookup shortCode = some link) :
    ∃ link1, (s.step op).repo.lookup shortCode = some link1 ∧
      (link1.AccessCount = link.AccessCount ∨ link1.AccessCount = link.AccessCount + 1) ∧
      link1.ShortCode = link.ShortCode ∧ link1.OriginalURL = link.OriginalURL ∧
      link1.ExpiresAt = link.ExpiresAt ∧ link1.CreatedAt = link.CreatedAt := by
  rcases resolve_step_repo s op hop with h | ⟨now, fail, incremented, h⟩
  · rw [h]
    exact ⟨link, hlink, Or.inl rfl, rfl, rfl, rfl, rfl⟩
  · rw [h]
    rcases lookup_increment_cases s.repo now fail incremented shortCode link hlink with h2 | h2
    · exact ⟨link, h2, Or.inl rfl, rfl, rfl, rfl, rfl⟩
    · exact ⟨_, h2, Or.inr rfl, rfl, rfl, rfl, rfl⟩

/-- The count of a stored link over a whole sequence of such steps. -/
theorem resolve_run_count (ops : List Op)
    (hops : ∀ op ∈ ops, (∃ env shortCode, op = Op.resolve env shortCode) ∨
      ∃ now fail, op = Op.background now fail) :
    ∀ (s : ShortLinkService) (shortCode : String) (link : ShortLink),
      s.repo.lookup shortCode = some link →
      ∃ link2, (s.run ops).repo.lookup shortCode = some link2 ∧
        link.AccessCount ≤ link2.AccessCount ∧
        link2.AccessCount ≤ link.AccessCount + (ops.length : Int) ∧
        link2.ShortCode = link.ShortCode ∧ link2.OriginalURL = link.OriginalURL ∧
        link2.ExpiresAt = link.ExpiresAt ∧ link2.CreatedAt = link.CreatedAt := by
  induction ops with
  | nil =>
    intro s shortCode link hlink
    exact ⟨link, hlink, le_refl _, by simp, rfl, rfl, rfl, rfl⟩
  | cons op rest ih =>
    intro s shortCode link hlink
    have hrest : ∀ op2 ∈ rest, (∃ env shortCode, op2 = Op.resolve env shortCode) ∨
        ∃ now fail, op2 = Op.background now fail :=
      fun op2 h => hops op2 (List.mem_cons_of_mem _ h)
    obtain ⟨link1, hl1, hcount, hcode, hurl, hexp, hcreated⟩ :=
      resolve_step_count s op (hops op (List.mem_cons_self _ _)) shortCode link hlink
    obtain ⟨link2, hl2, hge, hle, h2code, h2url, h2exp, h2created⟩ :=
      ih hrest (s.step op) shortCode link1 hl1
    refine ⟨link2, hl2, ?_, ?_, ?_, ?_, ?_, ?_⟩
    · rcases hcount with h | h <;> omega
    · simp only [List.length_cons]
      push_cast
      rcases hcount with h | h <;> omega
    · rw [h2code, hcode]
    · rw [h2url, hurl]
    · rw [h2exp, hexp]
    · rw [h2created, hcreated]

/-- C20: for every code with a link in the Store and every sequence of `GetOriginalURL` calls
(on any codes, cache hits and misses, with any collaborator outcomes) interleaved with the
background increments they start, the link stays in the Store with its code, target, expiry
and creation time, and its access count never decreases: each step leaves the count or
raises it by exactly one, so after the whole sequence it lies between the old count and the
old count plus the number of steps; a successful increment of the code raises it by exactly
one. -/
theorem accessCount_monotone (s : ShortLinkService) (ops : List Op)
    (hops : ∀ op ∈ ops, (∃ env shortCode, op = Op.resolve env shortCode) ∨
      ∃ now fail, op = Op.background now fail)
    (shortCode : String) (link : ShortLink) (hlink : s.repo.lookup shortCode = some link) :
    (∀ op, ((∃ env code, op = Op.resolve env code) ∨ ∃ now fail, op = Op.background now fail) →
      ∃ link1, (s.step op).repo.lookup shortCode = some link1 ∧
        (link1.AccessCount = link.AccessCount ∨ link1.AccessCount = link.AccessCount + 1)) ∧
      (∃ link2, (s.run ops).repo.lookup shortCode = some link2 ∧
        link.AccessCount ≤ link2.AccessCount ∧
        link2.AccessCount ≤ link.AccessCount + (ops.length : Int) ∧
        link2.ShortCode = link.ShortCode ∧ link2.OriginalURL = link.OriginalURL ∧
        link2.ExpiresAt = link.ExpiresAt ∧ link2.CreatedAt = link.CreatedAt) ∧
      (∀ now, (s.repo.IncrementAccessCount now none shortCode).2.lookup shortCode
        = some { link with AccessCount := link.AccessCount + 1, UpdatedAt := now }) := by
  refine ⟨?_, resolve_run_count ops hops s shortCode link hlink, ?_⟩
  · intro op hop
    obtain ⟨l, h1, h2, _⟩ := resolve_step_count s op hop shortCode link hlink
    exact ⟨l, h1, h2⟩
  · intro now
    exact (increment_stored s.repo now shortCode link hlink).2

theorem accessCount_monotone_witness :
    ∃ link2,
      ((initialService 3600 "http://localhost:8080").run
        ([Op.create (calmCreate 0) ⟨"http://example.com", "abc", none⟩] ++
          [Op.resolve (calmResolve 1) "abc", Op.resolve (calmResolve 4000) "abc",
           Op.background 4001 (some "database down"), Op.resolve (calmResolve 4002) "abc",
           Op.background 4003 none])).repo.lookup "abc" = some link2 ∧
        0 ≤ link2.AccessCount ∧ link2.AccessCount ≤ 0 + 5 := by
  obtain ⟨link2, h1, h2, h3, _⟩ := (accessCount_monotone
    ((initialService 3600 "http://localhost:8080").run
      [Op.create (calmCreate 0) ⟨"http://example.com", "abc", none⟩])
    [Op.resolve (calmResolve 1) "abc", Op.resolve (calmResolve 4000) "abc",
     Op.background 4001 (some "database down"), Op.resolve (calmResolve 4002) "abc",
     Op.background 4003 none]
    (by
      intro op hop
      simp only [List.mem_cons, List.mem_singleton, List.not_mem_nil, or_false] at hop
      rcases hop with h | h | h | h | h <;> rw [h]
      · exact Or.inl ⟨_, _, rfl⟩
      · exact Or.inl ⟨_, _, rfl⟩
      · exact Or.inr ⟨_, _, rfl⟩
      · exact Or.inl ⟨_, _, rfl⟩
      · exact Or.inr ⟨_, _, rfl⟩)
    "abc"
    { ID := 1, ShortCode := "abc", OriginalURL := "http://example.com", AccessCount := 0,
      CreatedAt := 0, UpdatedAt := 0, ExpiresAt := none } (by decide)).2.1
  refine ⟨link2, ?_, h2, h3⟩
  rw [← h1]
  rfl

/-! ## `Encode` after `Decode` -/

theorem alphabet_index : ∀ c ∈ base62Chars.data,
    0 ≤ IndexByte base62Chars c ∧ IndexByte base62Chars c < 62 ∧
      charAt base62Chars (IndexByte base62Chars c) = c ∧
      (IndexByte base62Chars c = 0 → c = '0') := by
  decide

/-- The loop of `Decode` on at most 10 symbols of the alphabet, least significant first: no
`int64` operation wraps, and the result is the number written by the symbols in base 62. -/
theorem decodeLoop_ofDigits (e : Base62Encoder) (hc : e.chars = base62Chars)
    (hb : e.base = 62) :
    ∀ (ds : List Char), (∀ c ∈ ds, c ∈ base62Chars.data) →
      ∀ (result power : Int), 0 ≤ result → result < power →
        power * 62 ^ ds.length ≤ 62 ^ 10 →
        decodeLoop e ds result power = result + power *
          ((Nat.ofDigits 62 (ds.map fun c => (IndexByte base62Chars c).toNat) : Nat) : Int) := by
  intro ds
  induction ds with
  | nil =>
    intro _ result power _ _ _
    simp [decodeLoop]
  | cons c rest ih =>
    intro hmem result power h0 hlt hpow
    obtain ⟨i0, i1, _, _⟩ := alphabet_index c (hmem c (List.mem_cons_self c rest))
    have hone : (1 : Int) ≤ 62 ^ rest.length := one_le_pow₀ (by norm_num)
    have hpow2 : power * 62 * 62 ^ rest.length ≤ 62 ^ 10 := by
      have : power * 62 ^ (c :: rest).length = power * 62 * 62 ^ rest.length := by
        rw [List.length_cons, pow_succ]
        ring
      rw [← this]
      exact hpow
    have hp62 : power * 62 ≤ 62 ^ 10 := by
      have h1 : power * 62 * 1 ≤ power * 62 * 62 ^ rest.length :=
        Int.mul_le_mul_of_nonneg_left hone (by omega)
      omega
    have hbig : (62 : Int) ^ 10 < 2 ^ 63 := by norm_num
    have hidx : 0 ≤ IndexByte base62Chars c * power := Int.mul_nonneg i0 (by omega)
    have hidx2 : IndexByte base62Chars c * power ≤ 61 * power :=
      Int.mul_le_mul_of_nonneg_right (by omega) (by omega)
    simp only [decodeLoop, hc, hb]
    rw [if_neg (by omega)]
    rw [wrapInt64_of_range (IndexByte base62Chars c * power) (by omega) (by omega),
      wrapInt64_of_range (result + IndexByte base62Chars c * power) (by omega) (by omega),
      wrapInt64_of_range (power * 62) (by omega) (by omega)]
    rw [ih (fun d hd => hmem d (List.mem_cons_of_mem c hd)) _ _ (by omega) (by omega) hpow2]
    simp only [List.map_cons, Nat.ofDigits_cons]
    push_cast
    rw [Int.toNat_of_nonneg i0]
    ring

/-- The loop of `Encode` writes the base-62 digits of the number, least significant first,
each as its symbol of the alphabet. -/
theorem encodeLoop_digits (e : Base62Encoder) (hc : e.chars = base62Chars)
    (hb : e.base = 62) :
    ∀ (fuel n : Nat), n ≤ fuel →
      encodeLoop e fuel (n : Int) [] =
        (Nat.digits 62 n).map fun (d : Nat) => charAt base62Chars (d : Int) := by
  intro fuel
  induction fuel with
  | zero =>
    intro n hn
    have : n = 0 := by omega
    subst this
    simp [encodeLoop]
  | succ fuel ih =>
    intro n hn
    by_cases hpos : n = 0
    · subst hpos
      simp [encodeLoop]
    · have hn0 : 0 < n := Nat.pos_of_ne_zero hpos
      simp only [encodeLoop]
      rw [if_pos (by omega), encodeLoop_append, hc, hb,
        Int.tdiv_eq_ediv (by omega) (by omega), Int.tmod_eq_emod (by omega) (by omega)]
      have hd : ((n : Int) / 62) = ((n / 62 : Nat) : Int) := by omega
      have hm : ((n : Int) % 62) = ((n % 62 : Nat) : Int) := by omega
      rw [hd, hm, ih (n / 62) (by omega), Nat.digits_def' (by norm_num) hn0]
      simp

/-- For an encoder over the 62-symbol alphabet, `Encode` undoes `Decode` on every canonical
numeral of at most 10 symbols. -/
theorem encode_decode_of (e : Base62Encoder) (hc : e.chars = base62Chars) (hb : e.base = 62)
    (s : String) (hne : s ≠ "") (halpha : ∀ c ∈ s.data, c ∈ base62Chars.data)
    (hlen : len s ≤ 10) (hcanon : s = "0" ∨ HasPrefix s "0" = false) :
    Encode e (Decode e s) = s := by
  have hlen2 : s.data.reverse.length ≤ 10 := by
    unfold len at hlen
    rw [List.length_reverse]
    omega
  have hD : Decode e s = ((Nat.ofDigits 62
      (s.data.reverse.map fun c => (IndexByte base62Chars c).toNat) : Nat) : Int) := by
    unfold Decode
    rw [decodeLoop_ofDigits e hc hb s.data.reverse
      (fun c h => halpha c (List.mem_reverse.mp h)) 0 1 (le_refl 0) (by norm_num)
      (by
        rw [one_mul]
        exact pow_le_pow_right₀ (by norm_num) hlen2)]
    ring
  by_cases hzero : s = "0"
  · subst hzero
    have hd0 : Decode e "0" = 0 := by
      rw [hD]
      have h0 : IndexByte base62Chars '0' = 0 := by decide
      show ((Nat.ofDigits 62 [(IndexByte base62Chars '0').toNat] : Nat) : Int) = 0
      rw [h0]
      rfl
    rw [hd0]
    unfold Encode
    rw [if_pos rfl, hc]
    rfl
  · have hpre : HasPrefix s "0" = false := by
      rcases hcanon with h | h
      · exact absurd h hzero
      · exact h
    obtain ⟨c, t, hs⟩ : ∃ c t, s.data = c :: t := by
      cases hd : s.data with
      | nil => exact absurd (String.ext hd) hne
      | cons c t => exact ⟨c, t, rfl⟩
    have hc0 : c ≠ '0' := by
      intro h
      unfold HasPrefix at hpre
      rw [hs, h] at hpre
      exact absurd hpre (by simp [hasPrefixList])
    have hcmem : c ∈ base62Chars.data := halpha c (by rw [hs]; exact List.mem_cons_self c t)
    have hidx : (IndexByte base62Chars c).toNat ≠ 0 := by
      obtain ⟨i0, _, _, i3⟩ := alphabet_index c hcmem
      intro h
      exact hc0 (i3 (by omega))
    have hw1 : ∀ l ∈ (s.data.reverse.map fun c => (IndexByte base62Chars c).toNat), l < 62 := by
      intro l hl
      obtain ⟨d, hd, rfl⟩ := List.mem_map.mp hl
      obtain ⟨i0, i1, _, _⟩ := alphabet_index d (halpha d (List.mem_reverse.mp hd))
      omega
    have hw2 : ∀ h : (s.data.reverse.map fun c => (IndexByte base62Chars c).toNat) ≠ [],
        (s.data.reverse.map fun c => (IndexByte base62Chars c).toNat).getLast h ≠ 0 := by
      intro h
      have hl : (s.data.reverse.map fun c => (IndexByte base62Chars c).toNat) =
          (t.reverse.map fun c => (IndexByte base62Chars c).toNat) ++
            [(IndexByte base62Chars c).toNat] := by
        rw [hs]
        simp
      simp only [hl, List.getLast_append_singleton]
      exact hidx
    have hdig := Nat.digits_ofDigits 62 (by norm_num) _ hw1 hw2
    have hv : Nat.ofDigits 62
        (s.data.reverse.map fun c => (IndexByte base62Chars c).toNat) ≠ 0 := by
      intro h
      rw [h] at hdig
      rw [hs] at hdig
      simp at hdig
    rw [hD]
    unfold Encode
    rw [if_neg (by exact_mod_cast hv)]
    apply String.ext
    rw [reverseString_encodeLoop e hc hb, Int.toNat_ofNat,
      encodeLoop_digits e hc hb _ _ (le_refl _), hdig, List.map_map]
    have hid : (s.data.reverse.map
        ((fun d : Nat => charAt base62Chars (d : Int)) ∘
          fun c => (IndexByte base62Chars c).toNat)) = s.data.reverse := by
      conv_rhs => rw [← List.map_id s.data.reverse]
      apply List.map_congr_left
      intro d hd
      obtain ⟨i0, _, i2, _⟩ := alphabet_index d (halpha d (List.mem_reverse.mp hd))
      show charAt base62Chars (((IndexByte base62Chars d).toNat : Nat) : Int) = id d
      rw [Int.toNat_of_nonneg i0]
      exact i2
    rw [hid, List.reverse_reverse]

/-- C21: for every configured code length and every non-empty string `s` of at most 10
symbols of the 62-symbol alphabet that is `"0"` or does not start with the symbol `0`,
`Encode (Decode s) = s`, with the arithmetic of `Decode` taken as Go `int64` arithmetic (no
operation wraps for these strings). -/
theorem encode_decode_roundtrip (L : Int) (s : String) (hne : s ≠ "")
    (halpha : ∀ c ∈ s.data, c ∈ base62Chars.data) (hlen : len s ≤ 10)
    (hcanon : s = "0" ∨ HasPrefix s "0" = false) :
    Encode (SetCodeLength NewBase62Encoder L) (Decode (SetCodeLength NewBase62Encoder L) s)
      = s :=
  encode_decode_of _ (by rw [setCodeLength_chars]; rfl)
    (by rw [setCodeLength_base]; exact len_base62Chars) s hne halpha hlen hcanon

/-- C21 at the largest numeral of 10 symbols and at "0". -/
theorem encode_decode_roundtrip_witness :
    ("zzzzzzzzzz" ≠ "" ∧ (∀ c ∈ "zzzzzzzzzz".data, c ∈ base62Chars.data) ∧
        len "zzzzzzzzzz" ≤ 10 ∧ HasPrefix "zzzzzzzzzz" "0" = false) ∧
      Encode (SetCodeLength NewBase62Encoder 6)
        (Decode (SetCodeLength NewBase62Encoder 6) "zzzzzzzzzz") = "zzzzzzzzzz" ∧
      Encode (SetCodeLength NewBase62Encoder 6)
        (Decode (SetCodeLength NewBase62Encoder 6) "0") = "0" :=
  ⟨⟨by decide, by decide, by decide, by decide⟩,
    encode_decode_roundtrip 6 "zzzzzzzzzz" (by decide) (by decide) (by decide)
      (Or.inr (by decide)),
    encode_decode_roundtrip 6 "0" (by decide) (by decide) (by decide) (Or.inl rfl)⟩

/-! ## The three readings of "expired" -/

/-- C22 (the code in general and at the failing input): for every link and instant,
`IsExpired` and the `WHERE` clause of `DeleteExpiredLinks` agree (expiry strictly before
`now`), but the `expired_links` filter of `GetStats` also counts a link whose expiry is
exactly `now`.  At the failing input, a Store with one link that expires at instant 5, read
at instant 5 with nothing in the cache: `GetOriginalURL` through the Store returns the
target (not `ErrExpiredLink`), `CleanExpiredLinks` deletes nothing, and `GetStats` reports
`expired_links = 1`. -/
theorem expired_links_counts_expiry_instant :
    (∀ (l : ShortLink) (now : Time), l.IsExpired now = deletedByCleanup now l) ∧
    (∀ (l : ShortLink) (now : Time),
      countedExpired now l = (l.IsExpired now || decide (l.ExpiresAt = some now))) ∧
    (∀ (s : ShortLinkService) (now : Time),
      (s.CleanExpiredLinks now none).2.repo.rows =
        s.repo.rows.filter (fun l => !l.IsExpired now)) ∧
    (((initialService 3600 "http://localhost:8080").run
        [Op.create { calmCreate 0 with cacheSet := some "cache down" }
          ⟨"http://example.com", "abc", some 5⟩]).repo.rows.map (fun l => l.ExpiresAt)
        = [some 5] ∧
      ((initialService 3600 "http://localhost:8080").run
        [Op.create { calmCreate 0 with cacheSet := some "cache down" }
          ⟨"http://example.com", "abc", some 5⟩]).cache.Get 5 none (cacheKey "abc")
        = Except.error (GoError.sentinel Sentinel.redisNil) ∧
      (((initialService 3600 "http://localhost:8080").run
        [Op.create { calmCreate 0 with cacheSet := some "cache down" }
          ⟨"http://example.com", "abc", some 5⟩]).GetOriginalURL (calmResolve 5) "abc").1
        = Except.ok "http://example.com" ∧
      (((initialService 3600 "http://localhost:8080").run
        [Op.create { calmCreate 0 with cacheSet := some "cache down" }
          ⟨"http://example.com", "abc", some 5⟩]).CleanExpiredLinks 5 none).1
        = Except.ok 0 ∧
      ((initialService 3600 "http://localhost:8080").run
        [Op.create { calmCreate 0 with cacheSet := some "cache down" }
          ⟨"http://example.com", "abc", some 5⟩]).GetStats 5 none
        = Except.ok { total_links := 1, total_accesses := 0, active_links := 0,
                      expired_links := 1, permanent_links := 0 }) := by
  refine ⟨?_, ?_, ?_, ?_⟩
  · intro l now
    rfl
  · intro l now
    unfold countedExpired ShortLink.IsExpired
    cases l.ExpiresAt with
    | none => rfl
    | some t =>
      simp only [Option.some.injEq]
      rcases lt_trichotomy t now with h | h | h
      · simp [h, le_of_lt h, ne_of_lt h]
      · simp [h]
      · simp [not_le.mpr h, not_lt.mpr (le_of_lt h), ne_of_gt h]
  · intro s now
    show s.repo.rows.filter (fun l => !deletedByCleanup now l) = _
    rfl
  · decide

end ShortUrl
